import Mathlib

/-! # Definitions -/

namespace AxisSweep3

/-- Class `btAxisSweep3InternalEdge`: position (low bit is the min/max flag) and owning handle. -/
structure Edge where
  m_pos : Nat
  m_handle : Nat
deriving DecidableEq, Repr

/-- The template parameter `BP_FP_INT_TYPE`: `unsigned short` for `btAxisSweep3`,
`unsigned int` for `bt32BitAxisSweep3`. -/
inductive IntType where
  | u16
  | u32
deriving DecidableEq, Repr

/-- Number of bits of the integer type. -/
def IntType.bits : IntType → Nat
  | .u16 => 16
  | .u32 => 32

/-- Method `IsMax` of an edge whose integer type is `T`:
`static_cast<BP_FP_INT_TYPE>(m_pos & 1)`. -/
def Edge.IsMax (T : IntType) (e : Edge) : Nat :=
  (e.m_pos &&& 1) % 2 ^ T.bits

/-- Class `btAxisSweep3InternalHandle`: indexes into the three edge arrays and the
proxy of the raycast accelerator, a pointer taken as a number. The members of the base
class `btBroadphaseProxy`, which is declared outside the repository, are left out. -/
structure Handle where
  m_minEdges : Fin 3 → Nat
  m_maxEdges : Fin 3 → Nat
  m_dbvtProxy : Nat

/-- Method `SetNextFree`: `m_minEdges[0] = next`. -/
def Handle.SetNextFree (h : Handle) (next : Nat) : Handle :=
  { h with m_minEdges := Function.update h.m_minEdges 0 next }

/-- Method `GetNextFree`: `return m_minEdges[0]`. -/
def Handle.GetNextFree (h : Handle) : Nat :=
  h.m_minEdges 0

end AxisSweep3

namespace Scene

/-- The C library function `strcmp` on byte buffers: the buffers are read up to their first
zero byte (the end of a buffer counts as the terminator), and the result is the difference
of the first pair of bytes that differ. -/
def strcmp : List Nat → List Nat → Int
  | [], [] => 0
  | [], b :: _ => if b = 0 then 0 else 0 - (b : Int)
  | a :: _, [] => if a = 0 then 0 else (a : Int)
  | a :: as, b :: bs =>
    if a ≠ b then (a : Int) - (b : Int)
    else if a = 0 then 0
    else strcmp as bs

/-- The struct `aiNode`: the node's address (what `this` is), the bytes of `mName.data`
and the children `mChildren[0 .. mNumChildren-1]`; `FindNode` reads no other member. -/
inductive aiNode where
  | mk (addr : Nat) (mName : List Nat) (mChildren : List aiNode) : aiNode

/-- Field `mName.data` of a node. -/
def aiNode.mName : aiNode → List Nat
  | .mk _ n _ => n

/-- Field `mChildren` of a node, `mNumChildren` entries long. -/
def aiNode.mChildren : aiNode → List aiNode
  | .mk _ _ cs => cs

/-- The address of a node. -/
def aiNode.addr : aiNode → Nat
  | .mk a _ _ => a

mutual
/-- Method `aiNode::FindNode(const char* name)` as a function of the tree, the pointer
returned: the body that the const overload and the one that is not const both have. -/
def aiNode.FindNode : aiNode → List Nat → Option aiNode
  | .mk a nm cs, name =>
    if strcmp nm name = 0 then some (.mk a nm cs)
    else FindNode.children cs name
/-- The `for` loop of `FindNode` over the children still to be visited. -/
def FindNode.children : List aiNode → List Nat → Option aiNode
  | [], _ => none
  | c :: cs, name =>
    match c.FindNode name with
    | some p => some p
    | none => FindNode.children cs name
end

end Scene

namespace Scene

/-- The C string held in a buffer: the bytes before the first zero byte. -/
def cstr (buf : List Nat) : List Nat :=
  buf.takeWhile (fun b => b != 0)

mutual
/-- The nodes of the subtree rooted at a node, in depth-first pre-order. -/
def aiNode.subtree : aiNode → List aiNode
  | .mk a nm cs => .mk a nm cs :: subtreeList cs
/-- The pre-order of a list of sibling subtrees. -/
def subtreeList : List aiNode → List aiNode
  | [] => []
  | c :: cs => c.subtree ++ subtreeList cs
end

/-- The test `!::strcmp(mName.data, name)` of `FindNode` on a node. -/
def nameMatches (name : List Nat) (m : aiNode) : Bool :=
  strcmp m.mName name == 0

end Scene

namespace Scene

/-- The struct `aiString`, which `types.h` declares outside the repository: the buffer
`data`, the one member that `FindNode` reads. -/
structure aiString where
  data : List Nat

mutual
/-- Method `aiNode* aiNode::FindNode(const char* name)`, the overload that is not const,
with the node passed through as state: the node after the call and the pointer returned.
The call `mChildren[i]->FindNode(name)` is on an `aiNode*` and resolves to this overload. -/
def aiNode.FindNode_nonconst : aiNode → List Nat → aiNode × Option aiNode
  | .mk a nm cs, name =>
    if strcmp nm name = 0 then (.mk a nm cs, some (.mk a nm cs))
    else (.mk a nm (FindNode_nonconst.children cs name).1, (FindNode_nonconst.children cs name).2)
/-- The `for` loop of the overload that is not const, over the children still to be
visited: the children after the loop and the pointer returned. -/
def FindNode_nonconst.children : List aiNode → List Nat → List aiNode × Option aiNode
  | [], _ => ([], none)
  | c :: cs, name =>
    match (c.FindNode_nonconst name).2 with
    | some p => ((c.FindNode_nonconst name).1 :: cs, some p)
    | none =>
      ((c.FindNode_nonconst name).1 :: (FindNode_nonconst.children cs name).1,
        (FindNode_nonconst.children cs name).2)
end

/-- The `for` loop of the const overload over the children still to be visited. The member
`mChildren` is an `aiNode**`, so in the const method `mChildren[i]` is still an `aiNode*`
and the call `mChildren[i]->FindNode(name)` resolves to the overload that is not const. -/
def FindNode_const.children : List aiNode → List Nat → List aiNode × Option aiNode
  | [], _ => ([], none)
  | c :: cs, name =>
    match (c.FindNode_nonconst name).2 with
    | some p => ((c.FindNode_nonconst name).1 :: cs, some p)
    | none =>
      ((c.FindNode_nonconst name).1 :: (FindNode_const.children cs name).1,
        (FindNode_const.children cs name).2)

/-- Method `const aiNode* aiNode::FindNode(const char* name) const`, with the node passed
through as state: the node after the call and the pointer returned. -/
def aiNode.FindNode_const : aiNode → List Nat → aiNode × Option aiNode
  | .mk a nm cs, name =>
    if strcmp nm name = 0 then (.mk a nm cs, some (.mk a nm cs))
    else (.mk a nm (FindNode_const.children cs name).1, (FindNode_const.children cs name).2)

/-- Method `const aiNode* aiNode::FindNode(const aiString& name) const`:
`return FindNode(name.data)`, a call on the const `this`. -/
def aiNode.FindNode_aiString_const (n : aiNode) (name : aiString) : aiNode × Option aiNode :=
  n.FindNode_const name.data

/-- Method `aiNode* aiNode::FindNode(const aiString& name)`: `return FindNode(name.data)`,
a call on a `this` that is not const. -/
def aiNode.FindNode_aiString_nonconst (n : aiNode) (name : aiString) :
    aiNode × Option aiNode :=
  n.FindNode_nonconst name.data

end Scene

namespace AxisSweep3

/-- Modelled from the spec: the error taxonomy of the broadphase, which the repository
does not declare. -/
inductive Error where
  | CapacityExceeded
  | InvalidHandle
  | OutOfBounds
  | AllocationFailure
deriving DecidableEq, Repr

/-- The members of `btAxisSweep3Internal<BP_FP_INT_TYPE>` that the operations below use.
`R` is the type of `btVector3`; arrays are functions from the index; the pair cache is the
list of its valid entries, each an ordered pair of handle indices. -/
structure Broadphase (T : IntType) (R : Type) where
  m_bpHandleMask : Nat
  m_handleSentinel : Nat
  m_worldAabbMin : R
  m_worldAabbMax : R
  m_numHandles : Nat
  m_maxHandles : Nat
  m_pHandles : Nat → Handle
  m_firstFreeHandle : Nat
  m_pEdges : Fin 3 → Nat → Edge
  m_pairCache : List (Nat × Nat)

variable {T : IntType} {R : Type}

/-- Method `getNumHandles`. -/
def getNumHandles (s : Broadphase T R) : Nat :=
  s.m_numHandles

/-- Method `getBroadphaseAabb`: the two output references receive the world bounds; the
broadphase itself is returned as it was. -/
def getBroadphaseAabb (s : Broadphase T R) (_aabbMin _aabbMax : R) : Broadphase T R × R × R :=
  (s, s.m_worldAabbMin, s.m_worldAabbMax)

/-- Default of `maxHandles` in the constructor of `btAxisSweep3`. -/
def btAxisSweep3_defaultMaxHandles : Nat := 16384

/-- Default of `maxHandles` in the constructor of `bt32BitAxisSweep3`. -/
def bt32BitAxisSweep3_defaultMaxHandles : Nat := 1500000

/-- Default of `maxHandles` of the variant with the given integer type. -/
def defaultMaxHandles : IntType → Nat
  | .u16 => btAxisSweep3_defaultMaxHandles
  | .u32 => bt32BitAxisSweep3_defaultMaxHandles

/-- Number of entries of each edge array: `m_maxHandles * 2 + 2`. -/
def edgeArraySize (maxHandles : Nat) : Nat :=
  maxHandles * 2 + 2

/-! ### Accessors and elementary writes -/

/-- The value `m_pHandles[a].m_minEdges[axis]`. -/
def minE (s : Broadphase T R) (a : Nat) (axis : Fin 3) : Nat :=
  (s.m_pHandles a).m_minEdges axis

/-- The value `m_pHandles[a].m_maxEdges[axis]`. -/
def maxE (s : Broadphase T R) (a : Nat) (axis : Fin 3) : Nat :=
  (s.m_pHandles a).m_maxEdges axis

/-- The value `m_pEdges[axis][i].m_pos`. -/
def edgePos (s : Broadphase T R) (axis : Fin 3) (i : Nat) : Nat :=
  (s.m_pEdges axis i).m_pos

/-- The value `m_pEdges[axis][i].m_handle`. -/
def edgeHandle (s : Broadphase T R) (axis : Fin 3) (i : Nat) : Nat :=
  (s.m_pEdges axis i).m_handle

/-- Quantized position of the min edge of handle `a`: the edge at `m_minEdges[axis]`. -/
def minPos (s : Broadphase T R) (a : Nat) (axis : Fin 3) : Nat :=
  edgePos s axis (minE s a axis)

/-- Quantized position of the max edge of handle `a`: the edge at `m_maxEdges[axis]`. -/
def maxPos (s : Broadphase T R) (a : Nat) (axis : Fin 3) : Nat :=
  edgePos s axis (maxE s a axis)

/-- The assignment `m_pHandles[a].m_minEdges[axis] = v`. -/
def setMinEdge (s : Broadphase T R) (a : Nat) (axis : Fin 3) (v : Nat) : Broadphase T R :=
  let h := s.m_pHandles a
  let h1 : Handle := { h with m_minEdges := Function.update h.m_minEdges axis v }
  { s with m_pHandles := Function.update s.m_pHandles a h1 }

/-- The assignment `m_pHandles[a].m_maxEdges[axis] = v`. -/
def setMaxEdge (s : Broadphase T R) (a : Nat) (axis : Fin 3) (v : Nat) : Broadphase T R :=
  let h := s.m_pHandles a
  let h1 : Handle := { h with m_maxEdges := Function.update h.m_maxEdges axis v }
  { s with m_pHandles := Function.update s.m_pHandles a h1 }

/-- The assignment `m_pEdges[axis][i] = e`. -/
def setEdge (s : Broadphase T R) (axis : Fin 3) (i : Nat) (e : Edge) : Broadphase T R :=
  { s with m_pEdges := Function.update s.m_pEdges axis (Function.update (s.m_pEdges axis) i e) }

/-- The assignment `m_pEdges[axis][i].m_pos = p`. -/
def setEdgePos (s : Broadphase T R) (axis : Fin 3) (i : Nat) (p : Nat) : Broadphase T R :=
  setEdge s axis i { (s.m_pEdges axis i) with m_pos := p }

/-! ### Pair cache -/

/-- Modelled from the spec: the ordered pair of two handles as the pair cache, whose
code is not in the repository, stores it, the smaller handle index first. -/
def mkPair (a b : Nat) : Nat × Nat :=
  if a < b then (a, b) else (b, a)

/-- Modelled from the spec: `addOverlappingPair` of the pair cache, whose code is not in
the repository. Idempotent: an existing entry is left untouched. -/
def addOverlappingPair (c : List (Nat × Nat)) (a b : Nat) : List (Nat × Nat) :=
  if mkPair a b ∈ c then c else mkPair a b :: c

/-- Modelled from the spec: `removeOverlappingPair` of the pair cache, whose code is not in
the repository. The entry is marked invalid, so it is no longer one of the valid entries;
the deferred compaction of the storage is not modelled. -/
def removeOverlappingPair (c : List (Nat × Nat)) (a b : Nat) : List (Nat × Nat) :=
  c.filter (fun p => p != mkPair a b)

/-- Modelled from the spec: `cleanProxy` of the pair cache, whose code is not in the
repository: every entry that references the handle is invalidated. -/
def cleanProxy (c : List (Nat × Nat)) (h : Nat) : List (Nat × Nat) :=
  c.filter (fun p => p.1 != h && p.2 != h)

/-- Modelled from the spec: `testOverlap2D`, declared in the header but defined outside
the repository: the integer-interval test of two handles on two axes, against the
quantized positions of their edges. -/
def testOverlap2D (s : Broadphase T R) (a b : Nat) (axis0 axis1 : Fin 3) : Bool :=
  !(decide (maxPos s a axis0 < minPos s b axis0) ||
    decide (maxPos s b axis0 < minPos s a axis0) ||
    decide (maxPos s a axis1 < minPos s b axis1) ||
    decide (maxPos s b axis1 < minPos s a axis1))

/-- Modelled from the spec: the exchange of the edges at `i` and `j` of one axis, the
swap that each sort primitive, defined outside the repository, performs. -/
def swapEdges (s : Broadphase T R) (axis : Fin 3) (i j : Nat) : Broadphase T R :=
  setEdge (setEdge s axis i (s.m_pEdges axis j)) axis j (s.m_pEdges axis i)

/-- Modelled from the spec: the candidate new overlap of the handles `a` and `b` that a
sort primitive, defined outside the repository, finds on `axis`: the pair is inserted when
the other two axes overlap as well. -/
def candidateAdd (s : Broadphase T R) (axis : Fin 3) (updateOverlaps : Bool) (a b : Nat) :
    Broadphase T R :=
  if updateOverlaps && testOverlap2D s a b (axis + 1) (axis + 2) then
    { s with m_pairCache := addOverlappingPair s.m_pairCache a b }
  else s

/-- Modelled from the spec: the candidate removed overlap of the handles `a` and `b` that
a sort primitive, defined outside the repository, finds on `axis`: the pair is removed
after the other two axes were consulted. -/
def candidateRemove (s : Broadphase T R) (axis : Fin 3) (updateOverlaps : Bool) (a b : Nat) :
    Broadphase T R :=
  if updateOverlaps && testOverlap2D s a b (axis + 1) (axis + 2) then
    { s with m_pairCache := removeOverlappingPair s.m_pairCache a b }
  else s

/-- Modelled from the spec: one iteration of `sortMinDown`, defined outside the
repository: the min edge at `edge` changes place with the edge below it, a max edge
below is a candidate new overlap, and the index of the neighbour is updated. -/
def sortMinDownStep (s : Broadphase T R) (axis : Fin 3) (edge : Nat) (updateOverlaps : Bool) :
    Broadphase T R :=
  let pEdge := s.m_pEdges axis edge
  let pPrev := s.m_pEdges axis (edge - 1)
  let s1 :=
    if pPrev.IsMax T != 0 then
      let s0 := candidateAdd s axis updateOverlaps pEdge.m_handle pPrev.m_handle
      setMaxEdge s0 pPrev.m_handle axis (maxE s0 pPrev.m_handle axis + 1)
    else setMinEdge s pPrev.m_handle axis (minE s pPrev.m_handle axis + 1)
  let s2 := setMinEdge s1 pEdge.m_handle axis (minE s1 pEdge.m_handle axis - 1)
  swapEdges s2 axis edge (edge - 1)

/-- Modelled from the spec: one iteration of `sortMaxDown`, defined outside the
repository: the max edge at `edge` changes place with the edge below it, a min edge
below is a candidate removed overlap, and the index of the neighbour is updated. -/
def sortMaxDownStep (s : Broadphase T R) (axis : Fin 3) (edge : Nat) (updateOverlaps : Bool) :
    Broadphase T R :=
  let pEdge := s.m_pEdges axis edge
  let pPrev := s.m_pEdges axis (edge - 1)
  let s1 :=
    if pPrev.IsMax T != 0 then
      setMaxEdge s pPrev.m_handle axis (maxE s pPrev.m_handle axis + 1)
    else
      let s0 := candidateRemove s axis updateOverlaps pEdge.m_handle pPrev.m_handle
      setMinEdge s0 pPrev.m_handle axis (minE s0 pPrev.m_handle axis + 1)
  let s2 := setMaxEdge s1 pEdge.m_handle axis (maxE s1 pEdge.m_handle axis - 1)
  swapEdges s2 axis edge (edge - 1)

/-- Modelled from the spec: one iteration of `sortMinUp`, defined outside the
repository: the min edge at `edge` changes place with the edge above it, a max edge
above is a candidate removed overlap, and the index of the neighbour is updated. -/
def sortMinUpStep (s : Broadphase T R) (axis : Fin 3) (edge : Nat) (updateOverlaps : Bool) :
    Broadphase T R :=
  let pEdge := s.m_pEdges axis edge
  let pNext := s.m_pEdges axis (edge + 1)
  let s1 :=
    if pNext.IsMax T != 0 then
      let s0 := candidateRemove s axis updateOverlaps pEdge.m_handle pNext.m_handle
      setMaxEdge s0 pNext.m_handle axis (maxE s0 pNext.m_handle axis - 1)
    else setMinEdge s pNext.m_handle axis (minE s pNext.m_handle axis - 1)
  let s2 := setMinEdge s1 pEdge.m_handle axis (minE s1 pEdge.m_handle axis + 1)
  swapEdges s2 axis edge (edge + 1)

/-- Modelled from the spec: one iteration of `sortMaxUp`, defined outside the
repository: the max edge at `edge` changes place with the edge above it, a min edge
above is a candidate new overlap, and the index of the neighbour is updated. -/
def sortMaxUpStep (s : Broadphase T R) (axis : Fin 3) (edge : Nat) (updateOverlaps : Bool) :
    Broadphase T R :=
  let pEdge := s.m_pEdges axis edge
  let pNext := s.m_pEdges axis (edge + 1)
  let s1 :=
    if pNext.IsMax T != 0 then
      setMaxEdge s pNext.m_handle axis (maxE s pNext.m_handle axis - 1)
    else
      let s0 := candidateAdd s axis updateOverlaps pEdge.m_handle pNext.m_handle
      setMinEdge s0 pNext.m_handle axis (minE s0 pNext.m_handle axis - 1)
  let s2 := setMaxEdge s1 pEdge.m_handle axis (maxE s1 pEdge.m_handle axis + 1)
  swapEdges s2 axis edge (edge + 1)

/-- Modelled from the spec: `sortMinDown`, declared in the header but defined outside the
repository. The min edge at `edge` moves one slot at a time towards smaller positions
while its position is smaller than that of the edge below it, so that edges of equal
position keep their order; the min sentinel at slot 0 ends the loop. -/
def sortMinDown (axis : Fin 3) (updateOverlaps : Bool) : Nat → Broadphase T R → Broadphase T R
  | 0, s => s
  | edge + 1, s =>
    if edgePos s axis (edge + 1) < edgePos s axis edge then
      sortMinDown axis updateOverlaps edge (sortMinDownStep s axis (edge + 1) updateOverlaps)
    else s

/-- Modelled from the spec: `sortMaxDown`, declared in the header but defined outside the
repository. The max edge at `edge` moves one slot at a time towards smaller positions. -/
def sortMaxDown (axis : Fin 3) (updateOverlaps : Bool) : Nat → Broadphase T R → Broadphase T R
  | 0, s => s
  | edge + 1, s =>
    if edgePos s axis (edge + 1) < edgePos s axis edge then
      sortMaxDown axis updateOverlaps edge (sortMaxDownStep s axis (edge + 1) updateOverlaps)
    else s

/-- Modelled from the spec: `sortMinUp`, declared in the header but defined outside the
repository. The min edge at `edge` moves one slot at a time towards larger positions
while its position is larger than that of the edge above it; `fuel` bounds the number of
iterations by the number of slots up to the max sentinel. -/
def sortMinUp (axis : Fin 3) (updateOverlaps : Bool) :
    Nat → Nat → Broadphase T R → Broadphase T R
  | 0, _, s => s
  | fuel + 1, edge, s =>
    if edgePos s axis edge > edgePos s axis (edge + 1) then
      sortMinUp axis updateOverlaps fuel (edge + 1) (sortMinUpStep s axis edge updateOverlaps)
    else s

/-- Modelled from the spec: `sortMaxUp`, declared in the header but defined outside the
repository. The max edge at `edge` moves one slot at a time towards larger positions. -/
def sortMaxUp (axis : Fin 3) (updateOverlaps : Bool) :
    Nat → Nat → Broadphase T R → Broadphase T R
  | 0, _, s => s
  | fuel + 1, edge, s =>
    if edgePos s axis edge > edgePos s axis (edge + 1) then
      sortMaxUp axis updateOverlaps fuel (edge + 1) (sortMaxUpStep s axis edge updateOverlaps)
    else s

end AxisSweep3

namespace AxisSweep3

variable {T : IntType} {R : Type}

/-- Modelled from the spec: the clamp of `quantize`, whose code is not in the repository.
A point is given by its integer coordinates, the integer parts of
`(point - worldMin) * scale`; clamping the point to the world bounds clamps each of them to
the range from 0 to `m_handleSentinel / 2`, the coordinate of `worldMax`. -/
def clampCoord (s : Broadphase T R) (point : Fin 3 → Int) : Fin 3 → Nat :=
  fun axis => min (point axis).toNat (s.m_handleSentinel / 2)

/-- Modelled from the spec: `quantize`, declared in the header but defined outside the
repository: the point is clamped to the world bounds, and each integer coordinate is
shifted left by one and its low bit is set to `isMax`. -/
def quantize (s : Broadphase T R) (point : Fin 3 → Int) (isMax : Nat) : Fin 3 → Nat :=
  fun axis => (clampCoord s point axis <<< 1) ||| isMax

/-- Modelled from the spec: the extreme point, the large tentative value of `addHandle`
and the extreme value of `removeHandle`, both defined outside the repository: the
coordinate of `worldMax`, whose max edge is at the position of the max sentinel. -/
def extremeCoord (s : Broadphase T R) : Fin 3 → Int :=
  fun _ => ((s.m_handleSentinel / 2 : Nat) : Int)

/-- An axis-aligned box, given by the integer coordinates of `aabbMin` and `aabbMax`: on
each axis the minimum is not above the maximum. The box may lie anywhere, also outside
the world bounds, to which `quantize` clamps it. -/
def ValidBox (lo hi : Fin 3 → Int) : Prop :=
  ∀ axis, lo axis ≤ hi axis

instance (lo hi : Fin 3 → Int) : Decidable (ValidBox lo hi) := by
  unfold ValidBox; infer_instance

/-- Modelled from the spec: the constructor, declared in the header but defined outside the
repository. Every handle of the pool is on the free list, handle 0 owns the two sentinels
of each axis, at the positions 0 and `2^W - 1`, and the pair cache is empty. -/
def construct (T : IntType) (worldAabbMin worldAabbMax : R) (maxHandles : Nat) :
    Broadphase T R :=
  { m_bpHandleMask := 2 ^ T.bits - 2
    m_handleSentinel := 2 ^ T.bits - 1
    m_worldAabbMin := worldAabbMin
    m_worldAabbMax := worldAabbMax
    m_numHandles := 0
    m_maxHandles := maxHandles
    m_pHandles := fun i =>
      if i = 0 then { m_minEdges := fun _ => 0, m_maxEdges := fun _ => 1, m_dbvtProxy := 0 }
      else Handle.SetNextFree { m_minEdges := fun _ => 0, m_maxEdges := fun _ => 0, m_dbvtProxy := 0 }
        (if i < maxHandles then i + 1 else 0)
    m_firstFreeHandle := if maxHandles = 0 then 0 else 1
    m_pEdges := fun _ i => if i = 1 then { m_pos := 2 ^ T.bits - 1, m_handle := 0 }
      else { m_pos := 0, m_handle := 0 }
    m_pairCache := [] }

/-- Modelled from the spec: `allocHandle`, declared in the header but defined outside the
repository: pops the first handle of the free list, and fails with `CapacityExceeded`
when the list is empty. -/
def allocHandle (s : Broadphase T R) : Broadphase T R × Except Error Nat :=
  if s.m_firstFreeHandle = 0 then (s, .error .CapacityExceeded)
  else
    let handle := s.m_firstFreeHandle
    ({ s with
        m_firstFreeHandle := (s.m_pHandles handle).GetNextFree
        m_numHandles := s.m_numHandles + 1 }, .ok handle)

/-- Modelled from the spec: `freeHandle`, declared in the header but defined outside the
repository: pushes the handle onto the free list. -/
def freeHandle (s : Broadphase T R) (handle : Nat) : Broadphase T R :=
  { s with
    m_pHandles := Function.update s.m_pHandles handle
      ((s.m_pHandles handle).SetNextFree s.m_firstFreeHandle)
    m_firstFreeHandle := handle
    m_numHandles := s.m_numHandles - 1 }

/-- Modelled from the spec: the update of one axis in `updateHandle`, defined outside the
repository: the new quantized positions `newMin`, `newMax` are compared with those of the
edges the handle holds; an edge whose position gets smaller is driven down, one whose
position gets larger is driven up. The spec leaves the order of the calls on one axis
open: here the interval grows before it shrinks, and a position is written when its edge
starts to move. -/
def updateAxis (s : Broadphase T R) (handle : Nat) (axis : Fin 3) (newMin newMax : Nat) :
    Broadphase T R :=
  let oldMin := minPos s handle axis
  let oldMax := maxPos s handle axis
  let s1 :=
    if newMin < oldMin then
      let s0 := setEdgePos s axis (minE s handle axis) newMin
      sortMinDown axis true (minE s0 handle axis) s0
    else s
  let s2 :=
    if oldMax < newMax then
      let s0 := setEdgePos s1 axis (maxE s1 handle axis) newMax
      sortMaxUp axis true (maxE s0 0 axis - maxE s0 handle axis) (maxE s0 handle axis) s0
    else s1
  let s3 :=
    if oldMin < newMin then
      let s0 := setEdgePos s2 axis (minE s2 handle axis) newMin
      sortMinUp axis true (maxE s0 0 axis - minE s0 handle axis) (minE s0 handle axis) s0
    else s2
  if newMax < oldMax then
    let s0 := setEdgePos s3 axis (maxE s3 handle axis) newMax
    sortMaxDown axis true (maxE s0 handle axis) s0
  else s3

/-- Modelled from the spec: `updateHandle`, declared in the header but defined outside the
repository: the three axes are updated in the order X, Y, Z. -/
def updateHandle (s : Broadphase T R) (handle : Nat) (lo hi : Fin 3 → Int) : Broadphase T R :=
  let s0 := updateAxis s handle 0 (quantize s lo 0 0) (quantize s hi 1 0)
  let s1 := updateAxis s0 handle 1 (quantize s lo 0 1) (quantize s hi 1 1)
  updateAxis s1 handle 2 (quantize s lo 0 2) (quantize s hi 1 2)

/-- Modelled from the spec: the insertion of the two edges of a new handle on one axis in
`addHandle`, defined outside the repository: the edges go just before the max sentinel,
which moves up by two slots, and carry the large tentative position. -/
def insertEdges (s : Broadphase T R) (handle : Nat) (axis : Fin 3) : Broadphase T R :=
  let limit := s.m_numHandles * 2
  let s1 := setMaxEdge s 0 axis (maxE s 0 axis + 2)
  let s2 := setEdge s1 axis (limit + 1) (s1.m_pEdges axis (limit - 1))
  let s3 := setEdge s2 axis (limit - 1)
    { m_pos := quantize s (extremeCoord s) 0 axis, m_handle := handle }
  let s4 := setEdge s3 axis limit
    { m_pos := quantize s (extremeCoord s) 1 axis, m_handle := handle }
  let s5 := setMinEdge s4 handle axis (limit - 1)
  setMaxEdge s5 handle axis limit

/-- Modelled from the spec: the walk of the two new edges of one axis in `addHandle`,
defined outside the repository: each edge receives its quantized position and is walked
left into sorted position by `sortMinDown`, resp. `sortMaxDown`. -/
def placeEdges (s : Broadphase T R) (handle : Nat) (axis : Fin 3) (newMin newMax : Nat)
    (updateOverlaps : Bool) : Broadphase T R :=
  let s0 := setEdgePos s axis (minE s handle axis) newMin
  let s1 := sortMinDown axis updateOverlaps (minE s0 handle axis) s0
  let s2 := setEdgePos s1 axis (maxE s1 handle axis) newMax
  sortMaxDown axis updateOverlaps (maxE s2 handle axis) s2

/-- Modelled from the spec: `addHandle`, declared in the header but defined outside the
repository: allocates a handle, inserts its six edges at the far right with the large
tentative position and walks them left into sorted position. The spec enables the overlap
bookkeeping during the walk without naming the axes: here it is enabled on the last
axis, when the other two axes, which `testOverlap2D` consults, hold the edges at their
final positions; there the min edge finds the new overlaps and the max edge, which walks
after it, ends those that it leaves behind. Filter group, filter mask and client pointer
play no part in what the spec describes and are left out. -/
def addHandle (s : Broadphase T R) (lo hi : Fin 3 → Int) : Broadphase T R × Except Error Nat :=
  match allocHandle s with
  | (s1, .error e) => (s1, .error e)
  | (s1, .ok handle) =>
    let s2 := insertEdges (insertEdges (insertEdges s1 handle 0) handle 1) handle 2
    let s3 := placeEdges s2 handle 0 (quantize s lo 0 0) (quantize s hi 1 0) false
    let s4 := placeEdges s3 handle 1 (quantize s lo 0 1) (quantize s hi 1 1) false
    (placeEdges s4 handle 2 (quantize s lo 0 2) (quantize s hi 1 2) true, .ok handle)

/-- Modelled from the spec: the max edge at `edge` is carried `count` slots up, one
exchange at a time and without overlap bookkeeping, past edges that rest at its own
position: the way `removeHandle`, defined outside the repository, brings an edge to the
end of the array. -/
def carryMaxUp (axis : Fin 3) : Nat → Nat → Broadphase T R → Broadphase T R
  | 0, _, s => s
  | count + 1, edge, s => carryMaxUp axis count (edge + 1) (sortMaxUpStep s axis edge false)

/-- Modelled from the spec: the min edge at `edge` is carried `count` slots up, one
exchange at a time and without overlap bookkeeping. -/
def carryMinUp (axis : Fin 3) : Nat → Nat → Broadphase T R → Broadphase T R
  | 0, _, s => s
  | count + 1, edge, s => carryMinUp axis count (edge + 1) (sortMinUpStep s axis edge false)

/-- Modelled from the spec: the two topmost edges of one axis are dropped in
`removeHandle`, defined outside the repository: the max sentinel moves down by two
slots. -/
def dropEdges (s : Broadphase T R) (axis : Fin 3) : Broadphase T R :=
  let limit := s.m_numHandles * 2
  let s1 := setMaxEdge s 0 axis (maxE s 0 axis - 2)
  setEdge s1 axis (limit - 1) { m_pos := s.m_handleSentinel, m_handle := 0 }

/-- Modelled from the spec: the removal of the two edges of a handle on one axis in
`removeHandle`, defined outside the repository: the edges are bubbled to the two slots
before the max sentinel and dropped. -/
def removeEdges (s : Broadphase T R) (handle : Nat) (axis : Fin 3) : Broadphase T R :=
  let limit := s.m_numHandles * 2
  let s1 := carryMaxUp axis (limit - maxE s handle axis) (maxE s handle axis) s
  let s2 := carryMinUp axis (limit - 1 - minE s1 handle axis) (minE s1 handle axis) s1
  dropEdges s2 axis

/-- Modelled from the spec: `removeHandle`, declared in the header but defined outside the
repository: the box of the handle is set to the extreme value, so that its six edges sort
towards the max sentinels under the update primitives, which dissolves its pairs with the
boxes below the extreme value; the edges are bubbled to the ends and dropped, the
pair-cache entries that still reference the handle are removed and the slot returns to
the free list. -/
def removeHandle (s : Broadphase T R) (handle : Nat) : Broadphase T R :=
  let s1 := updateHandle s handle (extremeCoord s) (extremeCoord s)
  let s2 := removeEdges (removeEdges (removeEdges s1 handle 0) handle 1) handle 2
  let s3 := { s2 with m_pairCache := cleanProxy s2.m_pairCache handle }
  freeHandle s3 handle

/-- Modelled from the spec: `createProxy`, declared in the header but defined outside the
repository. `lo` and `hi` are the integer coordinates of `aabbMin` and `aabbMax`. -/
def createProxy (s : Broadphase T R) (lo hi : Fin 3 → Int) :
    Broadphase T R × Except Error Nat :=
  addHandle s lo hi

/-- Modelled from the spec: `destroyProxy`, declared in the header but defined outside the
repository. -/
def destroyProxy (s : Broadphase T R) (handle : Nat) : Broadphase T R :=
  removeHandle s handle

/-- Modelled from the spec: `setAabb`, declared in the header but defined outside the
repository. `lo` and `hi` are the integer coordinates of `aabbMin` and `aabbMax`. -/
def setAabb (s : Broadphase T R) (handle : Nat) (lo hi : Fin 3 → Int) : Broadphase T R :=
  updateHandle s handle lo hi

/-- The states reached from a freshly constructed broadphase by `createProxy`, `setAabb`
and `destroyProxy`, each with the list of the handles that are live in it: those that
`createProxy` returned and `destroyProxy` has not received since. The broadphase is
constructed for a capacity whose largest edge index, `2 * maxHandles + 1`, the integer
type of the variant holds; the calls receive any axis-aligned box. -/
inductive Reachable : Broadphase T R → List Nat → Prop where
  | init (worldAabbMin worldAabbMax : R) (maxHandles : Nat) :
      edgeArraySize maxHandles ≤ 2 ^ T.bits →
      Reachable (construct T worldAabbMin worldAabbMax maxHandles) []
  | create {s s' : Broadphase T R} {live : List Nat} {lo hi : Fin 3 → Int} {handle : Nat} :
      Reachable s live → ValidBox lo hi → createProxy s lo hi = (s', .ok handle) →
      Reachable s' (handle :: live)
  | createFailed {s s' : Broadphase T R} {live : List Nat} {lo hi : Fin 3 → Int} {e : Error} :
      Reachable s live → createProxy s lo hi = (s', .error e) →
      Reachable s' live
  | update {s : Broadphase T R} {live : List Nat} {lo hi : Fin 3 → Int} {handle : Nat} :
      Reachable s live → handle ∈ live → ValidBox lo hi →
      Reachable (setAabb s handle lo hi) live
  | destroy {s : Broadphase T R} {live : List Nat} {handle : Nat} :
      Reachable s live → handle ∈ live →
      Reachable (destroyProxy s handle) (live.erase handle)

/-- The quantized intervals of the handles `a` and `b` overlap on one axis. -/
def intervalsOverlap (s : Broadphase T R) (a b : Nat) (axis : Fin 3) : Prop :=
  minPos s a axis ≤ maxPos s b axis ∧ minPos s b axis ≤ maxPos s a axis

instance (s : Broadphase T R) (a b : Nat) (axis : Fin 3) : Decidable (intervalsOverlap s a b axis) := by
  unfold intervalsOverlap; infer_instance

/-- Modelled from the spec: the state after `allocHandle`, defined outside the
repository, took the first handle of the free list. -/
def allocState (s : Broadphase T R) : Broadphase T R :=
  { s with
    m_firstFreeHandle := (s.m_pHandles s.m_firstFreeHandle).GetNextFree
    m_numHandles := s.m_numHandles + 1 }

/-- Constructor of `btAxisSweep3`, the 16-bit variant, declared with the default
`maxHandles = 16384`; `maxHandles` is `none` when the caller leaves the argument out. -/
def btAxisSweep3 (worldAabbMin worldAabbMax : R) (maxHandles : Option Nat) :
    Broadphase .u16 R :=
  construct .u16 worldAabbMin worldAabbMax (maxHandles.getD btAxisSweep3_defaultMaxHandles)

/-- Constructor of `bt32BitAxisSweep3`, the 32-bit variant, declared with the default
`maxHandles = 1500000`; `maxHandles` is `none` when the caller leaves the argument out. -/
def bt32BitAxisSweep3 (worldAabbMin worldAabbMax : R) (maxHandles : Option Nat) :
    Broadphase .u32 R :=
  construct .u32 worldAabbMin worldAabbMax (maxHandles.getD bt32BitAxisSweep3_defaultMaxHandles)

/-- A broadphase of the 16-bit variant for two handles with the box `[0,2]^3` in it. -/
def oneBox : Broadphase .u16 Unit :=
  (createProxy (construct .u16 () () 2) ![0, 0, 0] ![2, 2, 2]).1

/-- The broadphase `oneBox` after the box `[1,3]^3` was created in it as well. -/
def twoBoxes : Broadphase .u16 Unit :=
  (createProxy oneBox ![1, 1, 1] ![3, 3, 3]).1

end AxisSweep3

namespace AxisSweep3

variable {T : IntType} {R : Type}

/-- The handles that own edges: the sentinel handle 0 and the live handles. -/
def Owner (live : List Nat) (a : Nat) : Prop :=
  a = 0 ∨ a ∈ live

/-- The exchange of the slots `i` and `i + 1`. -/
def tau (i m : Nat) : Nat :=
  if m = i then i + 1 else if m = i + 1 then i else m

/-- The link between the handles and the used part `0 .. N` of the edge array of one
axis: every owner holds a min edge and a max edge, flagged as such in the low bit, every
used slot belongs to one owner, and the sentinels bound the array. -/
structure AxisLink (s : Broadphase T R) (live : List Nat) (N : Nat) (j : Fin 3) : Prop where
  min_lt_max : ∀ a, Owner live a → minE s a j < maxE s a j
  max_le : ∀ a, Owner live a → maxE s a j ≤ N
  min_handle : ∀ a, Owner live a → edgeHandle s j (minE s a j) = a
  max_handle : ∀ a, Owner live a → edgeHandle s j (maxE s a j) = a
  min_even : ∀ a, Owner live a → minPos s a j % 2 = 0
  max_odd : ∀ a, Owner live a → maxPos s a j % 2 = 1
  pos_lt : ∀ a, Owner live a → minPos s a j < maxPos s a j
  owner : ∀ i, i ≤ N → Owner live (edgeHandle s j i) ∧
    (edgePos s j i % 2 = 1 → maxE s (edgeHandle s j i) j = i) ∧
    (edgePos s j i % 2 = 0 → minE s (edgeHandle s j i) j = i)
  sent_min : minE s 0 j = 0
  sent_max : maxE s 0 j = N
  pos_zero : edgePos s j 0 = 0
  pos_top : edgePos s j N = s.m_handleSentinel
  pos_le : ∀ i, i ≤ N → edgePos s j i ≤ s.m_handleSentinel

/-- The state `s'` is the state `s` after the edges at `i` and `i + 1` of axis `k` changed
places: the owners' indexes follow their edges, and the pair cache gained or lost at most
the pair of the two owners. -/
structure StepRel (s s' : Broadphase T R) (live : List Nat) (k : Fin 3) (i : Nat) : Prop where
  edges_k : ∀ m, s'.m_pEdges k m = s.m_pEdges k (tau i m)
  edges_o : ∀ j, j ≠ k → s'.m_pEdges j = s.m_pEdges j
  min_k : ∀ a, Owner live a → minE s' a k = tau i (minE s a k)
  max_k : ∀ a, Owner live a → maxE s' a k = tau i (maxE s a k)
  min_o : ∀ a j, j ≠ k → minE s' a j = minE s a j
  max_o : ∀ a j, j ≠ k → maxE s' a j = maxE s a j
  frame : ∀ f, ¬ Owner live f → s'.m_pHandles f = s.m_pHandles f
  sentinel : s'.m_handleSentinel = s.m_handleSentinel
  numHandles : s'.m_numHandles = s.m_numHandles
  maxHandles : s'.m_maxHandles = s.m_maxHandles
  firstFree : s'.m_firstFreeHandle = s.m_firstFreeHandle
  cache : ∀ p, p ∈ s'.m_pairCache ↔
    (edgePos s k i % 2 = 1 ∧ edgePos s k (i + 1) % 2 = 0 ∧
      testOverlap2D s (edgeHandle s k i) (edgeHandle s k (i + 1)) (k + 1) (k + 2) = true ∧
      p = mkPair (edgeHandle s k i) (edgeHandle s k (i + 1))) ∨
    (p ∈ s.m_pairCache ∧
      ¬ (edgePos s k i % 2 = 0 ∧ edgePos s k (i + 1) % 2 = 1 ∧
        testOverlap2D s (edgeHandle s k i) (edgeHandle s k (i + 1)) (k + 1) (k + 2) = true ∧
        p = mkPair (edgeHandle s k i) (edgeHandle s k (i + 1))))

/-- The index intervals of two handles overlap on one axis. -/
def idxOverlap (s : Broadphase T R) (a b : Nat) (k : Fin 3) : Prop :=
  minE s a k < maxE s b k ∧ minE s b k < maxE s a k

/-- The pair cache while axis `k` is being sorted: it holds the pairs of live handles
whose intervals overlap by index on `k` and by position on the other two axes. -/
structure CacheInv (s : Broadphase T R) (live : List Nat) (k : Fin 3) : Prop where
  ordered : ∀ p, p ∈ s.m_pairCache → p.1 < p.2
  mem_iff : ∀ a b, a < b → ((a, b) ∈ s.m_pairCache ↔
    a ∈ live ∧ b ∈ live ∧ idxOverlap s a b k ∧
      intervalsOverlap s a b (k + 1) ∧ intervalsOverlap s a b (k + 2))

/-- The used part `0 .. N` of the edge array of one axis is sorted by position. -/
def SortedUpTo (s : Broadphase T R) (j : Fin 3) (N : Nat) : Prop :=
  ∀ i m, i ≤ m → m ≤ N → edgePos s j i ≤ edgePos s j m

/-- The used part of the edge array is sorted when the slot `e` is left out. -/
def SortedExcept (s : Broadphase T R) (j : Fin 3) (N e : Nat) : Prop :=
  ∀ i m, i ≤ m → m ≤ N → i ≠ e → m ≠ e → edgePos s j i ≤ edgePos s j m

end AxisSweep3

namespace AxisSweep3

variable {T : IntType} {R : Type}

/-- What a sort loop on axis `k` keeps: the links of the three axes, the pair cache of
the sort on `k`, and the order of the other two axes. -/
structure LoopInv (s : Broadphase T R) (live : List Nat) (N : Nat) (k : Fin 3) : Prop where
  link : ∀ j, AxisLink s live N j
  cache : CacheInv s live k
  sorted_o : ∀ j, j ≠ k → SortedUpTo s j N

/-- What a sort loop leaves alone: the positions of the edges of every owner, the
handles that own nothing, and the scalar members. -/
structure Frame (s s' : Broadphase T R) (live : List Nat) : Prop where
  minPos_eq : ∀ a, Owner live a → ∀ j, minPos s' a j = minPos s a j
  maxPos_eq : ∀ a, Owner live a → ∀ j, maxPos s' a j = maxPos s a j
  handles : ∀ f, ¬ Owner live f → s'.m_pHandles f = s.m_pHandles f
  sentinel : s'.m_handleSentinel = s.m_handleSentinel
  numHandles : s'.m_numHandles = s.m_numHandles
  maxHandles : s'.m_maxHandles = s.m_maxHandles
  firstFree : s'.m_firstFreeHandle = s.m_firstFreeHandle

/-- The pair cache between two sorts: it holds the pairs of live handles whose quantized
intervals overlap on the three axes. -/
structure CachePos (s : Broadphase T R) (live : List Nat) : Prop where
  ordered : ∀ p, p ∈ s.m_pairCache → p.1 < p.2
  mem_iff : ∀ a b, a < b → ((a, b) ∈ s.m_pairCache ↔
    a ∈ live ∧ b ∈ live ∧ ∀ j, intervalsOverlap s a b j)

/-- The invariant of the edge arrays and the pair cache between two sorts, for the live
handles `live` and the slot `N` of the max sentinel. -/
structure BInv (s : Broadphase T R) (live : List Nat) (N : Nat) : Prop where
  link : ∀ j, AxisLink s live N j
  sorted : ∀ j, SortedUpTo s j N
  cache : CachePos s live
  zero_not_live : 0 ∉ live

/-- The effect of moving the edges of the handle `h` on axis `k`: every other position,
the handles that own nothing and the scalar members are as before. -/
structure MoveFrame (s s' : Broadphase T R) (live : List Nat) (h : Nat) (k : Fin 3) : Prop where
  minPos_eq : ∀ a, Owner live a → ∀ j, (a ≠ h ∨ j ≠ k) → minPos s' a j = minPos s a j
  maxPos_eq : ∀ a, Owner live a → ∀ j, (a ≠ h ∨ j ≠ k) → maxPos s' a j = maxPos s a j
  handles : ∀ f, ¬ Owner live f → s'.m_pHandles f = s.m_pHandles f
  sentinel : s'.m_handleSentinel = s.m_handleSentinel
  numHandles : s'.m_numHandles = s.m_numHandles
  maxHandles : s'.m_maxHandles = s.m_maxHandles
  firstFree : s'.m_firstFreeHandle = s.m_firstFreeHandle

end AxisSweep3

namespace AxisSweep3

variable {T : IntType} {R : Type}

/-- The effect of an update of the handle `h`: the positions of the other owners, the
handles that own nothing and the scalar members are as before. -/
structure HandleFrame (s s' : Broadphase T R) (live : List Nat) (h : Nat) : Prop where
  minPos_eq : ∀ a, Owner live a → a ≠ h → ∀ j, minPos s' a j = minPos s a j
  maxPos_eq : ∀ a, Owner live a → a ≠ h → ∀ j, maxPos s' a j = maxPos s a j
  handles : ∀ f, ¬ Owner live f → s'.m_pHandles f = s.m_pHandles f
  sentinel : s'.m_handleSentinel = s.m_handleSentinel
  numHandles : s'.m_numHandles = s.m_numHandles
  maxHandles : s'.m_maxHandles = s.m_maxHandles
  firstFree : s'.m_firstFreeHandle = s.m_firstFreeHandle

end AxisSweep3

namespace AxisSweep3

variable {T : IntType} {R : Type}

/-- The state `s` with the pair cache `c` in the place of its own. -/
def withCache (s : Broadphase T R) (c : List (Nat × Nat)) : Broadphase T R :=
  { s with m_pairCache := c }

/-- Two states agree on the data of axis `j` that belong to the owners. -/
structure AxisEq (s s' : Broadphase T R) (live : List Nat) (j : Fin 3) : Prop where
  edges : s'.m_pEdges j = s.m_pEdges j
  minE_eq : ∀ a, Owner live a → minE s' a j = minE s a j
  maxE_eq : ∀ a, Owner live a → maxE s' a j = maxE s a j
  sentinel : s'.m_handleSentinel = s.m_handleSentinel

end AxisSweep3

namespace AxisSweep3

variable {T : IntType} {R : Type}

/-- The free list that starts at `first` and follows the next-free links visits exactly
the handles of the list, and ends with the null handle 0. -/
def FreeChain (handles : Nat → Handle) : Nat → List Nat → Prop
  | first, [] => first = 0
  | first, f :: rest => first = f ∧ f ≠ 0 ∧ FreeChain handles (handles f).GetNextFree rest

/-- The invariant of the reachable states: the edge arrays and the pair cache agree with
the live handles, the free list holds the handles of the pool that are not live, and the
integer type of the variant holds every edge index of the capacity. -/
structure Inv (s : Broadphase T R) (live : List Nat) : Prop where
  binv : BInv s live (2 * live.length + 1)
  sentinel_odd : s.m_handleSentinel % 2 = 1
  sentinel_eq : s.m_handleSentinel + 1 = 2 ^ T.bits
  capacity : edgeArraySize s.m_maxHandles ≤ 2 ^ T.bits
  numHandles : s.m_numHandles = live.length
  nodup : live.Nodup
  live_le : ∀ a, a ∈ live → a ≤ s.m_maxHandles
  pool : ∃ free : List Nat, FreeChain s.m_pHandles s.m_firstFreeHandle free ∧
    (∀ f, f ∈ free → f ∉ live) ∧ free.Nodup ∧ live.length + free.length = s.m_maxHandles ∧
    (∀ f, f ∈ free → f ≤ s.m_maxHandles)

end AxisSweep3

namespace AxisSweep3

variable {T : IntType} {R : Type}

/-- What a walk of an edge on axis `k` without overlap bookkeeping leaves alone: the
positions of the edges of every owner, the other two axes, the pair cache, the handles that
own nothing and the scalar members. -/
structure Walk (s s' : Broadphase T R) (live : List Nat) (k : Fin 3) : Prop where
  frame : Frame s s' live
  others : ∀ j, j ≠ k → AxisEq s s' live j
  cache : s'.m_pairCache = s.m_pairCache

end AxisSweep3

namespace AxisSweep3

variable {T : IntType} {R : Type}

/-- A broadphase of the 16-bit variant for four handles that holds one box, which reaches
beyond the world maximum on the X axis and up to it on the other two. -/
def clampedBox : Broadphase .u16 Unit :=
  (createProxy (construct .u16 () () 4) ![100, 100, 100] ![40000, 32767, 32767]).1

/-- The broadphase `clampedBox` after a box that lies at and beyond the world maximum was
created in it as well: `quantize` clamps it to the one coordinate of the world maximum. -/
def clampedBoxes : Broadphase .u16 Unit :=
  (createProxy clampedBox ![32767, 32767, 32767] ![50000, 50000, 50000]).1

/-- The broadphase `clampedBoxes` after its second box was destroyed and a box inside the
first one was created in the slot. -/
def clampedAgain : Broadphase .u16 Unit :=
  (createProxy (destroyProxy clampedBoxes 2) ![200, 200, 200] ![300, 300, 300]).1

/-- A broadphase for four handles in which, beside a box that reaches the world maximum,
two boxes were created and destroyed and three boxes were created after that: the pool is
full again. -/
def refilled : Broadphase .u16 Unit :=
  (createProxy (createProxy (createProxy
    (destroyProxy (destroyProxy
      (createProxy (createProxy
        (createProxy (construct .u16 () () 4) ![100, 100, 100] ![32767, 32767, 32767]).1
        ![200, 200, 200] ![300, 300, 300]).1 ![400, 400, 400] ![500, 500, 500]).1 2) 3)
    ![1, 1, 1] ![2, 2, 2]).1 ![1, 1, 1] ![2, 2, 2]).1 ![1, 1, 1] ![2, 2, 2]).1

end AxisSweep3

/-! # Theorems -/

namespace AxisSweep3

theorem Edge.IsMax_eq_mod (T : IntType) (e : Edge) : e.IsMax T = e.m_pos % 2 := by
  unfold Edge.IsMax
  rw [Nat.and_one_is_mod]
  apply Nat.mod_eq_of_lt
  have hw : 0 < T.bits := by cases T <;> decide
  calc e.m_pos % 2 < 2 := Nat.mod_lt _ (by decide)
    _ = 2 ^ 1 := rfl
    _ ≤ 2 ^ T.bits := Nat.pow_le_pow_right (by decide) hw

/-- C4: for both integer types, 16 and 32 bits wide, `IsMax` returns the low bit of
`m_pos`: 1 for the max end of an extent (`m_pos = 2q + 1`), 0 for the min end
(`m_pos = 2q`), and never another value. -/
theorem IsMax_low_bit (T : IntType) (e : Edge) :
    e.IsMax T = e.m_pos % 2 ∧
    (∀ q, e.m_pos = 2 * q + 1 → e.IsMax T = 1) ∧
    (∀ q, e.m_pos = 2 * q → e.IsMax T = 0) ∧
    (e.IsMax T = 0 ∨ e.IsMax T = 1) := by
  have h := Edge.IsMax_eq_mod T e
  refine ⟨h, ?_, ?_, ?_⟩
  · intro q hq; rw [h]; omega
  · intro q hq; rw [h]; omega
  · rw [h]; omega

/-- C5: two edges with the same quantized coordinate `m_pos >> 1`, one flagged min and
the other flagged max, have the min edge at the strictly smaller `m_pos`; two edges with
different coordinates are ordered by `m_pos` as their coordinates are, whatever their
flags. -/
theorem pos_order (T : IntType) (a b : Edge) :
    (a.m_pos >>> 1 = b.m_pos >>> 1 → a.IsMax T = 0 → b.IsMax T = 1 → a.m_pos < b.m_pos) ∧
    (a.m_pos >>> 1 < b.m_pos >>> 1 → a.m_pos < b.m_pos) := by
  rw [Edge.IsMax_eq_mod T a, Edge.IsMax_eq_mod T b]
  simp only [Nat.shiftRight_one]
  constructor
  · intro h1 h2 h3; omega
  · intro h; omega

/-- C6: the free-list link of a handle lives in its first min-edge slot: after
`SetNextFree n`, `GetNextFree` returns `n` and `m_minEdges[0]` is `n`, while
`m_minEdges[1]`, `m_minEdges[2]`, `m_maxEdges` and `m_dbvtProxy` are unchanged; and
`GetNextFree` only reads `m_minEdges[0]`. -/
theorem SetNextFree_GetNextFree (h : Handle) (n : Nat) :
    (h.SetNextFree n).GetNextFree = n ∧
    (h.SetNextFree n).m_minEdges 0 = n ∧
    (h.SetNextFree n).m_minEdges 1 = h.m_minEdges 1 ∧
    (h.SetNextFree n).m_minEdges 2 = h.m_minEdges 2 ∧
    (h.SetNextFree n).m_maxEdges = h.m_maxEdges ∧
    (h.SetNextFree n).m_dbvtProxy = h.m_dbvtProxy ∧
    h.GetNextFree = h.m_minEdges 0 := by
  simp [Handle.SetNextFree, Handle.GetNextFree, Function.update]

end AxisSweep3

namespace Scene

theorem strcmp_eq_zero_iff (a b : List Nat) : strcmp a b = 0 ↔ cstr a = cstr b := by
  induction a generalizing b with
  | nil =>
    cases b with
    | nil => simp [strcmp, cstr]
    | cons y ys =>
      by_cases hy : y = 0
      · simp [strcmp, cstr, hy]
      · simp [strcmp, cstr, hy, List.takeWhile_cons]
  | cons x xs ih =>
    cases b with
    | nil =>
      by_cases hx : x = 0
      · simp [strcmp, cstr, hx]
      · simp [strcmp, cstr, hx, List.takeWhile_cons]
    | cons y ys =>
      by_cases hxy : x = y
      · subst hxy
        by_cases hx : x = 0
        · simp [strcmp, cstr, hx]
        · have := ih ys
          simp only [cstr] at this
          simp [strcmp, cstr, hx, List.takeWhile_cons, this]
      · have hsub : (x : Int) - (y : Int) ≠ 0 := by omega
        by_cases hx : x = 0 <;> by_cases hy : y = 0 <;>
          simp [strcmp, cstr, hxy, hx, hy, List.takeWhile_cons, hsub] <;> omega

end Scene

namespace Scene

mutual
theorem FindNode_eq_find (n : aiNode) (name : List Nat) :
    n.FindNode name = n.subtree.find? (nameMatches name) := by
  cases n with
  | mk a nm cs =>
    rw [aiNode.FindNode, aiNode.subtree]
    by_cases h : strcmp nm name = 0
    · simp [h, nameMatches, aiNode.mName]
    · have ih := children_eq_find cs name
      simp [h, nameMatches, aiNode.mName, List.find?_cons]
      simpa [nameMatches] using ih
theorem children_eq_find (cs : List aiNode) (name : List Nat) :
    FindNode.children cs name = (subtreeList cs).find? (nameMatches name) := by
  cases cs with
  | nil => simp [FindNode.children, subtreeList]
  | cons c cs =>
    rw [FindNode.children, subtreeList, List.find?_append]
    rw [FindNode_eq_find c name, children_eq_find cs name]
    cases (c.subtree.find? (nameMatches name)) <;> simp
end

end Scene

namespace Scene

theorem subtreeList_append (xs ys : List aiNode) :
    subtreeList (xs ++ ys) = subtreeList xs ++ subtreeList ys := by
  induction xs with
  | nil => simp [subtreeList]
  | cons x xs ih => simp [subtreeList, ih]

theorem nameMatches_iff (name : List Nat) (m : aiNode) :
    nameMatches name m = true ↔ cstr m.mName = cstr name := by
  simp [nameMatches, strcmp_eq_zero_iff]

/-- C9: `FindNode` called on a node returns NULL exactly when no node of the subtree
rooted there, the node itself included, has a name equal to `name` as a C string; a
result that is not NULL is a node of that subtree whose name equals `name`. -/
theorem FindNode_null_iff (n : aiNode) (name : List Nat) :
    (n.FindNode name = none ↔ ∀ m ∈ n.subtree, cstr m.mName ≠ cstr name) ∧
    (∀ p, n.FindNode name = some p → p ∈ n.subtree ∧ cstr p.mName = cstr name) := by
  rw [FindNode_eq_find]
  constructor
  · rw [List.find?_eq_none]
    constructor
    · intro h m hm hc
      exact h m hm ((nameMatches_iff name m).2 hc)
    · intro h m hm hc
      exact h m hm ((nameMatches_iff name m).1 hc)
  · intro p hp
    exact ⟨List.mem_of_find?_eq_some hp, (nameMatches_iff name p).1 (List.find?_some hp)⟩

theorem FindNode_null_iff_witness :
    (aiNode.mk 1 [97] [aiNode.mk 2 [98, 0, 5] [], aiNode.mk 3 [98] []]).FindNode [98, 0]
        = some (aiNode.mk 2 [98, 0, 5] []) ∧
      (aiNode.mk 2 [98, 0, 5] [] ∈
          (aiNode.mk 1 [97] [aiNode.mk 2 [98, 0, 5] [], aiNode.mk 3 [98] []]).subtree ∧
        cstr (aiNode.mk 2 [98, 0, 5] []).mName = cstr [98, 0]) :=
  ⟨rfl, (FindNode_null_iff _ _).2 _ rfl⟩

/-- C10: `FindNode` returns the first node with the searched name in depth-first
pre-order: the node itself when its name matches, and otherwise the result of the search
in the first child whose subtree holds a match, whatever children come after it. -/
theorem FindNode_first_preorder (n : aiNode) (name : List Nat) :
    n.FindNode name = n.subtree.find? (nameMatches name) ∧
    (cstr n.mName = cstr name → n.FindNode name = some n) ∧
    (∀ pre c post, cstr n.mName ≠ cstr name → n.mChildren = pre ++ c :: post →
      (∀ d ∈ pre, ∀ m ∈ d.subtree, cstr m.mName ≠ cstr name) →
      (∃ m ∈ c.subtree, cstr m.mName = cstr name) →
      n.FindNode name = c.FindNode name ∧ c.FindNode name ≠ none) := by
  refine ⟨FindNode_eq_find n name, ?_, ?_⟩
  · intro h
    cases n with
    | mk a nm cs =>
      have h0 : strcmp nm name = 0 := (strcmp_eq_zero_iff _ _).2 h
      simp [aiNode.FindNode, h0]
  · intro pre c post hn hcs hpre hc
    cases n with
    | mk a nm cs =>
      have h0 : ¬ strcmp nm name = 0 := fun h => hn ((strcmp_eq_zero_iff _ _).1 h)
      have hcs2 : cs = pre ++ c :: post := hcs
      have hcne : c.FindNode name ≠ none := by
        intro hnone
        obtain ⟨m, hm, hmc⟩ := hc
        exact ((FindNode_null_iff c name).1.1 hnone) m hm hmc
      refine ⟨?_, hcne⟩
      rw [aiNode.FindNode, if_neg h0, children_eq_find, hcs2, subtreeList_append,
        List.find?_append, subtreeList, List.find?_append, FindNode_eq_find c name]
      have hprenone : (subtreeList pre).find? (nameMatches name) = none := by
        rw [List.find?_eq_none]
        intro m hm hc2
        have : ∃ d ∈ pre, m ∈ d.subtree := by
          clear hpre hcs hcs2
          induction pre with
          | nil => simp [subtreeList] at hm
          | cons d ds ih =>
            simp only [subtreeList, List.mem_append] at hm
            rcases hm with hm | hm
            · exact ⟨d, List.mem_cons_self _ _, hm⟩
            · obtain ⟨d2, hd2, hmd⟩ := ih hm
              exact ⟨d2, List.mem_cons_of_mem _ hd2, hmd⟩
        obtain ⟨d, hd, hmd⟩ := this
        exact hpre d hd m hmd ((nameMatches_iff name m).1 hc2)
      rw [hprenone]
      rw [FindNode_eq_find c name] at hcne
      cases hf : c.subtree.find? (nameMatches name) with
      | none => exact absurd hf hcne
      | some p => simp

theorem FindNode_first_preorder_witness :
    cstr (aiNode.mk 1 [97] [aiNode.mk 2 [99] [], aiNode.mk 3 [98] [aiNode.mk 4 [98] []],
        aiNode.mk 5 [98] []]).mName ≠ cstr [98] ∧
    ((aiNode.mk 1 [97] [aiNode.mk 2 [99] [], aiNode.mk 3 [98] [aiNode.mk 4 [98] []],
        aiNode.mk 5 [98] []]).FindNode [98]
      = (aiNode.mk 3 [98] [aiNode.mk 4 [98] []]).FindNode [98] ∧
     (aiNode.mk 3 [98] [aiNode.mk 4 [98] []]).FindNode [98] ≠ none) :=
  ⟨by decide,
   (FindNode_first_preorder _ [98]).2.2 [aiNode.mk 2 [99] []] (aiNode.mk 3 [98] [aiNode.mk 4 [98] []])
     [aiNode.mk 5 [98] []] (by decide) rfl
     (by
       intro d hd m hm
       simp only [List.mem_singleton] at hd
       subst hd
       simp only [aiNode.subtree, subtreeList, List.mem_singleton] at hm
       subst hm
       decide)
     ⟨aiNode.mk 3 [98] [aiNode.mk 4 [98] []], by simp [aiNode.subtree], by decide⟩⟩

end Scene

namespace AxisSweep3

variable {T : IntType} {R : Type}

/-! ### Reading after writing -/

@[simp] theorem minE_setMinEdge (s : Broadphase T R) (a : Nat) (k : Fin 3) (v b : Nat) (j : Fin 3) :
    minE (setMinEdge s a k v) b j = if b = a ∧ j = k then v else minE s b j := by
  unfold minE setMinEdge
  by_cases hb : b = a
  · subst hb
    by_cases hj : j = k
    · subst hj; simp
    · simp [hj]
  · simp [hb]

@[simp] theorem maxE_setMinEdge (s : Broadphase T R) (a : Nat) (k : Fin 3) (v b : Nat) (j : Fin 3) :
    maxE (setMinEdge s a k v) b j = maxE s b j := by
  unfold maxE setMinEdge
  by_cases hb : b = a
  · subst hb; simp
  · simp [hb]

@[simp] theorem maxE_setMaxEdge (s : Broadphase T R) (a : Nat) (k : Fin 3) (v b : Nat) (j : Fin 3) :
    maxE (setMaxEdge s a k v) b j = if b = a ∧ j = k then v else maxE s b j := by
  unfold maxE setMaxEdge
  by_cases hb : b = a
  · subst hb
    by_cases hj : j = k
    · subst hj; simp
    · simp [hj]
  · simp [hb]

@[simp] theorem minE_setMaxEdge (s : Broadphase T R) (a : Nat) (k : Fin 3) (v b : Nat) (j : Fin 3) :
    minE (setMaxEdge s a k v) b j = minE s b j := by
  unfold minE setMaxEdge
  by_cases hb : b = a
  · subst hb; simp
  · simp [hb]

@[simp] theorem minE_setEdge (s : Broadphase T R) (k : Fin 3) (i : Nat) (e : Edge) (b : Nat)
    (j : Fin 3) : minE (setEdge s k i e) b j = minE s b j := rfl

@[simp] theorem maxE_setEdge (s : Broadphase T R) (k : Fin 3) (i : Nat) (e : Edge) (b : Nat)
    (j : Fin 3) : maxE (setEdge s k i e) b j = maxE s b j := rfl

@[simp] theorem pEdges_setMinEdge (s : Broadphase T R) (a : Nat) (k : Fin 3) (v : Nat) :
    (setMinEdge s a k v).m_pEdges = s.m_pEdges := rfl

@[simp] theorem pEdges_setMaxEdge (s : Broadphase T R) (a : Nat) (k : Fin 3) (v : Nat) :
    (setMaxEdge s a k v).m_pEdges = s.m_pEdges := rfl

@[simp] theorem pEdges_setEdge (s : Broadphase T R) (k : Fin 3) (i : Nat) (e : Edge) (j : Fin 3)
    (m : Nat) : (setEdge s k i e).m_pEdges j m = if j = k ∧ m = i then e else s.m_pEdges j m := by
  unfold setEdge
  by_cases hj : j = k
  · subst hj
    by_cases hm : m = i
    · subst hm; simp
    · simp [hm]
  · simp [hj]

@[simp] theorem pairCache_setMinEdge (s : Broadphase T R) (a : Nat) (k : Fin 3) (v : Nat) :
    (setMinEdge s a k v).m_pairCache = s.m_pairCache := rfl

@[simp] theorem pairCache_setMaxEdge (s : Broadphase T R) (a : Nat) (k : Fin 3) (v : Nat) :
    (setMaxEdge s a k v).m_pairCache = s.m_pairCache := rfl

@[simp] theorem pairCache_setEdge (s : Broadphase T R) (k : Fin 3) (i : Nat) (e : Edge) :
    (setEdge s k i e).m_pairCache = s.m_pairCache := rfl

@[simp] theorem sentinel_setMinEdge (s : Broadphase T R) (a : Nat) (k : Fin 3) (v : Nat) :
    (setMinEdge s a k v).m_handleSentinel = s.m_handleSentinel := rfl

@[simp] theorem sentinel_setMaxEdge (s : Broadphase T R) (a : Nat) (k : Fin 3) (v : Nat) :
    (setMaxEdge s a k v).m_handleSentinel = s.m_handleSentinel := rfl

@[simp] theorem sentinel_setEdge (s : Broadphase T R) (k : Fin 3) (i : Nat) (e : Edge) :
    (setEdge s k i e).m_handleSentinel = s.m_handleSentinel := rfl

@[simp] theorem numHandles_setMinEdge (s : Broadphase T R) (a : Nat) (k : Fin 3) (v : Nat) :
    (setMinEdge s a k v).m_numHandles = s.m_numHandles := rfl

@[simp] theorem numHandles_setMaxEdge (s : Broadphase T R) (a : Nat) (k : Fin 3) (v : Nat) :
    (setMaxEdge s a k v).m_numHandles = s.m_numHandles := rfl

@[simp] theorem numHandles_setEdge (s : Broadphase T R) (k : Fin 3) (i : Nat) (e : Edge) :
    (setEdge s k i e).m_numHandles = s.m_numHandles := rfl

@[simp] theorem maxHandles_setMinEdge (s : Broadphase T R) (a : Nat) (k : Fin 3) (v : Nat) :
    (setMinEdge s a k v).m_maxHandles = s.m_maxHandles := rfl

@[simp] theorem maxHandles_setMaxEdge (s : Broadphase T R) (a : Nat) (k : Fin 3) (v : Nat) :
    (setMaxEdge s a k v).m_maxHandles = s.m_maxHandles := rfl

@[simp] theorem maxHandles_setEdge (s : Broadphase T R) (k : Fin 3) (i : Nat) (e : Edge) :
    (setEdge s k i e).m_maxHandles = s.m_maxHandles := rfl

@[simp] theorem firstFree_setMinEdge (s : Broadphase T R) (a : Nat) (k : Fin 3) (v : Nat) :
    (setMinEdge s a k v).m_firstFreeHandle = s.m_firstFreeHandle := rfl

@[simp] theorem firstFree_setMaxEdge (s : Broadphase T R) (a : Nat) (k : Fin 3) (v : Nat) :
    (setMaxEdge s a k v).m_firstFreeHandle = s.m_firstFreeHandle := rfl

@[simp] theorem firstFree_setEdge (s : Broadphase T R) (k : Fin 3) (i : Nat) (e : Edge) :
    (setEdge s k i e).m_firstFreeHandle = s.m_firstFreeHandle := rfl

@[simp] theorem pHandles_setEdge (s : Broadphase T R) (k : Fin 3) (i : Nat) (e : Edge) :
    (setEdge s k i e).m_pHandles = s.m_pHandles := rfl

theorem pHandles_setMinEdge_ne (s : Broadphase T R) (a : Nat) (k : Fin 3) (v f : Nat)
    (h : f ≠ a) : (setMinEdge s a k v).m_pHandles f = s.m_pHandles f := by
  simp [setMinEdge, h]

theorem pHandles_setMaxEdge_ne (s : Broadphase T R) (a : Nat) (k : Fin 3) (v f : Nat)
    (h : f ≠ a) : (setMaxEdge s a k v).m_pHandles f = s.m_pHandles f := by
  simp [setMaxEdge, h]

@[simp] theorem world_setMinEdge (s : Broadphase T R) (a : Nat) (k : Fin 3) (v : Nat) :
    (setMinEdge s a k v).m_worldAabbMin = s.m_worldAabbMin ∧
    (setMinEdge s a k v).m_worldAabbMax = s.m_worldAabbMax := ⟨rfl, rfl⟩

end AxisSweep3

namespace AxisSweep3

variable {T : IntType} {R : Type}

theorem isMax_ne_zero_iff (e : Edge) : ((e.IsMax T != 0) = true) ↔ e.m_pos % 2 = 1 := by
  rw [Edge.IsMax_eq_mod]
  simp only [bne_iff_ne, ne_eq]
  omega

theorem mkPair_comm (a b : Nat) : mkPair a b = mkPair b a := by
  unfold mkPair
  by_cases h1 : a < b
  · have h2 : ¬ b < a := by omega
    simp [h1, h2]
  · by_cases h2 : b < a
    · simp [h1, h2]
    · have : a = b := by omega
      subst this; rfl

theorem testOverlap2D_iff (s : Broadphase T R) (a b : Nat) (j1 j2 : Fin 3) :
    testOverlap2D s a b j1 j2 = true ↔ intervalsOverlap s a b j1 ∧ intervalsOverlap s a b j2 := by
  unfold testOverlap2D intervalsOverlap
  simp only [Bool.not_eq_true', Bool.or_eq_false_iff, decide_eq_false_iff_not, not_lt]
  tauto

theorem intervalsOverlap_comm (s : Broadphase T R) (a b : Nat) (j : Fin 3) :
    intervalsOverlap s a b j ↔ intervalsOverlap s b a j := by
  unfold intervalsOverlap; tauto

theorem testOverlap2D_comm (s : Broadphase T R) (a b : Nat) (j1 j2 : Fin 3) :
    testOverlap2D s a b j1 j2 = testOverlap2D s b a j1 j2 := by
  rw [Bool.eq_iff_iff, testOverlap2D_iff, testOverlap2D_iff, intervalsOverlap_comm s a b j1,
    intervalsOverlap_comm s a b j2]

/-! ### The candidate updates touch the pair cache only -/

@[simp] theorem pHandles_candidateAdd (s : Broadphase T R) (k : Fin 3) (u : Bool) (a b : Nat) :
    (candidateAdd s k u a b).m_pHandles = s.m_pHandles := by
  unfold candidateAdd; split <;> rfl

@[simp] theorem pEdges_candidateAdd (s : Broadphase T R) (k : Fin 3) (u : Bool) (a b : Nat) :
    (candidateAdd s k u a b).m_pEdges = s.m_pEdges := by
  unfold candidateAdd; split <;> rfl

@[simp] theorem minE_candidateAdd (s : Broadphase T R) (k : Fin 3) (u : Bool) (a b c : Nat)
    (j : Fin 3) : minE (candidateAdd s k u a b) c j = minE s c j := by
  unfold minE; rw [pHandles_candidateAdd]

@[simp] theorem maxE_candidateAdd (s : Broadphase T R) (k : Fin 3) (u : Bool) (a b c : Nat)
    (j : Fin 3) : maxE (candidateAdd s k u a b) c j = maxE s c j := by
  unfold maxE; rw [pHandles_candidateAdd]

@[simp] theorem scalars_candidateAdd (s : Broadphase T R) (k : Fin 3) (u : Bool) (a b : Nat) :
    (candidateAdd s k u a b).m_handleSentinel = s.m_handleSentinel ∧
    (candidateAdd s k u a b).m_numHandles = s.m_numHandles ∧
    (candidateAdd s k u a b).m_maxHandles = s.m_maxHandles ∧
    (candidateAdd s k u a b).m_firstFreeHandle = s.m_firstFreeHandle := by
  unfold candidateAdd; split <;> exact ⟨rfl, rfl, rfl, rfl⟩

theorem mem_candidateAdd (s : Broadphase T R) (k : Fin 3) (a b : Nat) (p : Nat × Nat) :
    p ∈ (candidateAdd s k true a b).m_pairCache ↔
      (testOverlap2D s a b (k + 1) (k + 2) = true ∧ p = mkPair a b) ∨ p ∈ s.m_pairCache := by
  unfold candidateAdd addOverlappingPair
  by_cases ht : testOverlap2D s a b (k + 1) (k + 2) = true
  · by_cases hm : mkPair a b ∈ s.m_pairCache
    · simp only [ht, Bool.and_self, if_true, hm, true_and]
      constructor
      · intro h; exact Or.inr h
      · rintro (h | h)
        · rw [h]; exact hm
        · exact h
    · simp [ht, hm]
  · simp [ht]

@[simp] theorem pHandles_candidateRemove (s : Broadphase T R) (k : Fin 3) (u : Bool) (a b : Nat) :
    (candidateRemove s k u a b).m_pHandles = s.m_pHandles := by
  unfold candidateRemove; split <;> rfl

@[simp] theorem pEdges_candidateRemove (s : Broadphase T R) (k : Fin 3) (u : Bool) (a b : Nat) :
    (candidateRemove s k u a b).m_pEdges = s.m_pEdges := by
  unfold candidateRemove; split <;> rfl

@[simp] theorem minE_candidateRemove (s : Broadphase T R) (k : Fin 3) (u : Bool) (a b c : Nat)
    (j : Fin 3) : minE (candidateRemove s k u a b) c j = minE s c j := by
  unfold minE; rw [pHandles_candidateRemove]

@[simp] theorem maxE_candidateRemove (s : Broadphase T R) (k : Fin 3) (u : Bool) (a b c : Nat)
    (j : Fin 3) : maxE (candidateRemove s k u a b) c j = maxE s c j := by
  unfold maxE; rw [pHandles_candidateRemove]

@[simp] theorem scalars_candidateRemove (s : Broadphase T R) (k : Fin 3) (u : Bool) (a b : Nat) :
    (candidateRemove s k u a b).m_handleSentinel = s.m_handleSentinel ∧
    (candidateRemove s k u a b).m_numHandles = s.m_numHandles ∧
    (candidateRemove s k u a b).m_maxHandles = s.m_maxHandles ∧
    (candidateRemove s k u a b).m_firstFreeHandle = s.m_firstFreeHandle := by
  unfold candidateRemove; split <;> exact ⟨rfl, rfl, rfl, rfl⟩

theorem mem_candidateRemove (s : Broadphase T R) (k : Fin 3) (a b : Nat) (p : Nat × Nat) :
    p ∈ (candidateRemove s k true a b).m_pairCache ↔
      p ∈ s.m_pairCache ∧ ¬ (testOverlap2D s a b (k + 1) (k + 2) = true ∧ p = mkPair a b) := by
  unfold candidateRemove removeOverlappingPair
  by_cases ht : testOverlap2D s a b (k + 1) (k + 2) = true
  · simp [ht, List.mem_filter]
  · simp [ht]

/-! ### The exchange of two slots -/

theorem tau_tau (i m : Nat) : tau i (tau i m) = m := by
  unfold tau; split_ifs <;> omega

theorem pEdges_swapEdges_down (s : Broadphase T R) (k : Fin 3) (i m : Nat) :
    (swapEdges s k (i + 1) i).m_pEdges k m = s.m_pEdges k (tau i m) := by
  unfold swapEdges tau
  simp only [pEdges_setEdge, true_and]
  by_cases h1 : m = i
  · subst h1; simp
  · by_cases h2 : m = i + 1
    · subst h2; simp
    · simp [h1, h2]

theorem pEdges_swapEdges_up (s : Broadphase T R) (k : Fin 3) (i m : Nat) :
    (swapEdges s k i (i + 1)).m_pEdges k m = s.m_pEdges k (tau i m) := by
  unfold swapEdges tau
  simp only [pEdges_setEdge, true_and]
  by_cases h1 : m = i
  · subst h1; simp
  · by_cases h2 : m = i + 1
    · subst h2; simp
    · simp [h1, h2]

theorem pEdges_swapEdges_other (s : Broadphase T R) (k : Fin 3) (i i' : Nat) (j : Fin 3)
    (hj : j ≠ k) : (swapEdges s k i i').m_pEdges j = s.m_pEdges j := by
  funext m
  unfold swapEdges
  simp [pEdges_setEdge, hj]

@[simp] theorem minE_swapEdges (s : Broadphase T R) (k : Fin 3) (i i' a : Nat) (j : Fin 3) :
    minE (swapEdges s k i i') a j = minE s a j := rfl

@[simp] theorem maxE_swapEdges (s : Broadphase T R) (k : Fin 3) (i i' a : Nat) (j : Fin 3) :
    maxE (swapEdges s k i i') a j = maxE s a j := rfl

@[simp] theorem pHandles_swapEdges (s : Broadphase T R) (k : Fin 3) (i i' : Nat) :
    (swapEdges s k i i').m_pHandles = s.m_pHandles := rfl

@[simp] theorem pairCache_swapEdges (s : Broadphase T R) (k : Fin 3) (i i' : Nat) :
    (swapEdges s k i i').m_pairCache = s.m_pairCache := rfl

@[simp] theorem sentinel_candidateAdd (s : Broadphase T R) (k : Fin 3) (u : Bool) (a b : Nat) :
    (candidateAdd s k u a b).m_handleSentinel = s.m_handleSentinel :=
  (scalars_candidateAdd s k u a b).1

@[simp] theorem numHandles_candidateAdd (s : Broadphase T R) (k : Fin 3) (u : Bool) (a b : Nat) :
    (candidateAdd s k u a b).m_numHandles = s.m_numHandles :=
  (scalars_candidateAdd s k u a b).2.1

@[simp] theorem maxHandles_candidateAdd (s : Broadphase T R) (k : Fin 3) (u : Bool) (a b : Nat) :
    (candidateAdd s k u a b).m_maxHandles = s.m_maxHandles :=
  (scalars_candidateAdd s k u a b).2.2.1

@[simp] theorem firstFree_candidateAdd (s : Broadphase T R) (k : Fin 3) (u : Bool) (a b : Nat) :
    (candidateAdd s k u a b).m_firstFreeHandle = s.m_firstFreeHandle :=
  (scalars_candidateAdd s k u a b).2.2.2

@[simp] theorem sentinel_candidateRemove (s : Broadphase T R) (k : Fin 3) (u : Bool) (a b : Nat) :
    (candidateRemove s k u a b).m_handleSentinel = s.m_handleSentinel :=
  (scalars_candidateRemove s k u a b).1

@[simp] theorem numHandles_candidateRemove (s : Broadphase T R) (k : Fin 3) (u : Bool)
    (a b : Nat) : (candidateRemove s k u a b).m_numHandles = s.m_numHandles :=
  (scalars_candidateRemove s k u a b).2.1

@[simp] theorem maxHandles_candidateRemove (s : Broadphase T R) (k : Fin 3) (u : Bool)
    (a b : Nat) : (candidateRemove s k u a b).m_maxHandles = s.m_maxHandles :=
  (scalars_candidateRemove s k u a b).2.2.1

@[simp] theorem firstFree_candidateRemove (s : Broadphase T R) (k : Fin 3) (u : Bool)
    (a b : Nat) : (candidateRemove s k u a b).m_firstFreeHandle = s.m_firstFreeHandle :=
  (scalars_candidateRemove s k u a b).2.2.2

@[simp] theorem sentinel_swapEdges (s : Broadphase T R) (k : Fin 3) (i i' : Nat) :
    (swapEdges s k i i').m_handleSentinel = s.m_handleSentinel := rfl

@[simp] theorem numHandles_swapEdges (s : Broadphase T R) (k : Fin 3) (i i' : Nat) :
    (swapEdges s k i i').m_numHandles = s.m_numHandles := rfl

@[simp] theorem maxHandles_swapEdges (s : Broadphase T R) (k : Fin 3) (i i' : Nat) :
    (swapEdges s k i i').m_maxHandles = s.m_maxHandles := rfl

@[simp] theorem firstFree_swapEdges (s : Broadphase T R) (k : Fin 3) (i i' : Nat) :
    (swapEdges s k i i').m_firstFreeHandle = s.m_firstFreeHandle := rfl

end AxisSweep3

namespace AxisSweep3

variable {T : IntType} {R : Type}

theorem AxisLink.min_eq {s : Broadphase T R} {L : List Nat} {N : Nat} {k : Fin 3}
    (hl : AxisLink s L N k) {a : Nat} (ha : Owner L a) {m : Nat}
    (h : minE s a k = m) : (s.m_pEdges k m).m_handle = a ∧ edgePos s k m % 2 = 0 := by
  subst h
  exact ⟨hl.min_handle a ha, hl.min_even a ha⟩

theorem AxisLink.max_eq {s : Broadphase T R} {L : List Nat} {N : Nat} {k : Fin 3}
    (hl : AxisLink s L N k) {a : Nat} (ha : Owner L a) {m : Nat}
    (h : maxE s a k = m) : (s.m_pEdges k m).m_handle = a ∧ edgePos s k m % 2 = 1 := by
  subst h
  exact ⟨hl.max_handle a ha, hl.max_odd a ha⟩

theorem sortMinDownStep_rel (s : Broadphase T R) (L : List Nat) (N : Nat) (k : Fin 3) (i : Nat)
    (hl : AxisLink s L N k) (hi : i + 1 ≤ N) (hmov : edgePos s k (i + 1) % 2 = 0) :
    StepRel s (sortMinDownStep s k (i + 1) true) L k i := by
  have hh := (hl.owner (i + 1) hi).2.2 hmov
  have hx := hl.owner i (by omega)
  have hho := (hl.owner (i + 1) hi).1
  unfold edgeHandle at hh hx hho
  unfold sortMinDownStep
  simp only [Nat.add_sub_cancel]
  generalize hxe : (s.m_pEdges k i).m_handle = x at *
  generalize hhe : (s.m_pEdges k (i + 1)).m_handle = h at *
  by_cases hp : edgePos s k i % 2 = 1
  · have hpm : ((s.m_pEdges k i).IsMax T != 0) = true := (isMax_ne_zero_iff _).2 hp
    have hxi := hx.2.1 hp
    simp only [hpm, if_true]
    refine
      { edges_k := ?_, edges_o := ?_, min_k := ?_, max_k := ?_, min_o := ?_, max_o := ?_,
        frame := ?_, sentinel := ?_, numHandles := ?_, maxHandles := ?_, firstFree := ?_,
        cache := ?_ }
    · intro m
      rw [pEdges_swapEdges_down]; simp only [pEdges_setMinEdge, pEdges_setMaxEdge,
        pEdges_candidateAdd, pEdges_candidateRemove]
    · intro j hj
      rw [pEdges_swapEdges_other _ _ _ _ _ hj]; simp only [pEdges_setMinEdge, pEdges_setMaxEdge,
        pEdges_candidateAdd, pEdges_candidateRemove]
    · intro a ha
      simp only [minE_swapEdges, minE_setMinEdge, minE_setMaxEdge, minE_candidateAdd, and_true]
      by_cases hah : a = h
      · subst hah; simp only [if_true, hh]; unfold tau; simp
      · have h1 : minE s a k ≠ i + 1 := fun hc => hah ((hl.min_eq ha hc).1.symm.trans hhe)
        have h2 : minE s a k ≠ i := fun hc => by have := (hl.min_eq ha hc).2; omega
        simp only [hah, if_false]; unfold tau; simp [h1, h2]
    · intro a ha
      simp only [maxE_swapEdges, maxE_setMinEdge, maxE_setMaxEdge, maxE_candidateAdd, and_true]
      by_cases hax : a = x
      · subst hax; simp only [if_true, hxi]; unfold tau; simp
      · have h1 : maxE s a k ≠ i := fun hc => hax ((hl.max_eq ha hc).1.symm.trans hxe)
        have h2 : maxE s a k ≠ i + 1 := fun hc => by have := (hl.max_eq ha hc).2; omega
        simp only [hax, if_false]; unfold tau; simp [h1, h2]
    · intro a j hj
      simp [hj]
    · intro a j hj
      simp [hj]
    · intro f hf
      have h1 : f ≠ h := fun hc => hf (hc ▸ hho)
      have h2 : f ≠ x := fun hc => hf (hc ▸ hx.1)
      rw [pHandles_swapEdges, pHandles_setMinEdge_ne _ _ _ _ _ h1,
        pHandles_setMaxEdge_ne _ _ _ _ _ h2, pHandles_candidateAdd]
    · simp only [sentinel_swapEdges, sentinel_setMinEdge, sentinel_setMaxEdge,
        sentinel_candidateAdd]
    · simp only [numHandles_swapEdges, numHandles_setMinEdge, numHandles_setMaxEdge,
        numHandles_candidateAdd]
    · simp only [maxHandles_swapEdges, maxHandles_setMinEdge, maxHandles_setMaxEdge,
        maxHandles_candidateAdd]
    · simp only [firstFree_swapEdges, firstFree_setMinEdge, firstFree_setMaxEdge,
        firstFree_candidateAdd]
    · intro p
      simp only [pairCache_swapEdges, pairCache_setMinEdge, pairCache_setMaxEdge,
        mem_candidateAdd, edgeHandle, hxe, hhe]
      rw [testOverlap2D_comm s x h, mkPair_comm x h]
      have : ¬ edgePos s k i % 2 = 0 := by omega
      simp [hp, hmov, this]
  · have hp0 : edgePos s k i % 2 = 0 := by omega
    have hpm : ¬ ((s.m_pEdges k i).IsMax T != 0) = true := fun hc => hp ((isMax_ne_zero_iff _).1 hc)
    have hxi := hx.2.2 hp0
    have hxh : h ≠ x := fun hc => by rw [hc] at hh; omega
    simp only [hpm, Bool.false_eq_true, if_false]
    refine
      { edges_k := ?_, edges_o := ?_, min_k := ?_, max_k := ?_, min_o := ?_, max_o := ?_,
        frame := ?_, sentinel := rfl, numHandles := rfl, maxHandles := rfl, firstFree := rfl,
        cache := ?_ }
    · intro m
      rw [pEdges_swapEdges_down]; simp only [pEdges_setMinEdge, pEdges_setMaxEdge,
        pEdges_candidateAdd, pEdges_candidateRemove]
    · intro j hj
      rw [pEdges_swapEdges_other _ _ _ _ _ hj]; simp only [pEdges_setMinEdge, pEdges_setMaxEdge,
        pEdges_candidateAdd, pEdges_candidateRemove]
    · intro a ha
      simp only [minE_swapEdges, minE_setMinEdge, and_true, hxh, if_false]
      by_cases hah : a = h
      · subst hah; simp only [if_true, hh]; unfold tau; simp
      · by_cases hax : a = x
        · subst hax; simp only [hah, if_false, if_true, hxi]; unfold tau; simp
        · have h1 : minE s a k ≠ i + 1 := fun hc => hah ((hl.min_eq ha hc).1.symm.trans hhe)
          have h2 : minE s a k ≠ i := fun hc => hax ((hl.min_eq ha hc).1.symm.trans hxe)
          simp only [hah, hax, if_false]; unfold tau; simp [h1, h2]
    · intro a ha
      simp only [maxE_swapEdges, maxE_setMinEdge]
      have h1 : maxE s a k ≠ i := fun hc => by have := (hl.max_eq ha hc).2; omega
      have h2 : maxE s a k ≠ i + 1 := fun hc => by have := (hl.max_eq ha hc).2; omega
      unfold tau; simp [h1, h2]
    · intro a j hj
      simp [hj]
    · intro a j hj
      simp [hj]
    · intro f hf
      have h1 : f ≠ h := fun hc => hf (hc ▸ hho)
      have h2 : f ≠ x := fun hc => hf (hc ▸ hx.1)
      rw [pHandles_swapEdges, pHandles_setMinEdge_ne _ _ _ _ _ h1,
        pHandles_setMinEdge_ne _ _ _ _ _ h2]
    · intro p
      simp only [pairCache_swapEdges, pairCache_setMinEdge]
      simp [hp, hmov]

end AxisSweep3

namespace AxisSweep3

variable {T : IntType} {R : Type}

theorem sortMaxDownStep_rel (s : Broadphase T R) (L : List Nat) (N : Nat) (k : Fin 3) (i : Nat)
    (hl : AxisLink s L N k) (hi : i + 1 ≤ N) (hmov : edgePos s k (i + 1) % 2 = 1) :
    StepRel s (sortMaxDownStep s k (i + 1) true) L k i := by
  have hh := (hl.owner (i + 1) hi).2.1 hmov
  have hx := hl.owner i (by omega)
  have hho := (hl.owner (i + 1) hi).1
  unfold edgeHandle at hh hx hho
  unfold sortMaxDownStep
  simp only [Nat.add_sub_cancel]
  generalize hxe : (s.m_pEdges k i).m_handle = x at *
  generalize hhe : (s.m_pEdges k (i + 1)).m_handle = h at *
  by_cases hp : edgePos s k i % 2 = 1
  · have hpm : ((s.m_pEdges k i).IsMax T != 0) = true := (isMax_ne_zero_iff _).2 hp
    have hxi := hx.2.1 hp
    have hxh : h ≠ x := fun hc => by rw [hc] at hh; omega
    simp only [hpm, if_true]
    refine
      { edges_k := ?_, edges_o := ?_, min_k := ?_, max_k := ?_, min_o := ?_, max_o := ?_,
        frame := ?_, sentinel := rfl, numHandles := rfl, maxHandles := rfl, firstFree := rfl,
        cache := ?_ }
    · intro m
      rw [pEdges_swapEdges_down]; simp only [pEdges_setMinEdge, pEdges_setMaxEdge]
    · intro j hj
      rw [pEdges_swapEdges_other _ _ _ _ _ hj]; simp only [pEdges_setMinEdge, pEdges_setMaxEdge]
    · intro a ha
      simp only [minE_swapEdges, minE_setMaxEdge]
      have h1 : minE s a k ≠ i := fun hc => by have := (hl.min_eq ha hc).2; omega
      have h2 : minE s a k ≠ i + 1 := fun hc => by have := (hl.min_eq ha hc).2; omega
      unfold tau; simp [h1, h2]
    · intro a ha
      simp only [maxE_swapEdges, maxE_setMaxEdge, and_true, hxh, if_false]
      by_cases hah : a = h
      · subst hah; simp only [if_true, hh]; unfold tau; simp
      · by_cases hax : a = x
        · subst hax; simp only [hah, if_false, if_true, hxi]; unfold tau; simp
        · have h1 : maxE s a k ≠ i + 1 := fun hc => hah ((hl.max_eq ha hc).1.symm.trans hhe)
          have h2 : maxE s a k ≠ i := fun hc => hax ((hl.max_eq ha hc).1.symm.trans hxe)
          simp only [hah, hax, if_false]; unfold tau; simp [h1, h2]
    · intro a j hj
      simp [hj]
    · intro a j hj
      simp [hj]
    · intro f hf
      have h1 : f ≠ h := fun hc => hf (hc ▸ hho)
      have h2 : f ≠ x := fun hc => hf (hc ▸ hx.1)
      rw [pHandles_swapEdges, pHandles_setMaxEdge_ne _ _ _ _ _ h1,
        pHandles_setMaxEdge_ne _ _ _ _ _ h2]
    · intro p
      simp only [pairCache_swapEdges, pairCache_setMaxEdge]
      simp [hp, hmov]
  · have hp0 : edgePos s k i % 2 = 0 := by omega
    have hpm : ¬ ((s.m_pEdges k i).IsMax T != 0) = true := fun hc => hp ((isMax_ne_zero_iff _).1 hc)
    have hxi := hx.2.2 hp0
    simp only [hpm, Bool.false_eq_true, if_false]
    refine
      { edges_k := ?_, edges_o := ?_, min_k := ?_, max_k := ?_, min_o := ?_, max_o := ?_,
        frame := ?_, sentinel := ?_, numHandles := ?_, maxHandles := ?_, firstFree := ?_,
        cache := ?_ }
    · intro m
      rw [pEdges_swapEdges_down]; simp only [pEdges_setMinEdge, pEdges_setMaxEdge,
        pEdges_candidateAdd, pEdges_candidateRemove]
    · intro j hj
      rw [pEdges_swapEdges_other _ _ _ _ _ hj]; simp only [pEdges_setMinEdge, pEdges_setMaxEdge,
        pEdges_candidateAdd, pEdges_candidateRemove]
    · intro a ha
      simp only [minE_swapEdges, minE_setMinEdge, minE_setMaxEdge, minE_candidateRemove, and_true]
      by_cases hax : a = x
      · subst hax; simp only [if_true, hxi]; unfold tau; simp
      · have h1 : minE s a k ≠ i := fun hc => hax ((hl.min_eq ha hc).1.symm.trans hxe)
        have h2 : minE s a k ≠ i + 1 := fun hc => by have := (hl.min_eq ha hc).2; omega
        simp only [hax, if_false]; unfold tau; simp [h1, h2]
    · intro a ha
      simp only [maxE_swapEdges, maxE_setMinEdge, maxE_setMaxEdge, maxE_candidateRemove, and_true]
      by_cases hah : a = h
      · subst hah; simp only [if_true, hh]; unfold tau; simp
      · have h1 : maxE s a k ≠ i + 1 := fun hc => hah ((hl.max_eq ha hc).1.symm.trans hhe)
        have h2 : maxE s a k ≠ i := fun hc => by have := (hl.max_eq ha hc).2; omega
        simp only [hah, if_false]; unfold tau; simp [h1, h2]
    · intro a j hj
      simp [hj]
    · intro a j hj
      simp [hj]
    · intro f hf
      have h1 : f ≠ h := fun hc => hf (hc ▸ hho)
      have h2 : f ≠ x := fun hc => hf (hc ▸ hx.1)
      rw [pHandles_swapEdges, pHandles_setMaxEdge_ne _ _ _ _ _ h1,
        pHandles_setMinEdge_ne _ _ _ _ _ h2, pHandles_candidateRemove]
    · simp only [sentinel_swapEdges, sentinel_setMinEdge, sentinel_setMaxEdge,
        sentinel_candidateRemove]
    · simp only [numHandles_swapEdges, numHandles_setMinEdge, numHandles_setMaxEdge,
        numHandles_candidateRemove]
    · simp only [maxHandles_swapEdges, maxHandles_setMinEdge, maxHandles_setMaxEdge,
        maxHandles_candidateRemove]
    · simp only [firstFree_swapEdges, firstFree_setMinEdge, firstFree_setMaxEdge,
        firstFree_candidateRemove]
    · intro p
      simp only [pairCache_swapEdges, pairCache_setMinEdge, pairCache_setMaxEdge,
        mem_candidateRemove, edgeHandle, hxe, hhe]
      rw [testOverlap2D_comm s x h, mkPair_comm x h]
      simp [hp, hmov, hp0]

theorem sortMinUpStep_rel (s : Broadphase T R) (L : List Nat) (N : Nat) (k : Fin 3) (i : Nat)
    (hl : AxisLink s L N k) (hi : i + 1 ≤ N) (hmov : edgePos s k i % 2 = 0) :
    StepRel s (sortMinUpStep s k i true) L k i := by
  have hh := (hl.owner i (by omega)).2.2 hmov
  have hy := hl.owner (i + 1) hi
  have hho := (hl.owner i (by omega)).1
  unfold edgeHandle at hh hy hho
  unfold sortMinUpStep
  dsimp only
  generalize hye : (s.m_pEdges k (i + 1)).m_handle = y at *
  generalize hhe : (s.m_pEdges k i).m_handle = h at *
  by_cases hp : edgePos s k (i + 1) % 2 = 1
  · have hpm : ((s.m_pEdges k (i + 1)).IsMax T != 0) = true := (isMax_ne_zero_iff _).2 hp
    have hyi := hy.2.1 hp
    simp only [hpm, if_true]
    refine
      { edges_k := ?_, edges_o := ?_, min_k := ?_, max_k := ?_, min_o := ?_, max_o := ?_,
        frame := ?_, sentinel := ?_, numHandles := ?_, maxHandles := ?_, firstFree := ?_,
        cache := ?_ }
    · intro m
      rw [pEdges_swapEdges_up]; simp only [pEdges_setMinEdge, pEdges_setMaxEdge,
        pEdges_candidateAdd, pEdges_candidateRemove]
    · intro j hj
      rw [pEdges_swapEdges_other _ _ _ _ _ hj]; simp only [pEdges_setMinEdge, pEdges_setMaxEdge,
        pEdges_candidateAdd, pEdges_candidateRemove]
    · intro a ha
      simp only [minE_swapEdges, minE_setMinEdge, minE_setMaxEdge, minE_candidateRemove, and_true]
      by_cases hah : a = h
      · subst hah; simp only [if_true, hh]; unfold tau; simp
      · have h1 : minE s a k ≠ i := fun hc => hah ((hl.min_eq ha hc).1.symm.trans hhe)
        have h2 : minE s a k ≠ i + 1 := fun hc => by have := (hl.min_eq ha hc).2; omega
        simp only [hah, if_false]; unfold tau; simp [h1, h2]
    · intro a ha
      simp only [maxE_swapEdges, maxE_setMinEdge, maxE_setMaxEdge, maxE_candidateRemove, and_true]
      by_cases hay : a = y
      · subst hay; simp only [if_true, hyi]; unfold tau; simp
      · have h1 : maxE s a k ≠ i + 1 := fun hc => hay ((hl.max_eq ha hc).1.symm.trans hye)
        have h2 : maxE s a k ≠ i := fun hc => by have := (hl.max_eq ha hc).2; omega
        simp only [hay, if_false]; unfold tau; simp [h1, h2]
    · intro a j hj
      simp [hj]
    · intro a j hj
      simp [hj]
    · intro f hf
      have h1 : f ≠ h := fun hc => hf (hc ▸ hho)
      have h2 : f ≠ y := fun hc => hf (hc ▸ hy.1)
      rw [pHandles_swapEdges, pHandles_setMinEdge_ne _ _ _ _ _ h1,
        pHandles_setMaxEdge_ne _ _ _ _ _ h2, pHandles_candidateRemove]
    · simp only [sentinel_swapEdges, sentinel_setMinEdge, sentinel_setMaxEdge,
        sentinel_candidateRemove]
    · simp only [numHandles_swapEdges, numHandles_setMinEdge, numHandles_setMaxEdge,
        numHandles_candidateRemove]
    · simp only [maxHandles_swapEdges, maxHandles_setMinEdge, maxHandles_setMaxEdge,
        maxHandles_candidateRemove]
    · simp only [firstFree_swapEdges, firstFree_setMinEdge, firstFree_setMaxEdge,
        firstFree_candidateRemove]
    · intro p
      simp only [pairCache_swapEdges, pairCache_setMinEdge, pairCache_setMaxEdge,
        mem_candidateRemove, edgeHandle, hye, hhe]
      simp [hp, hmov]
  · have hp0 : edgePos s k (i + 1) % 2 = 0 := by omega
    have hpm : ¬ ((s.m_pEdges k (i + 1)).IsMax T != 0) = true :=
      fun hc => hp ((isMax_ne_zero_iff _).1 hc)
    have hyi := hy.2.2 hp0
    have hyh : h ≠ y := fun hc => by rw [hc] at hh; omega
    simp only [hpm, Bool.false_eq_true, if_false]
    refine
      { edges_k := ?_, edges_o := ?_, min_k := ?_, max_k := ?_, min_o := ?_, max_o := ?_,
        frame := ?_, sentinel := rfl, numHandles := rfl, maxHandles := rfl, firstFree := rfl,
        cache := ?_ }
    · intro m
      rw [pEdges_swapEdges_up]; simp only [pEdges_setMinEdge, pEdges_setMaxEdge]
    · intro j hj
      rw [pEdges_swapEdges_other _ _ _ _ _ hj]; simp only [pEdges_setMinEdge, pEdges_setMaxEdge]
    · intro a ha
      simp only [minE_swapEdges, minE_setMinEdge, and_true, hyh, if_false]
      by_cases hah : a = h
      · subst hah; simp only [if_true, hh]; unfold tau; simp
      · by_cases hay : a = y
        · subst hay; simp only [hah, if_false, if_true, hyi]; unfold tau; simp
        · have h1 : minE s a k ≠ i := fun hc => hah ((hl.min_eq ha hc).1.symm.trans hhe)
          have h2 : minE s a k ≠ i + 1 := fun hc => hay ((hl.min_eq ha hc).1.symm.trans hye)
          simp only [hah, hay, if_false]; unfold tau; simp [h1, h2]
    · intro a ha
      simp only [maxE_swapEdges, maxE_setMinEdge]
      have h1 : maxE s a k ≠ i := fun hc => by have := (hl.max_eq ha hc).2; omega
      have h2 : maxE s a k ≠ i + 1 := fun hc => by have := (hl.max_eq ha hc).2; omega
      unfold tau; simp [h1, h2]
    · intro a j hj
      simp [hj]
    · intro a j hj
      simp [hj]
    · intro f hf
      have h1 : f ≠ h := fun hc => hf (hc ▸ hho)
      have h2 : f ≠ y := fun hc => hf (hc ▸ hy.1)
      rw [pHandles_swapEdges, pHandles_setMinEdge_ne _ _ _ _ _ h1,
        pHandles_setMinEdge_ne _ _ _ _ _ h2]
    · intro p
      simp only [pairCache_swapEdges, pairCache_setMinEdge]
      simp [hp, hmov]

theorem sortMaxUpStep_rel (s : Broadphase T R) (L : List Nat) (N : Nat) (k : Fin 3) (i : Nat)
    (hl : AxisLink s L N k) (hi : i + 1 ≤ N) (hmov : edgePos s k i % 2 = 1) :
    StepRel s (sortMaxUpStep s k i true) L k i := by
  have hh := (hl.owner i (by omega)).2.1 hmov
  have hy := hl.owner (i + 1) hi
  have hho := (hl.owner i (by omega)).1
  unfold edgeHandle at hh hy hho
  unfold sortMaxUpStep
  dsimp only
  generalize hye : (s.m_pEdges k (i + 1)).m_handle = y at *
  generalize hhe : (s.m_pEdges k i).m_handle = h at *
  by_cases hp : edgePos s k (i + 1) % 2 = 1
  · have hpm : ((s.m_pEdges k (i + 1)).IsMax T != 0) = true := (isMax_ne_zero_iff _).2 hp
    have hyi := hy.2.1 hp
    have hyh : h ≠ y := fun hc => by rw [hc] at hh; omega
    simp only [hpm, if_true]
    refine
      { edges_k := ?_, edges_o := ?_, min_k := ?_, max_k := ?_, min_o := ?_, max_o := ?_,
        frame := ?_, sentinel := rfl, numHandles := rfl, maxHandles := rfl, firstFree := rfl,
        cache := ?_ }
    · intro m
      rw [pEdges_swapEdges_up]; simp only [pEdges_setMinEdge, pEdges_setMaxEdge]
    · intro j hj
      rw [pEdges_swapEdges_other _ _ _ _ _ hj]; simp only [pEdges_setMinEdge, pEdges_setMaxEdge]
    · intro a ha
      simp only [minE_swapEdges, minE_setMaxEdge]
      have h1 : minE s a k ≠ i := fun hc => by have := (hl.min_eq ha hc).2; omega
      have h2 : minE s a k ≠ i + 1 := fun hc => by have := (hl.min_eq ha hc).2; omega
      unfold tau; simp [h1, h2]
    · intro a ha
      simp only [maxE_swapEdges, maxE_setMaxEdge, and_true, hyh, if_false]
      by_cases hah : a = h
      · subst hah; simp only [if_true, hh]; unfold tau; simp
      · by_cases hay : a = y
        · subst hay; simp only [hah, if_false, if_true, hyi]; unfold tau; simp
        · have h1 : maxE s a k ≠ i := fun hc => hah ((hl.max_eq ha hc).1.symm.trans hhe)
          have h2 : maxE s a k ≠ i + 1 := fun hc => hay ((hl.max_eq ha hc).1.symm.trans hye)
          simp only [hah, hay, if_false]; unfold tau; simp [h1, h2]
    · intro a j hj
      simp [hj]
    · intro a j hj
      simp [hj]
    · intro f hf
      have h1 : f ≠ h := fun hc => hf (hc ▸ hho)
      have h2 : f ≠ y := fun hc => hf (hc ▸ hy.1)
      rw [pHandles_swapEdges, pHandles_setMaxEdge_ne _ _ _ _ _ h1,
        pHandles_setMaxEdge_ne _ _ _ _ _ h2]
    · intro p
      simp only [pairCache_swapEdges, pairCache_setMaxEdge]
      simp [hp, hmov]
  · have hp0 : edgePos s k (i + 1) % 2 = 0 := by omega
    have hpm : ¬ ((s.m_pEdges k (i + 1)).IsMax T != 0) = true :=
      fun hc => hp ((isMax_ne_zero_iff _).1 hc)
    have hyi := hy.2.2 hp0
    simp only [hpm, Bool.false_eq_true, if_false]
    refine
      { edges_k := ?_, edges_o := ?_, min_k := ?_, max_k := ?_, min_o := ?_, max_o := ?_,
        frame := ?_, sentinel := ?_, numHandles := ?_, maxHandles := ?_, firstFree := ?_,
        cache := ?_ }
    · intro m
      rw [pEdges_swapEdges_up]; simp only [pEdges_setMinEdge, pEdges_setMaxEdge,
        pEdges_candidateAdd, pEdges_candidateRemove]
    · intro j hj
      rw [pEdges_swapEdges_other _ _ _ _ _ hj]; simp only [pEdges_setMinEdge, pEdges_setMaxEdge,
        pEdges_candidateAdd, pEdges_candidateRemove]
    · intro a ha
      simp only [minE_swapEdges, minE_setMinEdge, minE_setMaxEdge, minE_candidateAdd, and_true]
      by_cases hay : a = y
      · subst hay; simp only [if_true, hyi]; unfold tau; simp
      · have h1 : minE s a k ≠ i + 1 := fun hc => hay ((hl.min_eq ha hc).1.symm.trans hye)
        have h2 : minE s a k ≠ i := fun hc => by have := (hl.min_eq ha hc).2; omega
        simp only [hay, if_false]; unfold tau; simp [h1, h2]
    · intro a ha
      simp only [maxE_swapEdges, maxE_setMinEdge, maxE_setMaxEdge, maxE_candidateAdd, and_true]
      by_cases hah : a = h
      · subst hah; simp only [if_true, hh]; unfold tau; simp
      · have h1 : maxE s a k ≠ i := fun hc => hah ((hl.max_eq ha hc).1.symm.trans hhe)
        have h2 : maxE s a k ≠ i + 1 := fun hc => by have := (hl.max_eq ha hc).2; omega
        simp only [hah, if_false]; unfold tau; simp [h1, h2]
    · intro a j hj
      simp [hj]
    · intro a j hj
      simp [hj]
    · intro f hf
      have h1 : f ≠ h := fun hc => hf (hc ▸ hho)
      have h2 : f ≠ y := fun hc => hf (hc ▸ hy.1)
      rw [pHandles_swapEdges, pHandles_setMaxEdge_ne _ _ _ _ _ h1,
        pHandles_setMinEdge_ne _ _ _ _ _ h2, pHandles_candidateAdd]
    · simp only [sentinel_swapEdges, sentinel_setMinEdge, sentinel_setMaxEdge,
        sentinel_candidateAdd]
    · simp only [numHandles_swapEdges, numHandles_setMinEdge, numHandles_setMaxEdge,
        numHandles_candidateAdd]
    · simp only [maxHandles_swapEdges, maxHandles_setMinEdge, maxHandles_setMaxEdge,
        maxHandles_candidateAdd]
    · simp only [firstFree_swapEdges, firstFree_setMinEdge, firstFree_setMaxEdge,
        firstFree_candidateAdd]
    · intro p
      simp only [pairCache_swapEdges, pairCache_setMinEdge, pairCache_setMaxEdge,
        mem_candidateAdd, edgeHandle, hye, hhe]
      have : ¬ edgePos s k (i + 1) % 2 = 1 := hp
      simp [hp, hmov, hp0]

end AxisSweep3

namespace AxisSweep3

variable {T : IntType} {R : Type}

theorem StepRel.edgePos_k {s s' : Broadphase T R} {L : List Nat} {k : Fin 3} {i : Nat}
    (hr : StepRel s s' L k i) (m : Nat) : edgePos s' k m = edgePos s k (tau i m) := by
  unfold edgePos; rw [hr.edges_k]

theorem StepRel.edgeHandle_k {s s' : Broadphase T R} {L : List Nat} {k : Fin 3} {i : Nat}
    (hr : StepRel s s' L k i) (m : Nat) : edgeHandle s' k m = edgeHandle s k (tau i m) := by
  unfold edgeHandle; rw [hr.edges_k]

theorem StepRel.edgePos_o {s s' : Broadphase T R} {L : List Nat} {k : Fin 3} {i : Nat}
    (hr : StepRel s s' L k i) {j : Fin 3} (hj : j ≠ k) (m : Nat) :
    edgePos s' j m = edgePos s j m := by
  unfold edgePos; rw [hr.edges_o j hj]

theorem StepRel.edgeHandle_o {s s' : Broadphase T R} {L : List Nat} {k : Fin 3} {i : Nat}
    (hr : StepRel s s' L k i) {j : Fin 3} (hj : j ≠ k) (m : Nat) :
    edgeHandle s' j m = edgeHandle s j m := by
  unfold edgeHandle; rw [hr.edges_o j hj]

theorem StepRel.minPos_step {s s' : Broadphase T R} {L : List Nat} {k : Fin 3} {i : Nat}
    (hr : StepRel s s' L k i) {a : Nat} (ha : Owner L a) (j : Fin 3) :
    minPos s' a j = minPos s a j := by
  unfold minPos
  by_cases hj : j = k
  · subst hj
    rw [hr.edgePos_k, hr.min_k a ha, tau_tau]
  · rw [hr.edgePos_o hj, hr.min_o a j hj]

theorem StepRel.maxPos_step {s s' : Broadphase T R} {L : List Nat} {k : Fin 3} {i : Nat}
    (hr : StepRel s s' L k i) {a : Nat} (ha : Owner L a) (j : Fin 3) :
    maxPos s' a j = maxPos s a j := by
  unfold maxPos
  by_cases hj : j = k
  · subst hj
    rw [hr.edgePos_k, hr.max_k a ha, tau_tau]
  · rw [hr.edgePos_o hj, hr.max_o a j hj]

theorem StepRel.link_other {s s' : Broadphase T R} {L : List Nat} {k : Fin 3} {i N : Nat}
    (hr : StepRel s s' L k i) {j : Fin 3} (hj : j ≠ k) (hl : AxisLink s L N j) :
    AxisLink s' L N j := by
  refine
    { min_lt_max := ?_, max_le := ?_, min_handle := ?_, max_handle := ?_, min_even := ?_,
      max_odd := ?_, pos_lt := ?_, owner := ?_, sent_min := ?_, sent_max := ?_, pos_zero := ?_,
      pos_top := ?_, pos_le := ?_ }
  · intro a ha; rw [hr.min_o a j hj, hr.max_o a j hj]; exact hl.min_lt_max a ha
  · intro a ha; rw [hr.max_o a j hj]; exact hl.max_le a ha
  · intro a ha; rw [hr.min_o a j hj, hr.edgeHandle_o hj]; exact hl.min_handle a ha
  · intro a ha; rw [hr.max_o a j hj, hr.edgeHandle_o hj]; exact hl.max_handle a ha
  · intro a ha; rw [hr.minPos_step ha]; exact hl.min_even a ha
  · intro a ha; rw [hr.maxPos_step ha]; exact hl.max_odd a ha
  · intro a ha; rw [hr.minPos_step ha, hr.maxPos_step ha]; exact hl.pos_lt a ha
  · intro m hm
    rw [hr.edgeHandle_o hj, hr.edgePos_o hj, hr.min_o _ j hj, hr.max_o _ j hj]
    exact hl.owner m hm
  · rw [hr.min_o 0 j hj]; exact hl.sent_min
  · rw [hr.max_o 0 j hj]; exact hl.sent_max
  · rw [hr.edgePos_o hj]; exact hl.pos_zero
  · rw [hr.edgePos_o hj, hr.sentinel]; exact hl.pos_top
  · intro m hm; rw [hr.edgePos_o hj, hr.sentinel]; exact hl.pos_le m hm

theorem tau_of_ne {i m : Nat} (h1 : m ≠ i) (h2 : m ≠ i + 1) : tau i m = m := by
  unfold tau; rw [if_neg h1, if_neg h2]

theorem tau_left (i : Nat) : tau i i = i + 1 := by
  unfold tau; rw [if_pos rfl]

theorem tau_right (i : Nat) : tau i (i + 1) = i := by
  unfold tau; rw [if_neg (by omega), if_pos rfl]

theorem tau_le {i N m : Nat} (hi : i + 1 ≤ N) (hm : m ≤ N) : tau i m ≤ N := by
  unfold tau; split_ifs <;> omega

theorem StepRel.link_same {s s' : Broadphase T R} {L : List Nat} {k : Fin 3} {i N : Nat}
    (hr : StepRel s s' L k i) (hl : AxisLink s L N k) (hi : i + 1 ≤ N)
    (hpos : edgePos s k (i + 1) < edgePos s k i) :
    AxisLink s' L N k := by
  have hi0 : i ≠ 0 := by
    intro h0; subst h0
    have := hl.pos_zero; omega
  have hiN : i + 1 ≠ N := by
    intro hN
    have h1 := hl.pos_top
    have h2 := hl.pos_le i (by omega)
    rw [hN] at hpos; omega
  refine
    { min_lt_max := ?_, max_le := ?_, min_handle := ?_, max_handle := ?_, min_even := ?_,
      max_odd := ?_, pos_lt := ?_, owner := ?_, sent_min := ?_, sent_max := ?_, pos_zero := ?_,
      pos_top := ?_, pos_le := ?_ }
  · intro a ha
    rw [hr.min_k a ha, hr.max_k a ha]
    have h1 := hl.min_lt_max a ha
    have h2 : ¬ (minE s a k = i ∧ maxE s a k = i + 1) := by
      rintro ⟨h3, h4⟩
      have := hl.pos_lt a ha
      unfold minPos maxPos at this
      rw [h3, h4] at this
      omega
    unfold tau; split_ifs <;> omega
  · intro a ha; rw [hr.max_k a ha]; exact tau_le hi (hl.max_le a ha)
  · intro a ha; rw [hr.min_k a ha, hr.edgeHandle_k, tau_tau]; exact hl.min_handle a ha
  · intro a ha; rw [hr.max_k a ha, hr.edgeHandle_k, tau_tau]; exact hl.max_handle a ha
  · intro a ha; rw [hr.minPos_step ha]; exact hl.min_even a ha
  · intro a ha; rw [hr.maxPos_step ha]; exact hl.max_odd a ha
  · intro a ha; rw [hr.minPos_step ha, hr.maxPos_step ha]; exact hl.pos_lt a ha
  · intro m hm
    rw [hr.edgeHandle_k, hr.edgePos_k]
    have ho := hl.owner (tau i m) (tau_le hi hm)
    refine ⟨ho.1, ?_, ?_⟩
    · intro hp
      rw [hr.max_k _ ho.1, ho.2.1 hp, tau_tau]
    · intro hp
      rw [hr.min_k _ ho.1, ho.2.2 hp, tau_tau]
  · rw [hr.min_k 0 (Or.inl rfl), hl.sent_min]; exact tau_of_ne (by omega) (by omega)
  · rw [hr.max_k 0 (Or.inl rfl), hl.sent_max]; exact tau_of_ne (by omega) (by omega)
  · rw [hr.edgePos_k]
    have : tau i 0 = 0 := tau_of_ne (by omega) (by omega)
    rw [this]; exact hl.pos_zero
  · rw [hr.edgePos_k, hr.sentinel]
    have : tau i N = N := tau_of_ne (by omega) (by omega)
    rw [this]; exact hl.pos_top
  · intro m hm
    rw [hr.edgePos_k, hr.sentinel]
    exact hl.pos_le _ (tau_le hi hm)

end AxisSweep3

namespace AxisSweep3

variable {T : IntType} {R : Type}

theorem mkPair_lt {a b : Nat} (h : a ≠ b) : (mkPair a b).1 < (mkPair a b).2 := by
  unfold mkPair
  by_cases h1 : a < b
  · simp [h1]
  · simp only [h1, if_false]; omega

theorem mkPair_eq_iff {a b x y : Nat} (hab : a < b) :
    (a, b) = mkPair x y ↔ (a = x ∧ b = y) ∨ (a = y ∧ b = x) := by
  unfold mkPair
  by_cases h1 : x < y
  · simp only [h1, if_true, Prod.mk.injEq]
    constructor
    · intro h; exact Or.inl h
    · rintro (h | h)
      · exact h
      · omega
  · simp only [h1, if_false, Prod.mk.injEq]
    constructor
    · intro h; exact Or.inr h
    · rintro (h | h)
      · omega
      · exact h

theorem StepRel.idx_lt_iff {s s' : Broadphase T R} {L : List Nat} {k : Fin 3} {i : Nat}
    (hr : StepRel s s' L k i) {a b : Nat} (ha : Owner L a) (hb : Owner L b) :
    minE s' a k < maxE s' b k ↔
      (minE s a k < maxE s b k ∧ ¬ (minE s a k = i ∧ maxE s b k = i + 1)) ∨
        (minE s a k = i + 1 ∧ maxE s b k = i) := by
  rw [hr.min_k a ha, hr.max_k b hb]
  unfold tau
  split_ifs <;> omega

theorem StepRel.overlap_iff {s s' : Broadphase T R} {L : List Nat} {k : Fin 3} {i : Nat}
    (hr : StepRel s s' L k i) {a b : Nat} (ha : Owner L a) (hb : Owner L b) (j : Fin 3) :
    intervalsOverlap s' a b j ↔ intervalsOverlap s a b j := by
  unfold intervalsOverlap
  rw [hr.minPos_step ha, hr.minPos_step hb, hr.maxPos_step ha, hr.maxPos_step hb]

theorem AxisLink.slot_ne_zero {s : Broadphase T R} {L : List Nat} {k : Fin 3} {N : Nat}
    (hl : AxisLink s L N k) {m : Nat} (hm : m ≤ N) (h0 : m ≠ 0) (hN : m ≠ N) :
    edgeHandle s k m ≠ 0 := by
  intro hc
  have ho := hl.owner m hm
  rw [hc] at ho
  have h1 := hl.sent_min
  have h2 := hl.sent_max
  by_cases hp : edgePos s k m % 2 = 1
  · have := ho.2.1 hp; omega
  · have := ho.2.2 (by omega); omega

theorem StepRel.cacheInv {s s' : Broadphase T R} {L : List Nat} {k : Fin 3} {i N : Nat}
    (hr : StepRel s s' L k i) (hl : AxisLink s L N k) (hi : i + 1 ≤ N)
    (hpos : edgePos s k (i + 1) < edgePos s k i) (hc : CacheInv s L k) :
    CacheInv s' L k := by
  have hi0 : i ≠ 0 := by
    intro h0; subst h0
    have := hl.pos_zero; omega
  have hiN : i + 1 ≠ N := by
    intro hN
    have h1 := hl.pos_top
    have h2 := hl.pos_le i (by omega)
    rw [hN] at hpos; omega
  have hox := hl.owner i (by omega)
  have hoy := hl.owner (i + 1) hi
  have hx0 := hl.slot_ne_zero (m := i) (by omega) hi0 (by omega)
  have hy0 := hl.slot_ne_zero (m := i + 1) hi (by omega) hiN
  generalize hxe : edgeHandle s k i = x at *
  generalize hye : edgeHandle s k (i + 1) = y at *
  have hxL : x ∈ L := by rcases hox.1 with h | h; exact absurd h hx0; exact h
  have hyL : y ∈ L := by rcases hoy.1 with h | h; exact absurd h hy0; exact h
  have hgain : edgePos s k i % 2 = 1 → edgePos s k (i + 1) % 2 = 0 → x ≠ y := by
    intro h1 h2 hxy
    have h3 := hox.2.1 h1
    have h4 := hoy.2.2 h2
    have h5 := hl.min_lt_max x hox.1
    rw [← hxy] at h4; omega
  have hloss : edgePos s k i % 2 = 0 → edgePos s k (i + 1) % 2 = 1 → x ≠ y := by
    intro h1 h2 hxy
    have h3 := hox.2.2 h1
    have h4 := hoy.2.1 h2
    have h5 := hl.pos_lt x hox.1
    rw [← hxy] at h4
    unfold minPos maxPos at h5
    rw [h3, h4] at h5; omega
  constructor
  · intro p hp
    rcases (hr.cache p).1 hp with ⟨h1, h2, _, h4⟩ | ⟨h1, _⟩
    · rw [h4, hxe, hye]; exact mkPair_lt (hgain h1 h2)
    · exact hc.ordered p h1
  · intro a b hab
    rw [hr.cache (a, b), hc.mem_iff a b hab, hxe, hye, testOverlap2D_iff, mkPair_eq_iff hab]
    constructor
    · rintro (⟨h1, h2, h3, h4⟩ | ⟨⟨haL, hbL, hidx, hov⟩, h2⟩)
      · have hxi := hox.2.1 h1
        have hyi := hoy.2.2 h2
        have hxm := hl.min_lt_max x hox.1
        have hym := hl.min_lt_max y hoy.1
        rcases h4 with ⟨rfl, rfl⟩ | ⟨rfl, rfl⟩
        · refine ⟨hxL, hyL, ⟨?_, ?_⟩, ?_, ?_⟩
          · rw [hr.idx_lt_iff hox.1 hoy.1]; left; omega
          · rw [hr.idx_lt_iff hoy.1 hox.1]; right; omega
          · rw [hr.overlap_iff hox.1 hoy.1]; exact h3.1
          · rw [hr.overlap_iff hox.1 hoy.1]; exact h3.2
        · refine ⟨hyL, hxL, ⟨?_, ?_⟩, ?_, ?_⟩
          · rw [hr.idx_lt_iff hoy.1 hox.1]; right; omega
          · rw [hr.idx_lt_iff hox.1 hoy.1]; left; omega
          · rw [hr.overlap_iff hoy.1 hox.1, intervalsOverlap_comm]; exact h3.1
          · rw [hr.overlap_iff hoy.1 hox.1, intervalsOverlap_comm]; exact h3.2
      · have hao : Owner L a := Or.inr haL
        have hbo : Owner L b := Or.inr hbL
        refine ⟨haL, hbL, ⟨?_, ?_⟩, ?_, ?_⟩
        · rw [hr.idx_lt_iff hao hbo]
          by_cases hP : minE s a k = i ∧ maxE s b k = i + 1
          · exfalso
            have e1 := hl.min_eq hao hP.1
            have e2 := hl.max_eq hbo hP.2
            apply h2
            refine ⟨e1.2, e2.2, ?_, Or.inl ⟨?_, ?_⟩⟩
            · have hax : a = x := by rw [← e1.1]; exact hxe
              have hby : b = y := by rw [← e2.1]; exact hye
              subst hax; subst hby; exact hov
            · rw [← e1.1]; exact hxe
            · rw [← e2.1]; exact hye
          · left; exact ⟨hidx.1, hP⟩
        · rw [hr.idx_lt_iff hbo hao]
          by_cases hP : minE s b k = i ∧ maxE s a k = i + 1
          · exfalso
            have e1 := hl.min_eq hbo hP.1
            have e2 := hl.max_eq hao hP.2
            apply h2
            have hbx : b = x := by rw [← e1.1]; exact hxe
            have hay : a = y := by rw [← e2.1]; exact hye
            refine ⟨e1.2, e2.2, ?_, Or.inr ⟨hay, hbx⟩⟩
            subst hbx; subst hay
            exact ⟨(intervalsOverlap_comm _ _ _ _).1 hov.1, (intervalsOverlap_comm _ _ _ _).1 hov.2⟩
          · left; exact ⟨hidx.2, hP⟩
        · rw [hr.overlap_iff hao hbo]; exact hov.1
        · rw [hr.overlap_iff hao hbo]; exact hov.2
    · rintro ⟨haL, hbL, hidx, hov1, hov2⟩
      have hao : Owner L a := Or.inr haL
      have hbo : Owner L b := Or.inr hbL
      rw [hr.overlap_iff hao hbo] at hov1 hov2
      have hidx1 := (hr.idx_lt_iff hao hbo).1 hidx.1
      have hidx2 := (hr.idx_lt_iff hbo hao).1 hidx.2
      rcases hidx1 with ⟨h1, h1n⟩ | ⟨h1a, h1b⟩
      · rcases hidx2 with ⟨h2, h2n⟩ | ⟨h2a, h2b⟩
        · right
          refine ⟨⟨haL, hbL, ⟨h1, h2⟩, hov1, hov2⟩, ?_⟩
          rintro ⟨p1, p2, _, p4⟩
          have hxi := hox.2.2 p1
          have hyi := hoy.2.1 p2
          rcases p4 with ⟨rfl, rfl⟩ | ⟨rfl, rfl⟩
          · exact h1n ⟨hxi, hyi⟩
          · exact h2n ⟨hxi, hyi⟩
        · left
          have e1 := hl.min_eq hbo h2a
          have e2 := hl.max_eq hao h2b
          have hax : a = x := by rw [← e2.1]; exact hxe
          have hby : b = y := by rw [← e1.1]; exact hye
          subst hax; subst hby
          exact ⟨e2.2, e1.2, ⟨hov1, hov2⟩, Or.inl ⟨rfl, rfl⟩⟩
      · left
        have e1 := hl.min_eq hao h1a
        have e2 := hl.max_eq hbo h1b
        have hbx : b = x := by rw [← e2.1]; exact hxe
        have hay : a = y := by rw [← e1.1]; exact hye
        subst hbx; subst hay
        exact ⟨e2.2, e1.2, ⟨(intervalsOverlap_comm _ _ _ _).1 hov1,
          (intervalsOverlap_comm _ _ _ _).1 hov2⟩, Or.inr ⟨rfl, rfl⟩⟩

end AxisSweep3

namespace AxisSweep3

variable {T : IntType} {R : Type}

theorem Frame.refl (s : Broadphase T R) (L : List Nat) : Frame s s L :=
  { minPos_eq := fun _ _ _ => rfl, maxPos_eq := fun _ _ _ => rfl, handles := fun _ _ => rfl,
    sentinel := rfl, numHandles := rfl, maxHandles := rfl, firstFree := rfl }

theorem Frame.trans {s s' s'' : Broadphase T R} {L : List Nat} (h1 : Frame s s' L)
    (h2 : Frame s' s'' L) : Frame s s'' L :=
  { minPos_eq := fun a ha j => (h2.minPos_eq a ha j).trans (h1.minPos_eq a ha j)
    maxPos_eq := fun a ha j => (h2.maxPos_eq a ha j).trans (h1.maxPos_eq a ha j)
    handles := fun f hf => (h2.handles f hf).trans (h1.handles f hf)
    sentinel := h2.sentinel.trans h1.sentinel
    numHandles := h2.numHandles.trans h1.numHandles
    maxHandles := h2.maxHandles.trans h1.maxHandles
    firstFree := h2.firstFree.trans h1.firstFree }

theorem StepRel.toFrame {s s' : Broadphase T R} {L : List Nat} {k : Fin 3} {i : Nat}
    (hr : StepRel s s' L k i) : Frame s s' L :=
  { minPos_eq := fun _ ha j => hr.minPos_step ha j
    maxPos_eq := fun _ ha j => hr.maxPos_step ha j
    handles := hr.frame
    sentinel := hr.sentinel
    numHandles := hr.numHandles
    maxHandles := hr.maxHandles
    firstFree := hr.firstFree }

theorem StepRel.loopInv {s s' : Broadphase T R} {L : List Nat} {k : Fin 3} {i N : Nat}
    (hr : StepRel s s' L k i) (hinv : LoopInv s L N k) (hi : i + 1 ≤ N)
    (hpos : edgePos s k (i + 1) < edgePos s k i) : LoopInv s' L N k := by
  refine { link := ?_, cache := ?_, sorted_o := ?_ }
  · intro j
    by_cases hj : j = k
    · subst hj; exact hr.link_same (hinv.link j) hi hpos
    · exact hr.link_other hj (hinv.link j)
  · exact hr.cacheInv (hinv.link k) hi hpos hinv.cache
  · intro j hj i' m h1 h2
    rw [hr.edgePos_o hj, hr.edgePos_o hj]
    exact hinv.sorted_o j hj i' m h1 h2

/-- The moving edge went one slot down: the array without its new slot is still sorted,
and every edge above it lies at or above its position. -/
theorem StepRel.sorted_down {s s' : Broadphase T R} {L : List Nat} {k : Fin 3} {e N : Nat}
    (hr : StepRel s s' L k e)
    (hpos : edgePos s k (e + 1) < edgePos s k e)
    (hse : SortedExcept s k N (e + 1))
    (hab : ∀ m, e + 1 < m → m ≤ N → edgePos s k (e + 1) ≤ edgePos s k m) :
    SortedExcept s' k N e ∧ (∀ m, e < m → m ≤ N → edgePos s' k e ≤ edgePos s' k m) := by
  constructor
  · intro i m him hmN hie hme
    rw [hr.edgePos_k, hr.edgePos_k]
    by_cases hi1 : i = e + 1
    · subst hi1
      rw [tau_right]
      by_cases hm1 : m = e + 1
      · subst hm1; rw [tau_right]
      · rw [tau_of_ne hme hm1]
        exact hse e m (by omega) hmN (by omega) hm1
    · rw [tau_of_ne hie hi1]
      by_cases hm1 : m = e + 1
      · subst hm1; rw [tau_right]
        exact hse i e (by omega) (by omega) hi1 (by omega)
      · rw [tau_of_ne hme hm1]
        exact hse i m him hmN hi1 hm1
  · intro m hem hmN
    rw [hr.edgePos_k, hr.edgePos_k, tau_left]
    by_cases hm1 : m = e + 1
    · subst hm1; rw [tau_right]; omega
    · rw [tau_of_ne (by omega) hm1]
      exact hab m (by omega) hmN

/-- The moving edge went one slot up. -/
theorem StepRel.sorted_up {s s' : Broadphase T R} {L : List Nat} {k : Fin 3} {e N : Nat}
    (hr : StepRel s s' L k e) (heN : e + 1 ≤ N)
    (hpos : edgePos s k (e + 1) < edgePos s k e)
    (hse : SortedExcept s k N e)
    (hbe : ∀ m, m < e → edgePos s k m ≤ edgePos s k e) :
    SortedExcept s' k N (e + 1) ∧ (∀ m, m < e + 1 → edgePos s' k m ≤ edgePos s' k (e + 1)) := by
  constructor
  · intro i m him hmN hie hme
    rw [hr.edgePos_k, hr.edgePos_k]
    by_cases hi1 : i = e
    · subst hi1
      rw [tau_left]
      by_cases hm1 : m = i
      · subst hm1; rw [tau_left]
      · rw [tau_of_ne hm1 hme]
        exact hse (i + 1) m (by omega) hmN (by omega) hm1
    · rw [tau_of_ne hi1 hie]
      by_cases hm1 : m = e
      · subst hm1; rw [tau_left]
        exact hse i (m + 1) (by omega) heN hi1 (by omega)
      · rw [tau_of_ne hm1 hme]
        exact hse i m him hmN hi1 hm1
  · intro m hme
    rw [hr.edgePos_k, hr.edgePos_k, tau_right]
    by_cases hm1 : m = e
    · subst hm1; rw [tau_left]; omega
    · rw [tau_of_ne hm1 (by omega)]
      exact hbe m (by omega)

end AxisSweep3

namespace AxisSweep3

variable {T : IntType} {R : Type}

/-- A loop that drives the edge at `e` down, one exchange at a time, ends with the axis
sorted. -/
theorem down_loop (k : Fin 3) (L : List Nat) (N par : Nat)
    (step : Broadphase T R → Nat → Broadphase T R)
    (loop : Nat → Broadphase T R → Broadphase T R)
    (h0 : ∀ s, loop 0 s = s)
    (hS : ∀ e s, loop (e + 1) s =
      if edgePos s k (e + 1) < edgePos s k e then loop e (step s (e + 1)) else s)
    (hstep : ∀ s i, AxisLink s L N k → i + 1 ≤ N → edgePos s k (i + 1) % 2 = par →
      StepRel s (step s (i + 1)) L k i) :
    ∀ e s, LoopInv s L N k → e ≤ N → edgePos s k e % 2 = par → SortedExcept s k N e →
      (∀ m, e < m → m ≤ N → edgePos s k e ≤ edgePos s k m) →
      LoopInv (loop e s) L N k ∧ SortedUpTo (loop e s) k N ∧ Frame s (loop e s) L := by
  intro e
  induction e with
  | zero =>
    intro s hinv _ _ hse hab
    rw [h0]
    refine ⟨hinv, ?_, Frame.refl s L⟩
    intro i m him hmN
    by_cases hi : i = 0
    · subst hi
      by_cases hm : m = 0
      · subst hm; exact Nat.le_refl _
      · exact hab m (by omega) hmN
    · exact hse i m him hmN hi (by omega)
  | succ e ih =>
    intro s hinv heN hpar hse hab
    rw [hS]
    by_cases hpos : edgePos s k (e + 1) < edgePos s k e
    · rw [if_pos hpos]
      have hr := hstep s e (hinv.link k) heN hpar
      have hinv' := hr.loopInv hinv heN hpos
      have hsd := hr.sorted_down hpos hse hab
      have hpar' : edgePos (step s (e + 1)) k e % 2 = par := by
        rw [hr.edgePos_k, tau_left]; exact hpar
      obtain ⟨r1, r2, r3⟩ := ih (step s (e + 1)) hinv' (by omega) hpar' hsd.1 hsd.2
      exact ⟨r1, r2, hr.toFrame.trans r3⟩
    · rw [if_neg hpos]
      refine ⟨hinv, ?_, Frame.refl s L⟩
      intro i m him hmN
      by_cases hi : i = e + 1
      · subst hi
        by_cases hm : m = e + 1
        · subst hm; exact Nat.le_refl _
        · exact hab m (by omega) hmN
      · by_cases hm : m = e + 1
        · subst hm
          have h1 : edgePos s k i ≤ edgePos s k e := by
            by_cases hie : i = e
            · subst hie; exact Nat.le_refl _
            · exact hse i e (by omega) (by omega) hi (by omega)
          omega
        · exact hse i m him hmN hi hm

/-- A loop that drives the edge at `e` up, one exchange at a time, ends with the axis
sorted; the fuel covers the slots up to the max sentinel. -/
theorem up_loop (k : Fin 3) (L : List Nat) (N par : Nat)
    (step : Broadphase T R → Nat → Broadphase T R)
    (loop : Nat → Nat → Broadphase T R → Broadphase T R)
    (_ : ∀ e s, loop 0 e s = s)
    (hS : ∀ fuel e s, loop (fuel + 1) e s =
      if edgePos s k e > edgePos s k (e + 1) then loop fuel (e + 1) (step s e) else s)
    (hstep : ∀ s i, AxisLink s L N k → i + 1 ≤ N → edgePos s k i % 2 = par →
      StepRel s (step s i) L k i) :
    ∀ fuel e s, LoopInv s L N k → e < N → N - e ≤ fuel → edgePos s k e % 2 = par →
      SortedExcept s k N e → (∀ m, m < e → edgePos s k m ≤ edgePos s k e) →
      LoopInv (loop fuel e s) L N k ∧ SortedUpTo (loop fuel e s) k N ∧
        Frame s (loop fuel e s) L := by
  intro fuel
  induction fuel with
  | zero =>
    intro e s _ heN hfuel
    omega
  | succ fuel ih =>
    intro e s hinv heN hfuel hpar hse hbe
    rw [hS]
    by_cases hpos : edgePos s k e > edgePos s k (e + 1)
    · rw [if_pos hpos]
      have hr := hstep s e (hinv.link k) (by omega) hpar
      have hinv' := hr.loopInv hinv (by omega) hpos
      have hsu := hr.sorted_up (by omega) hpos hse hbe
      have hpar' : edgePos (step s e) k (e + 1) % 2 = par := by
        rw [hr.edgePos_k, tau_right]; exact hpar
      have heN' : e + 1 < N := by
        have h1 := (hinv.link k).pos_top
        have h2 := (hinv.link k).pos_le e (by omega)
        by_contra hc
        have : e + 1 = N := by omega
        rw [this] at hpos; omega
      obtain ⟨r1, r2, r3⟩ := ih (e + 1) (step s e) hinv' heN' (by omega) hpar' hsu.1 hsu.2
      exact ⟨r1, r2, hr.toFrame.trans r3⟩
    · rw [if_neg hpos]
      refine ⟨hinv, ?_, Frame.refl s L⟩
      intro i m him hmN
      by_cases hm : m = e
      · subst hm
        by_cases hi : i = m
        · subst hi; exact Nat.le_refl _
        · exact hbe i (by omega)
      · by_cases hi : i = e
        · subst hi
          have h1 : edgePos s k (i + 1) ≤ edgePos s k m := by
            by_cases hme : m = i + 1
            · subst hme; exact Nat.le_refl _
            · exact hse (i + 1) m (by omega) hmN (by omega) hm
          omega
        · exact hse i m him hmN hi hm

theorem sortMinDown_spec (k : Fin 3) (L : List Nat) (N : Nat) (e : Nat) (s : Broadphase T R)
    (hinv : LoopInv s L N k) (heN : e ≤ N) (hpar : edgePos s k e % 2 = 0)
    (hse : SortedExcept s k N e)
    (hab : ∀ m, e < m → m ≤ N → edgePos s k e ≤ edgePos s k m) :
    LoopInv (sortMinDown k true e s) L N k ∧ SortedUpTo (sortMinDown k true e s) k N ∧
      Frame s (sortMinDown k true e s) L :=
  down_loop k L N 0 (fun s e => sortMinDownStep s k e true) (sortMinDown k true)
    (fun _ => rfl) (fun _ _ => rfl) (fun s i hl hi hp => sortMinDownStep_rel s L N k i hl hi hp)
    e s hinv heN hpar hse hab

theorem sortMaxDown_spec (k : Fin 3) (L : List Nat) (N : Nat) (e : Nat) (s : Broadphase T R)
    (hinv : LoopInv s L N k) (heN : e ≤ N) (hpar : edgePos s k e % 2 = 1)
    (hse : SortedExcept s k N e)
    (hab : ∀ m, e < m → m ≤ N → edgePos s k e ≤ edgePos s k m) :
    LoopInv (sortMaxDown k true e s) L N k ∧ SortedUpTo (sortMaxDown k true e s) k N ∧
      Frame s (sortMaxDown k true e s) L :=
  down_loop k L N 1 (fun s e => sortMaxDownStep s k e true) (sortMaxDown k true)
    (fun _ => rfl) (fun _ _ => rfl) (fun s i hl hi hp => sortMaxDownStep_rel s L N k i hl hi hp)
    e s hinv heN hpar hse hab

theorem sortMinUp_spec (k : Fin 3) (L : List Nat) (N : Nat) (fuel e : Nat) (s : Broadphase T R)
    (hinv : LoopInv s L N k) (heN : e < N) (hfuel : N - e ≤ fuel)
    (hpar : edgePos s k e % 2 = 0) (hse : SortedExcept s k N e)
    (hbe : ∀ m, m < e → edgePos s k m ≤ edgePos s k e) :
    LoopInv (sortMinUp k true fuel e s) L N k ∧ SortedUpTo (sortMinUp k true fuel e s) k N ∧
      Frame s (sortMinUp k true fuel e s) L :=
  up_loop k L N 0 (fun s e => sortMinUpStep s k e true) (sortMinUp k true)
    (fun _ _ => rfl) (fun _ _ _ => rfl) (fun s i hl hi hp => sortMinUpStep_rel s L N k i hl hi hp)
    fuel e s hinv heN hfuel hpar hse hbe

theorem sortMaxUp_spec (k : Fin 3) (L : List Nat) (N : Nat) (fuel e : Nat) (s : Broadphase T R)
    (hinv : LoopInv s L N k) (heN : e < N) (hfuel : N - e ≤ fuel)
    (hpar : edgePos s k e % 2 = 1) (hse : SortedExcept s k N e)
    (hbe : ∀ m, m < e → edgePos s k m ≤ edgePos s k e) :
    LoopInv (sortMaxUp k true fuel e s) L N k ∧ SortedUpTo (sortMaxUp k true fuel e s) k N ∧
      Frame s (sortMaxUp k true fuel e s) L :=
  up_loop k L N 1 (fun s e => sortMaxUpStep s k e true) (sortMaxUp k true)
    (fun _ _ => rfl) (fun _ _ _ => rfl) (fun s i hl hi hp => sortMaxUpStep_rel s L N k i hl hi hp)
    fuel e s hinv heN hfuel hpar hse hbe

end AxisSweep3

namespace AxisSweep3

variable {T : IntType} {R : Type}

theorem fin3_cases : ∀ k j : Fin 3, j = k ∨ j = k + 1 ∨ j = k + 2 := by decide

theorem fin3_succ_ne : ∀ k : Fin 3, k + 1 ≠ k ∧ k + 2 ≠ k := by decide

theorem fin3_forall (k : Fin 3) (P : Fin 3 → Prop) :
    (∀ j, P j) ↔ P k ∧ P (k + 1) ∧ P (k + 2) := by
  constructor
  · intro h; exact ⟨h _, h _, h _⟩
  · rintro ⟨h1, h2, h3⟩ j
    rcases fin3_cases k j with h | h | h <;> rw [h] <;> assumption

theorem AxisLink.min_le {s : Broadphase T R} {L : List Nat} {k : Fin 3} {N : Nat}
    (hl : AxisLink s L N k) {a : Nat} (ha : Owner L a) : minE s a k ≤ N := by
  have h1 := hl.min_lt_max a ha
  have h2 := hl.max_le a ha
  omega

theorem idxOverlap_iff {s : Broadphase T R} {L : List Nat} {k : Fin 3} {N : Nat}
    (hl : AxisLink s L N k) (hs : SortedUpTo s k N) {a b : Nat} (ha : Owner L a)
    (hb : Owner L b) : idxOverlap s a b k ↔ intervalsOverlap s a b k := by
  have key : ∀ a b, Owner L a → Owner L b →
      (minE s a k < maxE s b k ↔ minPos s a k ≤ maxPos s b k) := by
    intro a b ha hb
    constructor
    · intro h
      exact hs _ _ (by omega) (hl.max_le b hb)
    · intro h
      by_contra hc
      have h1 := hs (maxE s b k) (minE s a k) (by omega) (hl.min_le ha)
      have h2 := hl.min_even a ha
      have h3 := hl.max_odd b hb
      unfold minPos maxPos at *
      omega
  unfold idxOverlap intervalsOverlap
  rw [key a b ha hb, key b a hb ha]

theorem CachePos.toInv {s : Broadphase T R} {L : List Nat} {k : Fin 3} {N : Nat}
    (hc : CachePos s L) (hl : AxisLink s L N k) (hs : SortedUpTo s k N) : CacheInv s L k := by
  refine ⟨hc.ordered, ?_⟩
  intro a b hab
  rw [hc.mem_iff a b hab, fin3_forall k]
  constructor
  · rintro ⟨ha, hb, h1, h2⟩
    exact ⟨ha, hb, (idxOverlap_iff hl hs (Or.inr ha) (Or.inr hb)).2 h1, h2⟩
  · rintro ⟨ha, hb, h1, h2⟩
    exact ⟨ha, hb, (idxOverlap_iff hl hs (Or.inr ha) (Or.inr hb)).1 h1, h2⟩

theorem CacheInv.toPos {s : Broadphase T R} {L : List Nat} {k : Fin 3} {N : Nat}
    (hc : CacheInv s L k) (hl : AxisLink s L N k) (hs : SortedUpTo s k N) : CachePos s L := by
  refine ⟨hc.ordered, ?_⟩
  intro a b hab
  rw [hc.mem_iff a b hab, fin3_forall k]
  constructor
  · rintro ⟨ha, hb, h1, h2⟩
    exact ⟨ha, hb, (idxOverlap_iff hl hs (Or.inr ha) (Or.inr hb)).1 h1, h2⟩
  · rintro ⟨ha, hb, h1, h2⟩
    exact ⟨ha, hb, (idxOverlap_iff hl hs (Or.inr ha) (Or.inr hb)).2 h1, h2⟩

theorem LoopInv.toBInv {s : Broadphase T R} {L : List Nat} {k : Fin 3} {N : Nat}
    (hinv : LoopInv s L N k) (hs : SortedUpTo s k N) (h0 : 0 ∉ L) : BInv s L N := by
  refine { link := hinv.link, sorted := ?_, cache := hinv.cache.toPos (hinv.link k) hs,
           zero_not_live := h0 }
  intro j
  by_cases hj : j = k
  · subst hj; exact hs
  · exact hinv.sorted_o j hj

/-! ### Writing a position -/

@[simp] theorem minE_setEdgePos (s : Broadphase T R) (k : Fin 3) (e p a : Nat) (j : Fin 3) :
    minE (setEdgePos s k e p) a j = minE s a j := rfl

@[simp] theorem maxE_setEdgePos (s : Broadphase T R) (k : Fin 3) (e p a : Nat) (j : Fin 3) :
    maxE (setEdgePos s k e p) a j = maxE s a j := rfl

theorem edgePos_setEdgePos (s : Broadphase T R) (k : Fin 3) (e p : Nat) (j : Fin 3) (m : Nat) :
    edgePos (setEdgePos s k e p) j m = if j = k ∧ m = e then p else edgePos s j m := by
  unfold edgePos setEdgePos
  rw [pEdges_setEdge]
  split_ifs <;> rfl

theorem edgeHandle_setEdgePos (s : Broadphase T R) (k : Fin 3) (e p : Nat) (j : Fin 3) (m : Nat) :
    edgeHandle (setEdgePos s k e p) j m = edgeHandle s j m := by
  unfold edgeHandle setEdgePos
  rw [pEdges_setEdge]
  split_ifs with h
  · obtain ⟨h1, h2⟩ := h; subst h1; subst h2; rfl
  · rfl

theorem edgePos_setEdgePos_self (s : Broadphase T R) (k : Fin 3) (e p : Nat) :
    edgePos (setEdgePos s k e p) k e = p := by
  rw [edgePos_setEdgePos]; simp

theorem edgePos_setEdgePos_ne (s : Broadphase T R) (k : Fin 3) (e p : Nat) {m : Nat}
    (h : m ≠ e) : edgePos (setEdgePos s k e p) k m = edgePos s k m := by
  rw [edgePos_setEdgePos]; simp [h]

theorem edgePos_setEdgePos_other (s : Broadphase T R) (k : Fin 3) (e p : Nat) {j : Fin 3}
    (h : j ≠ k) (m : Nat) : edgePos (setEdgePos s k e p) j m = edgePos s j m := by
  rw [edgePos_setEdgePos]; simp [h]

end AxisSweep3

namespace AxisSweep3

variable {T : IntType} {R : Type}

theorem AxisLink.minE_inj {s : Broadphase T R} {L : List Nat} {k : Fin 3} {N : Nat}
    (hl : AxisLink s L N k) {a b : Nat} (ha : Owner L a) (hb : Owner L b)
    (h : minE s a k = minE s b k) : a = b := by
  have h1 := hl.min_handle a ha
  have h2 := hl.min_handle b hb
  rw [h] at h1; exact h1.symm.trans h2

theorem AxisLink.maxE_inj {s : Broadphase T R} {L : List Nat} {k : Fin 3} {N : Nat}
    (hl : AxisLink s L N k) {a b : Nat} (ha : Owner L a) (hb : Owner L b)
    (h : maxE s a k = maxE s b k) : a = b := by
  have h1 := hl.max_handle a ha
  have h2 := hl.max_handle b hb
  rw [h] at h1; exact h1.symm.trans h2

theorem AxisLink.minE_ne_maxE {s : Broadphase T R} {L : List Nat} {k : Fin 3} {N : Nat}
    (hl : AxisLink s L N k) {a b : Nat} (ha : Owner L a) (hb : Owner L b) :
    minE s a k ≠ maxE s b k := by
  intro h
  have h1 := hl.min_even a ha
  have h2 := hl.max_odd b hb
  unfold minPos maxPos at *
  rw [h] at h1; omega

/-- The link of one axis after a position was written into the slot `e`, when the new
position keeps the flag and the order of the two edges of the owner. -/
theorem AxisLink.write {s : Broadphase T R} {L : List Nat} {k : Fin 3} {N : Nat}
    (hl : AxisLink s L N k) (e p : Nat) (_ : e ≤ N) (he0 : e ≠ 0) (heN' : e ≠ N)
    (hpar : p % 2 = edgePos s k e % 2) (hpS : p ≤ s.m_handleSentinel)
    (hlt : ∀ a, Owner L a → (minE s a k = e → p < maxPos s a k) ∧
      (maxE s a k = e → minPos s a k < p)) :
    AxisLink (setEdgePos s k e p) L N k := by
  have hmin : ∀ a, minPos (setEdgePos s k e p) a k =
      if minE s a k = e then p else minPos s a k := by
    intro a; unfold minPos; rw [edgePos_setEdgePos]; simp
  have hmax : ∀ a, maxPos (setEdgePos s k e p) a k =
      if maxE s a k = e then p else maxPos s a k := by
    intro a; unfold maxPos; rw [edgePos_setEdgePos]; simp
  refine
    { min_lt_max := hl.min_lt_max, max_le := hl.max_le, min_handle := ?_, max_handle := ?_,
      min_even := ?_, max_odd := ?_, pos_lt := ?_, owner := ?_, sent_min := hl.sent_min,
      sent_max := hl.sent_max, pos_zero := ?_, pos_top := ?_, pos_le := ?_ }
  · intro a ha; rw [edgeHandle_setEdgePos]; exact hl.min_handle a ha
  · intro a ha; rw [edgeHandle_setEdgePos]; exact hl.max_handle a ha
  · intro a ha
    rw [hmin]
    have h1 := hl.min_even a ha
    split_ifs with h
    · unfold minPos at h1; rw [h] at h1; omega
    · exact h1
  · intro a ha
    rw [hmax]
    have h1 := hl.max_odd a ha
    split_ifs with h
    · unfold maxPos at h1; rw [h] at h1; omega
    · exact h1
  · intro a ha
    rw [hmin, hmax]
    have h1 := hl.pos_lt a ha
    have h2 := hl.min_lt_max a ha
    have h3 := hlt a ha
    split_ifs with h4 h5 h5
    · omega
    · exact h3.1 h4
    · exact h3.2 h5
    · exact h1
  · intro i hi
    rw [edgeHandle_setEdgePos, edgePos_setEdgePos]
    have ho := hl.owner i hi
    refine ⟨ho.1, ?_, ?_⟩
    · intro hp
      apply ho.2.1
      split_ifs at hp with h
      · rw [h.2]; omega
      · exact hp
    · intro hp
      apply ho.2.2
      split_ifs at hp with h
      · rw [h.2]; omega
      · exact hp
  · rw [edgePos_setEdgePos_ne _ _ _ _ (Ne.symm he0)]; exact hl.pos_zero
  · rw [edgePos_setEdgePos_ne _ _ _ _ (Ne.symm heN')]; exact hl.pos_top
  · intro i hi
    rw [edgePos_setEdgePos]
    split_ifs
    · exact hpS
    · exact hl.pos_le i hi

theorem AxisLink.write_other {s : Broadphase T R} {L : List Nat} {k j : Fin 3} {N : Nat}
    (hl : AxisLink s L N j) (e p : Nat) (hj : j ≠ k) :
    AxisLink (setEdgePos s k e p) L N j := by
  have hpos : ∀ m, edgePos (setEdgePos s k e p) j m = edgePos s j m :=
    fun m => edgePos_setEdgePos_other s k e p hj m
  have hmin : ∀ a, minPos (setEdgePos s k e p) a j = minPos s a j := by
    intro a; unfold minPos; rw [hpos]; rfl
  have hmax : ∀ a, maxPos (setEdgePos s k e p) a j = maxPos s a j := by
    intro a; unfold maxPos; rw [hpos]; rfl
  refine
    { min_lt_max := hl.min_lt_max, max_le := hl.max_le, min_handle := ?_, max_handle := ?_,
      min_even := ?_, max_odd := ?_, pos_lt := ?_, owner := ?_, sent_min := hl.sent_min,
      sent_max := hl.sent_max, pos_zero := ?_, pos_top := ?_, pos_le := ?_ }
  · intro a ha; rw [edgeHandle_setEdgePos]; exact hl.min_handle a ha
  · intro a ha; rw [edgeHandle_setEdgePos]; exact hl.max_handle a ha
  · intro a ha; rw [hmin]; exact hl.min_even a ha
  · intro a ha; rw [hmax]; exact hl.max_odd a ha
  · intro a ha; rw [hmin, hmax]; exact hl.pos_lt a ha
  · intro i hi
    rw [edgeHandle_setEdgePos, hpos]
    exact hl.owner i hi
  · rw [hpos]; exact hl.pos_zero
  · rw [hpos]; exact hl.pos_top
  · intro i hi; rw [hpos]; exact hl.pos_le i hi

theorem intervalsOverlap_write_other (s : Broadphase T R) (k : Fin 3) (e p a b : Nat)
    {j : Fin 3} (hj : j ≠ k) :
    intervalsOverlap (setEdgePos s k e p) a b j ↔ intervalsOverlap s a b j := by
  unfold intervalsOverlap minPos maxPos
  simp only [edgePos_setEdgePos_other s k e p hj, minE_setEdgePos, maxE_setEdgePos]

/-- The state in which a sort loop on axis `k` starts, after the new position of the
edge at `e` was written. -/
theorem BInv.write_pos {s : Broadphase T R} {L : List Nat} {k : Fin 3} {N : Nat}
    (hb : BInv s L N) (e p : Nat) (heN : e ≤ N) (he0 : e ≠ 0) (heN' : e ≠ N)
    (hpar : p % 2 = edgePos s k e % 2) (hpS : p ≤ s.m_handleSentinel)
    (hlt : ∀ a, Owner L a → (minE s a k = e → p < maxPos s a k) ∧
      (maxE s a k = e → minPos s a k < p)) :
    LoopInv (setEdgePos s k e p) L N k ∧ SortedExcept (setEdgePos s k e p) k N e := by
  constructor
  · refine { link := ?_, cache := ?_, sorted_o := ?_ }
    · intro j
      by_cases hj : j = k
      · subst hj; exact (hb.link j).write e p heN he0 heN' hpar hpS hlt
      · exact (hb.link j).write_other e p hj
    · have hc := hb.cache.toInv (hb.link k) (hb.sorted k)
      refine ⟨hc.ordered, ?_⟩
      intro a b hab
      have := hc.mem_iff a b hab
      rw [intervalsOverlap_write_other s k e p a b (fin3_succ_ne k).1,
        intervalsOverlap_write_other s k e p a b (fin3_succ_ne k).2]
      exact this
    · intro j hj i m h1 h2
      rw [edgePos_setEdgePos_other s k e p hj, edgePos_setEdgePos_other s k e p hj]
      exact hb.sorted j i m h1 h2
  · intro i m him hmN hie hme
    rw [edgePos_setEdgePos_ne s k e p hie, edgePos_setEdgePos_ne s k e p hme]
    exact hb.sorted k i m him hmN

end AxisSweep3

namespace AxisSweep3

variable {T : IntType} {R : Type}

theorem BInv.owner_ne_zero {s : Broadphase T R} {L : List Nat} {N : Nat}
    (hb : BInv s L N) {h : Nat} (hh : h ∈ L) : h ≠ 0 :=
  fun hc => hb.zero_not_live (hc ▸ hh)

theorem BInv.minE_bounds {s : Broadphase T R} {L : List Nat} {N : Nat}
    (hb : BInv s L N) {h : Nat} (hh : h ∈ L) (k : Fin 3) :
    minE s h k ≤ N ∧ minE s h k ≠ 0 ∧ minE s h k ≠ N := by
  have hl := hb.link k
  have h0 := hb.owner_ne_zero hh
  refine ⟨hl.min_le (Or.inr hh), ?_, ?_⟩
  · intro hc
    apply h0
    apply hl.minE_inj (Or.inr hh) (Or.inl rfl)
    rw [hc, hl.sent_min]
  · intro hc
    apply hl.minE_ne_maxE (Or.inr hh) (Or.inl rfl)
    rw [hc, hl.sent_max]

theorem BInv.maxE_bounds {s : Broadphase T R} {L : List Nat} {N : Nat}
    (hb : BInv s L N) {h : Nat} (hh : h ∈ L) (k : Fin 3) :
    maxE s h k ≤ N ∧ maxE s h k ≠ 0 ∧ maxE s h k ≠ N := by
  have hl := hb.link k
  have h0 := hb.owner_ne_zero hh
  refine ⟨hl.max_le _ (Or.inr hh), ?_, ?_⟩
  · intro hc
    have := hl.min_lt_max h (Or.inr hh)
    omega
  · intro hc
    apply h0
    apply hl.maxE_inj (Or.inr hh) (Or.inl rfl)
    rw [hc, hl.sent_max]

theorem BInv.maxPos_le {s : Broadphase T R} {L : List Nat} {N : Nat}
    (hb : BInv s L N) {h : Nat} (hh : Owner L h) (k : Fin 3) :
    maxPos s h k ≤ s.m_handleSentinel :=
  (hb.link k).pos_le _ ((hb.link k).max_le h hh)

/-- The common end of the four moves: from the result of the sort loop to the invariant
and the positions after the move. -/
theorem move_core {s s' : Broadphase T R} {L : List Nat} {k : Fin 3} {N : Nat} (e p : Nat)
    (h0 : 0 ∉ L)
    (hloop : LoopInv s' L N k ∧ SortedUpTo s' k N ∧ Frame (setEdgePos s k e p) s' L) :
    BInv s' L N ∧
    (∀ a, Owner L a → ∀ j, minPos s' a j =
      if j = k ∧ minE s a j = e then p else minPos s a j) ∧
    (∀ a, Owner L a → ∀ j, maxPos s' a j =
      if j = k ∧ maxE s a j = e then p else maxPos s a j) ∧
    (∀ f, ¬ Owner L f → s'.m_pHandles f = s.m_pHandles f) ∧
    s'.m_handleSentinel = s.m_handleSentinel ∧ s'.m_numHandles = s.m_numHandles ∧
    s'.m_maxHandles = s.m_maxHandles ∧ s'.m_firstFreeHandle = s.m_firstFreeHandle := by
  obtain ⟨h1, h2, h3⟩ := hloop
  refine ⟨h1.toBInv h2 h0, ?_, ?_, ?_, ?_, ?_, ?_, ?_⟩
  · intro a ha j
    rw [h3.minPos_eq a ha j]
    unfold minPos
    rw [edgePos_setEdgePos]; rfl
  · intro a ha j
    rw [h3.maxPos_eq a ha j]
    unfold maxPos
    rw [edgePos_setEdgePos]; rfl
  · intro f hf; rw [h3.handles f hf]; rfl
  · rw [h3.sentinel]; rfl
  · rw [h3.numHandles]; rfl
  · rw [h3.maxHandles]; rfl
  · rw [h3.firstFree]; rfl

/-- The result of a move of the min edge of `h` on axis `k` to the position `p`. -/
theorem move_min_result {s s' : Broadphase T R} {L : List Nat} {k : Fin 3} {N : Nat}
    (hb : BInv s L N) {h : Nat} (hh : h ∈ L) (p : Nat)
    (hloop : LoopInv s' L N k ∧ SortedUpTo s' k N ∧
      Frame (setEdgePos s k (minE s h k) p) s' L) :
    BInv s' L N ∧ MoveFrame s s' L h k ∧ minPos s' h k = p ∧
      maxPos s' h k = maxPos s h k := by
  obtain ⟨r1, r2, r3, r4, r5, r6, r7, r8⟩ := move_core (minE s h k) p hb.zero_not_live hloop
  have hmax : ∀ a, Owner L a → ∀ j, maxPos s' a j = maxPos s a j := by
    intro a ha j
    rw [r3 a ha j, if_neg]
    rintro ⟨hj, hc⟩
    subst hj
    exact (hb.link j).minE_ne_maxE (Or.inr hh) ha hc.symm
  refine ⟨r1, ?_, ?_, hmax h (Or.inr hh) k⟩
  · refine { minPos_eq := ?_, maxPos_eq := ?_, handles := r4, sentinel := r5, numHandles := r6,
             maxHandles := r7, firstFree := r8 }
    · intro a ha j hne
      rw [r2 a ha j, if_neg]
      rintro ⟨hj, hc⟩
      subst hj
      have := (hb.link j).minE_inj ha (Or.inr hh) hc
      rcases hne with h1 | h1
      · exact h1 this
      · exact h1 rfl
    · intro a ha j _
      exact hmax a ha j
  · rw [r2 h (Or.inr hh) k, if_pos ⟨rfl, rfl⟩]

/-- The result of a move of the max edge of `h` on axis `k` to the position `p`. -/
theorem move_max_result {s s' : Broadphase T R} {L : List Nat} {k : Fin 3} {N : Nat}
    (hb : BInv s L N) {h : Nat} (hh : h ∈ L) (p : Nat)
    (hloop : LoopInv s' L N k ∧ SortedUpTo s' k N ∧
      Frame (setEdgePos s k (maxE s h k) p) s' L) :
    BInv s' L N ∧ MoveFrame s s' L h k ∧ minPos s' h k = minPos s h k ∧
      maxPos s' h k = p := by
  obtain ⟨r1, r2, r3, r4, r5, r6, r7, r8⟩ := move_core (maxE s h k) p hb.zero_not_live hloop
  have hmin : ∀ a, Owner L a → ∀ j, minPos s' a j = minPos s a j := by
    intro a ha j
    rw [r2 a ha j, if_neg]
    rintro ⟨hj, hc⟩
    subst hj
    exact (hb.link j).minE_ne_maxE ha (Or.inr hh) hc
  refine ⟨r1, ?_, hmin h (Or.inr hh) k, ?_⟩
  · refine { minPos_eq := ?_, maxPos_eq := ?_, handles := r4, sentinel := r5, numHandles := r6,
             maxHandles := r7, firstFree := r8 }
    · intro a ha j _
      exact hmin a ha j
    · intro a ha j hne
      rw [r3 a ha j, if_neg]
      rintro ⟨hj, hc⟩
      subst hj
      have := (hb.link j).maxE_inj ha (Or.inr hh) hc
      rcases hne with h1 | h1
      · exact h1 this
      · exact h1 rfl
  · rw [r3 h (Or.inr hh) k, if_pos ⟨rfl, rfl⟩]

/-- The conditions under which a position may be written into the min edge of `h`. -/
theorem BInv.write_min {s : Broadphase T R} {L : List Nat} {k : Fin 3} {N : Nat}
    (hb : BInv s L N) {h : Nat} (hh : h ∈ L) (p : Nat) (hp : p % 2 = 0)
    (hlt : p < maxPos s h k) :
    LoopInv (setEdgePos s k (minE s h k) p) L N k ∧
      SortedExcept (setEdgePos s k (minE s h k) p) k N (minE s h k) := by
  obtain ⟨b1, b2, b3⟩ := hb.minE_bounds hh k
  apply hb.write_pos (minE s h k) p b1 b2 b3
  · have := (hb.link k).min_even h (Or.inr hh)
    unfold minPos at this; omega
  · have := hb.maxPos_le (Or.inr hh) k; omega
  · intro a ha
    constructor
    · intro hc
      have := (hb.link k).minE_inj ha (Or.inr hh) hc
      subst this; exact hlt
    · intro hc
      exact absurd hc.symm ((hb.link k).minE_ne_maxE (Or.inr hh) ha)

/-- The conditions under which a position may be written into the max edge of `h`. -/
theorem BInv.write_max {s : Broadphase T R} {L : List Nat} {k : Fin 3} {N : Nat}
    (hb : BInv s L N) {h : Nat} (hh : h ∈ L) (p : Nat) (hp : p % 2 = 1)
    (hlt : minPos s h k < p) (hpS : p ≤ s.m_handleSentinel) :
    LoopInv (setEdgePos s k (maxE s h k) p) L N k ∧
      SortedExcept (setEdgePos s k (maxE s h k) p) k N (maxE s h k) := by
  obtain ⟨b1, b2, b3⟩ := hb.maxE_bounds hh k
  apply hb.write_pos (maxE s h k) p b1 b2 b3
  · have := (hb.link k).max_odd h (Or.inr hh)
    unfold maxPos at this; omega
  · exact hpS
  · intro a ha
    constructor
    · intro hc
      exact absurd hc ((hb.link k).minE_ne_maxE ha (Or.inr hh))
    · intro hc
      have := (hb.link k).maxE_inj ha (Or.inr hh) hc
      subst this; exact hlt

theorem moveMinDown_spec {s : Broadphase T R} {L : List Nat} {k : Fin 3} {N : Nat}
    (hb : BInv s L N) {h : Nat} (hh : h ∈ L) (p : Nat) (hp : p % 2 = 0)
    (hlt : p < minPos s h k) :
    BInv (sortMinDown k true (minE s h k) (setEdgePos s k (minE s h k) p)) L N ∧
    MoveFrame s (sortMinDown k true (minE s h k) (setEdgePos s k (minE s h k) p)) L h k ∧
    minPos (sortMinDown k true (minE s h k) (setEdgePos s k (minE s h k) p)) h k = p ∧
    maxPos (sortMinDown k true (minE s h k) (setEdgePos s k (minE s h k) p)) h k
      = maxPos s h k := by
  have hpl := (hb.link k).pos_lt h (Or.inr hh)
  obtain ⟨w1, w2⟩ := hb.write_min (k := k) hh p hp (by omega)
  obtain ⟨b1, _, _⟩ := hb.minE_bounds hh k
  apply move_min_result hb hh p
  apply sortMinDown_spec k L N _ _ w1 b1 _ w2
  · intro m hm hmN
    rw [edgePos_setEdgePos_self, edgePos_setEdgePos_ne _ _ _ _ (by omega)]
    have := hb.sorted k (minE s h k) m (by omega) hmN
    unfold minPos at hlt; omega
  · rw [edgePos_setEdgePos_self]; exact hp

theorem moveMaxDown_spec {s : Broadphase T R} {L : List Nat} {k : Fin 3} {N : Nat}
    (hb : BInv s L N) {h : Nat} (hh : h ∈ L) (p : Nat) (hp : p % 2 = 1)
    (hlt : p < maxPos s h k) (hgt : minPos s h k < p) :
    BInv (sortMaxDown k true (maxE s h k) (setEdgePos s k (maxE s h k) p)) L N ∧
    MoveFrame s (sortMaxDown k true (maxE s h k) (setEdgePos s k (maxE s h k) p)) L h k ∧
    minPos (sortMaxDown k true (maxE s h k) (setEdgePos s k (maxE s h k) p)) h k
      = minPos s h k ∧
    maxPos (sortMaxDown k true (maxE s h k) (setEdgePos s k (maxE s h k) p)) h k = p := by
  have hpS := hb.maxPos_le (Or.inr hh) k
  obtain ⟨w1, w2⟩ := hb.write_max hh p hp hgt (by omega)
  obtain ⟨b1, _, _⟩ := hb.maxE_bounds hh k
  apply move_max_result hb hh p
  apply sortMaxDown_spec k L N _ _ w1 b1 _ w2
  · intro m hm hmN
    rw [edgePos_setEdgePos_self, edgePos_setEdgePos_ne _ _ _ _ (by omega)]
    have := hb.sorted k (maxE s h k) m (by omega) hmN
    unfold maxPos at hlt; omega
  · rw [edgePos_setEdgePos_self]; exact hp

theorem moveMinUp_spec {s : Broadphase T R} {L : List Nat} {k : Fin 3} {N : Nat}
    (hb : BInv s L N) {h : Nat} (hh : h ∈ L) (p : Nat) (hp : p % 2 = 0)
    (hgt : minPos s h k < p) (hlt : p < maxPos s h k) :
    BInv (sortMinUp k true (maxE s 0 k - minE s h k) (minE s h k)
      (setEdgePos s k (minE s h k) p)) L N ∧
    MoveFrame s (sortMinUp k true (maxE s 0 k - minE s h k) (minE s h k)
      (setEdgePos s k (minE s h k) p)) L h k ∧
    minPos (sortMinUp k true (maxE s 0 k - minE s h k) (minE s h k)
      (setEdgePos s k (minE s h k) p)) h k = p ∧
    maxPos (sortMinUp k true (maxE s 0 k - minE s h k) (minE s h k)
      (setEdgePos s k (minE s h k) p)) h k = maxPos s h k := by
  obtain ⟨w1, w2⟩ := hb.write_min hh p hp hlt
  obtain ⟨b1, _, b3⟩ := hb.minE_bounds hh k
  apply move_min_result hb hh p
  apply sortMinUp_spec k L N _ _ _ w1 (by omega) _ _ w2
  · intro m hm
    rw [edgePos_setEdgePos_self, edgePos_setEdgePos_ne _ _ _ _ (by omega)]
    have := hb.sorted k m (minE s h k) (by omega) b1
    unfold minPos at hgt; omega
  · rw [(hb.link k).sent_max]
  · rw [edgePos_setEdgePos_self]; exact hp

theorem moveMaxUp_spec {s : Broadphase T R} {L : List Nat} {k : Fin 3} {N : Nat}
    (hb : BInv s L N) {h : Nat} (hh : h ∈ L) (p : Nat) (hp : p % 2 = 1)
    (hgt : maxPos s h k < p) (hpS : p ≤ s.m_handleSentinel) :
    BInv (sortMaxUp k true (maxE s 0 k - maxE s h k) (maxE s h k)
      (setEdgePos s k (maxE s h k) p)) L N ∧
    MoveFrame s (sortMaxUp k true (maxE s 0 k - maxE s h k) (maxE s h k)
      (setEdgePos s k (maxE s h k) p)) L h k ∧
    minPos (sortMaxUp k true (maxE s 0 k - maxE s h k) (maxE s h k)
      (setEdgePos s k (maxE s h k) p)) h k = minPos s h k ∧
    maxPos (sortMaxUp k true (maxE s 0 k - maxE s h k) (maxE s h k)
      (setEdgePos s k (maxE s h k) p)) h k = p := by
  have hpl := (hb.link k).pos_lt h (Or.inr hh)
  obtain ⟨w1, w2⟩ := hb.write_max (k := k) hh p hp (by omega) hpS
  obtain ⟨b1, _, b3⟩ := hb.maxE_bounds hh k
  apply move_max_result hb hh p
  apply sortMaxUp_spec k L N _ _ _ w1 (by omega) _ _ w2
  · intro m hm
    rw [edgePos_setEdgePos_self, edgePos_setEdgePos_ne _ _ _ _ (by omega)]
    have := hb.sorted k m (maxE s h k) (by omega) b1
    unfold maxPos at hgt; omega
  · rw [(hb.link k).sent_max]
  · rw [edgePos_setEdgePos_self]; exact hp

end AxisSweep3

namespace AxisSweep3

variable {T : IntType} {R : Type}

theorem MoveFrame.refl_move (s : Broadphase T R) (L : List Nat) (h : Nat) (k : Fin 3) :
    MoveFrame s s L h k :=
  { minPos_eq := fun _ _ _ _ => rfl, maxPos_eq := fun _ _ _ _ => rfl,
    handles := fun _ _ => rfl, sentinel := rfl, numHandles := rfl, maxHandles := rfl,
    firstFree := rfl }

theorem MoveFrame.trans_move {s s' s'' : Broadphase T R} {L : List Nat} {h : Nat} {k : Fin 3}
    (h1 : MoveFrame s s' L h k) (h2 : MoveFrame s' s'' L h k) : MoveFrame s s'' L h k :=
  { minPos_eq := fun a ha j hne => (h2.minPos_eq a ha j hne).trans (h1.minPos_eq a ha j hne)
    maxPos_eq := fun a ha j hne => (h2.maxPos_eq a ha j hne).trans (h1.maxPos_eq a ha j hne)
    handles := fun f hf => (h2.handles f hf).trans (h1.handles f hf)
    sentinel := h2.sentinel.trans h1.sentinel
    numHandles := h2.numHandles.trans h1.numHandles
    maxHandles := h2.maxHandles.trans h1.maxHandles
    firstFree := h2.firstFree.trans h1.firstFree }

/-- The update of one axis keeps the invariant and leaves the handle with the new
positions. -/
theorem updateAxis_spec {s : Broadphase T R} {L : List Nat} {N : Nat} (k : Fin 3)
    (hb : BInv s L N) {h : Nat} (hh : h ∈ L) (mn mx : Nat) (hmn : mn % 2 = 0)
    (hmx : mx % 2 = 1) (hlt : mn < mx) (hS : mx ≤ s.m_handleSentinel) :
    BInv (updateAxis s h k mn mx) L N ∧ MoveFrame s (updateAxis s h k mn mx) L h k ∧
      minPos (updateAxis s h k mn mx) h k = mn ∧ maxPos (updateAxis s h k mn mx) h k = mx := by
  have hpl := (hb.link k).pos_lt h (Or.inr hh)
  unfold updateAxis
  simp only [minE_setEdgePos, maxE_setEdgePos]
  generalize hoMin : minPos s h k = oldMin at *
  generalize hoMax : maxPos s h k = oldMax at *
  -- first stage: the min edge moves down
  have st1 : ∃ s1, s1 = (if mn < oldMin then
        sortMinDown k true (minE s h k) (setEdgePos s k (minE s h k) mn) else s) ∧
      BInv s1 L N ∧ MoveFrame s s1 L h k ∧
      minPos s1 h k = (if mn < oldMin then mn else oldMin) ∧ maxPos s1 h k = oldMax := by
    refine ⟨_, rfl, ?_⟩
    by_cases c : mn < oldMin
    · simp only [c, if_true]
      have := moveMinDown_spec hb hh mn hmn (by omega : mn < minPos s h k)
      rw [hoMax] at this; exact this
    · simp only [c, if_false]
      exact ⟨hb, MoveFrame.refl_move _ _ _ _, hoMin, hoMax⟩
  obtain ⟨s1, e1, hb1, f1, m1, x1⟩ := st1
  rw [← e1]
  -- second stage: the max edge moves up
  have st2 : ∃ s2, s2 = (if oldMax < mx then
        sortMaxUp k true (maxE s1 0 k - maxE s1 h k) (maxE s1 h k)
          (setEdgePos s1 k (maxE s1 h k) mx) else s1) ∧
      BInv s2 L N ∧ MoveFrame s s2 L h k ∧
      minPos s2 h k = (if mn < oldMin then mn else oldMin) ∧
      maxPos s2 h k = (if oldMax < mx then mx else oldMax) := by
    refine ⟨_, rfl, ?_⟩
    by_cases c : oldMax < mx
    · simp only [c, if_true]
      have := moveMaxUp_spec hb1 hh mx hmx (by omega : maxPos s1 h k < mx)
        (by rw [f1.sentinel]; exact hS)
      rw [m1] at this
      exact ⟨this.1, f1.trans_move this.2.1, this.2.2.1, this.2.2.2⟩
    · simp only [c, if_false]
      exact ⟨hb1, f1, m1, x1⟩
  obtain ⟨s2, e2, hb2, f2, m2, x2⟩ := st2
  rw [← e2]
  -- third stage: the min edge moves up
  have st3 : ∃ s3, s3 = (if oldMin < mn then
        sortMinUp k true (maxE s2 0 k - minE s2 h k) (minE s2 h k)
          (setEdgePos s2 k (minE s2 h k) mn) else s2) ∧
      BInv s3 L N ∧ MoveFrame s s3 L h k ∧
      minPos s3 h k = mn ∧
      maxPos s3 h k = (if oldMax < mx then mx else oldMax) := by
    refine ⟨_, rfl, ?_⟩
    by_cases c : oldMin < mn
    · simp only [c, if_true]
      have c' : ¬ mn < oldMin := by omega
      simp only [c', if_false] at m2
      have hx : mn < maxPos s2 h k := by
        rw [x2]; split_ifs <;> omega
      have := moveMinUp_spec hb2 hh mn hmn (by omega : minPos s2 h k < mn) hx
      rw [x2] at this
      exact ⟨this.1, f2.trans_move this.2.1, this.2.2.1, this.2.2.2⟩
    · simp only [c, if_false]
      refine ⟨hb2, f2, ?_, x2⟩
      rw [m2]; split_ifs <;> omega
  obtain ⟨s3, e3, hb3, f3, m3, x3⟩ := st3
  rw [← e3]
  -- fourth stage: the max edge moves down
  by_cases c : mx < oldMax
  · simp only [c, if_true]
    have c' : ¬ oldMax < mx := by omega
    simp only [c', if_false] at x3
    have := moveMaxDown_spec hb3 hh mx hmx (by omega : mx < maxPos s3 h k)
      (by omega : minPos s3 h k < mx)
    rw [m3] at this
    exact ⟨this.1, f3.trans_move this.2.1, this.2.2.1, this.2.2.2⟩
  · simp only [c, if_false]
    refine ⟨hb3, f3, m3, ?_⟩
    rw [x3]; split_ifs <;> omega

end AxisSweep3

namespace AxisSweep3

variable {T : IntType} {R : Type}

theorem quantize_min (s : Broadphase T R) (c : Fin 3 → Int) (k : Fin 3) :
    quantize s c 0 k = 2 * clampCoord s c k := by
  unfold quantize
  rw [Nat.shiftLeft_eq, Nat.or_zero]; omega

theorem quantize_max (s : Broadphase T R) (c : Fin 3 → Int) (k : Fin 3) :
    quantize s c 1 k = 2 * clampCoord s c k + 1 := by
  unfold quantize
  rw [Nat.shiftLeft_eq]
  have h := Nat.mul_add_lt_is_or (i := 1) (b := 1) (by decide) (clampCoord s c k)
  rw [Nat.mul_comm (clampCoord s c k) (2 ^ 1), ← h]

theorem clampCoord_mono (s : Broadphase T R) {lo hi : Fin 3 → Int} (k : Fin 3)
    (h : lo k ≤ hi k) : clampCoord s lo k ≤ clampCoord s hi k := by
  unfold clampCoord
  have : (lo k).toNat ≤ (hi k).toNat := Int.toNat_le_toNat h
  omega

theorem clampCoord_le (s : Broadphase T R) (c : Fin 3 → Int) (k : Fin 3) :
    clampCoord s c k ≤ s.m_handleSentinel / 2 := by
  unfold clampCoord; omega

theorem clampCoord_extreme (s : Broadphase T R) (k : Fin 3) :
    clampCoord s (extremeCoord s) k = s.m_handleSentinel / 2 := by
  unfold clampCoord extremeCoord
  rw [Int.toNat_ofNat]; omega

/-- The update of the three axes keeps the invariant and leaves the handle with the
quantized box. -/
theorem updateHandle_spec {s : Broadphase T R} {L : List Nat} {N : Nat}
    (hb : BInv s L N) {h : Nat} (hh : h ∈ L) (lo hi : Fin 3 → Int)
    (hbox : ValidBox lo hi) (hS : s.m_handleSentinel % 2 = 1) :
    BInv (updateHandle s h lo hi) L N ∧ HandleFrame s (updateHandle s h lo hi) L h ∧
      (∀ j, minPos (updateHandle s h lo hi) h j = 2 * clampCoord s lo j) ∧
      (∀ j, maxPos (updateHandle s h lo hi) h j = 2 * clampCoord s hi j + 1) := by
  unfold updateHandle
  simp only [quantize_min, quantize_max]
  have hmono := fun k => clampCoord_mono s k (hbox k)
  have hle := fun k => clampCoord_le s hi k
  generalize clampCoord s lo = lo' at *
  generalize clampCoord s hi = hi' at *
  obtain ⟨b0, f0, m0, x0⟩ := updateAxis_spec 0 hb hh (2 * lo' 0) (2 * hi' 0 + 1) (by omega)
    (by omega) (by have := hmono 0; omega) (by have := hle 0; omega)
  generalize updateAxis s h 0 (2 * lo' 0) (2 * hi' 0 + 1) = s0 at *
  obtain ⟨b1, f1, m1, x1⟩ := updateAxis_spec 1 b0 hh (2 * lo' 1) (2 * hi' 1 + 1) (by omega)
    (by omega) (by have := hmono 1; omega) (by rw [f0.sentinel]; have := hle 1; omega)
  generalize updateAxis s0 h 1 (2 * lo' 1) (2 * hi' 1 + 1) = s1 at *
  obtain ⟨b2, f2, m2, x2⟩ := updateAxis_spec 2 b1 hh (2 * lo' 2) (2 * hi' 2 + 1) (by omega)
    (by omega) (by have := hmono 2; omega)
    (by rw [f1.sentinel, f0.sentinel]; have := hle 2; omega)
  generalize updateAxis s1 h 2 (2 * lo' 2) (2 * hi' 2 + 1) = s2 at *
  have ho : Owner L h := Or.inr hh
  refine ⟨b2, ?_, ?_, ?_⟩
  · refine { minPos_eq := ?_, maxPos_eq := ?_, handles := ?_, sentinel := ?_, numHandles := ?_,
             maxHandles := ?_, firstFree := ?_ }
    · intro a ha hne j
      rw [f2.minPos_eq a ha j (Or.inl hne), f1.minPos_eq a ha j (Or.inl hne),
        f0.minPos_eq a ha j (Or.inl hne)]
    · intro a ha hne j
      rw [f2.maxPos_eq a ha j (Or.inl hne), f1.maxPos_eq a ha j (Or.inl hne),
        f0.maxPos_eq a ha j (Or.inl hne)]
    · intro f hf
      rw [f2.handles f hf, f1.handles f hf, f0.handles f hf]
    · rw [f2.sentinel, f1.sentinel, f0.sentinel]
    · rw [f2.numHandles, f1.numHandles, f0.numHandles]
    · rw [f2.maxHandles, f1.maxHandles, f0.maxHandles]
    · rw [f2.firstFree, f1.firstFree, f0.firstFree]
  · intro j
    fin_cases j
    · show minPos s2 h 0 = 2 * lo' 0
      rw [f2.minPos_eq h ho 0 (Or.inr (by decide)), f1.minPos_eq h ho 0 (Or.inr (by decide)), m0]
    · show minPos s2 h 1 = 2 * lo' 1
      rw [f2.minPos_eq h ho 1 (Or.inr (by decide)), m1]
    · exact m2
  · intro j
    fin_cases j
    · show maxPos s2 h 0 = 2 * hi' 0 + 1
      rw [f2.maxPos_eq h ho 0 (Or.inr (by decide)), f1.maxPos_eq h ho 0 (Or.inr (by decide)), x0]
    · show maxPos s2 h 1 = 2 * hi' 1 + 1
      rw [f2.maxPos_eq h ho 1 (Or.inr (by decide)), x1]
    · exact x2

end AxisSweep3

namespace AxisSweep3

variable {T : IntType} {R : Type}

theorem FreeChain.ne_zero {handles : Nat → Handle} :
    ∀ {free : List Nat} {first : Nat}, FreeChain handles first free → ∀ f, f ∈ free → f ≠ 0 := by
  intro free
  induction free with
  | nil => intro _ _ f hf; simp at hf
  | cons g rest ih =>
    intro first hc f hf
    obtain ⟨_, h2, h3⟩ := hc
    rcases List.mem_cons.1 hf with h | h
    · rw [h]; exact h2
    · exact ih h3 f h

theorem FreeChain.congr {handles handles' : Nat → Handle} :
    ∀ {free : List Nat} {first : Nat}, FreeChain handles first free →
      (∀ f, f ∈ free → handles' f = handles f) → FreeChain handles' first free := by
  intro free
  induction free with
  | nil => intro _ hc _; exact hc
  | cons g rest ih =>
    intro first hc heq
    obtain ⟨h1, h2, h3⟩ := hc
    refine ⟨h1, h2, ?_⟩
    rw [heq g (List.mem_cons_self _ _)]
    exact ih h3 (fun f hf => heq f (List.mem_cons_of_mem _ hf))

theorem extreme_pos {S : Nat} (hS : S % 2 = 1) : 2 * (S / 2) + 1 = S := by omega

/-- The invariant survives `setAabb` on a live handle. -/
theorem setAabb_inv {s : Broadphase T R} {L : List Nat} (hI : Inv s L) {h : Nat} (hh : h ∈ L)
    {lo hi : Fin 3 → Int} (hv : ValidBox lo hi) : Inv (setAabb s h lo hi) L := by
  unfold setAabb
  obtain ⟨r1, r2, _, _⟩ := updateHandle_spec hI.binv hh lo hi hv hI.sentinel_odd
  refine { binv := r1, sentinel_odd := ?_, sentinel_eq := ?_, capacity := ?_, numHandles := ?_,
           nodup := hI.nodup, live_le := ?_, pool := ?_ }
  · rw [r2.sentinel]; exact hI.sentinel_odd
  · rw [r2.sentinel]; exact hI.sentinel_eq
  · rw [r2.maxHandles]; exact hI.capacity
  · rw [r2.numHandles]; exact hI.numHandles
  · rw [r2.maxHandles]; exact hI.live_le
  · obtain ⟨F, c1, c2, c3, c4, c5⟩ := hI.pool
    refine ⟨F, ?_, c2, c3, ?_, ?_⟩
    · rw [r2.firstFree]
      apply c1.congr
      intro f hf
      apply r2.handles
      rintro (h0 | hL)
      · exact c1.ne_zero f hf h0
      · exact c2 f hf hL
    · rw [r2.maxHandles]; exact c4
    · rw [r2.maxHandles]; exact c5

end AxisSweep3

namespace AxisSweep3

variable {T : IntType} {R : Type}

theorem AxisEq.edgePos_eq {s s' : Broadphase T R} {L : List Nat} {j : Fin 3}
    (he : AxisEq s s' L j) (m : Nat) : edgePos s' j m = edgePos s j m := by
  unfold edgePos; rw [he.edges]

theorem AxisEq.edgeHandle_eq {s s' : Broadphase T R} {L : List Nat} {j : Fin 3}
    (he : AxisEq s s' L j) (m : Nat) : edgeHandle s' j m = edgeHandle s j m := by
  unfold edgeHandle; rw [he.edges]

theorem AxisEq.minPos_eq {s s' : Broadphase T R} {L : List Nat} {j : Fin 3}
    (he : AxisEq s s' L j) {a : Nat} (ha : Owner L a) : minPos s' a j = minPos s a j := by
  unfold minPos; rw [he.edgePos_eq, he.minE_eq a ha]

theorem AxisEq.maxPos_eq {s s' : Broadphase T R} {L : List Nat} {j : Fin 3}
    (he : AxisEq s s' L j) {a : Nat} (ha : Owner L a) : maxPos s' a j = maxPos s a j := by
  unfold maxPos; rw [he.edgePos_eq, he.maxE_eq a ha]

theorem AxisEq.trans_eq {s s' s'' : Broadphase T R} {L : List Nat} {j : Fin 3}
    (h1 : AxisEq s s' L j) (h2 : AxisEq s' s'' L j) : AxisEq s s'' L j :=
  { edges := h2.edges.trans h1.edges
    minE_eq := fun a ha => (h2.minE_eq a ha).trans (h1.minE_eq a ha)
    maxE_eq := fun a ha => (h2.maxE_eq a ha).trans (h1.maxE_eq a ha)
    sentinel := h2.sentinel.trans h1.sentinel }

theorem AxisEq.link {s s' : Broadphase T R} {L : List Nat} {j : Fin 3} {N : Nat}
    (he : AxisEq s s' L j) (hl : AxisLink s L N j) : AxisLink s' L N j := by
  refine
    { min_lt_max := ?_, max_le := ?_, min_handle := ?_, max_handle := ?_, min_even := ?_,
      max_odd := ?_, pos_lt := ?_, owner := ?_, sent_min := ?_, sent_max := ?_, pos_zero := ?_,
      pos_top := ?_, pos_le := ?_ }
  · intro a ha; rw [he.minE_eq a ha, he.maxE_eq a ha]; exact hl.min_lt_max a ha
  · intro a ha; rw [he.maxE_eq a ha]; exact hl.max_le a ha
  · intro a ha; rw [he.minE_eq a ha, he.edgeHandle_eq]; exact hl.min_handle a ha
  · intro a ha; rw [he.maxE_eq a ha, he.edgeHandle_eq]; exact hl.max_handle a ha
  · intro a ha; rw [he.minPos_eq ha]; exact hl.min_even a ha
  · intro a ha; rw [he.maxPos_eq ha]; exact hl.max_odd a ha
  · intro a ha; rw [he.minPos_eq ha, he.maxPos_eq ha]; exact hl.pos_lt a ha
  · intro m hm
    rw [he.edgeHandle_eq, he.edgePos_eq]
    have ho := hl.owner m hm
    rw [he.minE_eq _ ho.1, he.maxE_eq _ ho.1]
    exact ho
  · rw [he.minE_eq 0 (Or.inl rfl)]; exact hl.sent_min
  · rw [he.maxE_eq 0 (Or.inl rfl)]; exact hl.sent_max
  · rw [he.edgePos_eq]; exact hl.pos_zero
  · rw [he.edgePos_eq, he.sentinel]; exact hl.pos_top
  · intro m hm; rw [he.edgePos_eq, he.sentinel]; exact hl.pos_le m hm

theorem AxisEq.sorted {s s' : Broadphase T R} {L : List Nat} {j : Fin 3} {N : Nat}
    (he : AxisEq s s' L j) (hs : SortedUpTo s j N) : SortedUpTo s' j N := by
  intro i m h1 h2
  rw [he.edgePos_eq, he.edgePos_eq]; exact hs i m h1 h2

theorem AxisEq.sortedExcept {s s' : Broadphase T R} {L : List Nat} {j : Fin 3} {N e : Nat}
    (he : AxisEq s s' L j) (hs : SortedExcept s j N e) : SortedExcept s' j N e := by
  intro i m h1 h2 h3 h4
  rw [he.edgePos_eq, he.edgePos_eq]
  exact hs i m h1 h2 h3 h4

theorem AxisEq.overlap {s s' : Broadphase T R} {L : List Nat} {j : Fin 3}
    (he : AxisEq s s' L j) {a b : Nat} (ha : Owner L a) (hb : Owner L b) :
    intervalsOverlap s' a b j ↔ intervalsOverlap s a b j := by
  unfold intervalsOverlap
  rw [he.minPos_eq ha, he.minPos_eq hb, he.maxPos_eq ha, he.maxPos_eq hb]

theorem AxisEq.mono {s s' : Broadphase T R} {L L' : List Nat} {j : Fin 3}
    (he : AxisEq s s' L j) (hsub : ∀ a, Owner L' a → Owner L a) : AxisEq s s' L' j :=
  { edges := he.edges
    minE_eq := fun a ha => he.minE_eq a (hsub a ha)
    maxE_eq := fun a ha => he.maxE_eq a (hsub a ha)
    sentinel := he.sentinel }

/-! ### Insertion of the edges of a new handle -/

theorem minE_insertEdges (t : Broadphase T R) (h : Nat) (k : Fin 3) (a : Nat) (j : Fin 3) :
    minE (insertEdges t h k) a j =
      if a = h ∧ j = k then t.m_numHandles * 2 - 1 else minE t a j := by
  unfold insertEdges
  simp only [minE_setMaxEdge, minE_setMinEdge, minE_setEdge]

theorem maxE_insertEdges (t : Broadphase T R) (h : Nat) (k : Fin 3) (a : Nat) (j : Fin 3) :
    maxE (insertEdges t h k) a j =
      if a = h ∧ j = k then t.m_numHandles * 2
      else if a = 0 ∧ j = k then maxE t 0 k + 2 else maxE t a j := by
  unfold insertEdges
  simp only [maxE_setMaxEdge, maxE_setMinEdge, maxE_setEdge]

theorem pEdges_insertEdges (t : Broadphase T R) (h : Nat) (k : Fin 3) (j : Fin 3) (m : Nat) :
    (insertEdges t h k).m_pEdges j m =
      if j = k ∧ m = t.m_numHandles * 2 then
        { m_pos := quantize t (extremeCoord t) 1 k, m_handle := h }
      else if j = k ∧ m = t.m_numHandles * 2 - 1 then
        { m_pos := quantize t (extremeCoord t) 0 k, m_handle := h }
      else if j = k ∧ m = t.m_numHandles * 2 + 1 then t.m_pEdges k (t.m_numHandles * 2 - 1)
      else t.m_pEdges j m := by
  unfold insertEdges
  simp only [pEdges_setMaxEdge, pEdges_setMinEdge, pEdges_setEdge]

theorem insertEdges_pHandles (t : Broadphase T R) (h : Nat) (k : Fin 3) (f : Nat)
    (hf0 : f ≠ 0) (hfh : f ≠ h) : (insertEdges t h k).m_pHandles f = t.m_pHandles f := by
  unfold insertEdges
  dsimp only
  rw [pHandles_setMaxEdge_ne _ _ _ _ _ hfh, pHandles_setMinEdge_ne _ _ _ _ _ hfh]
  simp only [pHandles_setEdge]
  rw [pHandles_setMaxEdge_ne _ _ _ _ _ hf0]

theorem insertEdges_scalars (t : Broadphase T R) (h : Nat) (k : Fin 3) :
    (insertEdges t h k).m_handleSentinel = t.m_handleSentinel ∧
    (insertEdges t h k).m_numHandles = t.m_numHandles ∧
    (insertEdges t h k).m_maxHandles = t.m_maxHandles ∧
    (insertEdges t h k).m_firstFreeHandle = t.m_firstFreeHandle ∧
    (insertEdges t h k).m_pairCache = t.m_pairCache := by
  unfold insertEdges
  dsimp only
  simp only [sentinel_setMaxEdge, sentinel_setMinEdge, sentinel_setEdge,
    numHandles_setMaxEdge, numHandles_setMinEdge, numHandles_setEdge,
    maxHandles_setMaxEdge, maxHandles_setMinEdge, maxHandles_setEdge,
    firstFree_setMaxEdge, firstFree_setMinEdge, firstFree_setEdge,
    pairCache_setMaxEdge, pairCache_setMinEdge, pairCache_setEdge, and_self]

theorem insertEdges_other (t : Broadphase T R) (h : Nat) (k : Fin 3) (L : List Nat)
    {j : Fin 3} (hj : j ≠ k) : AxisEq t (insertEdges t h k) L j := by
  refine { edges := ?_, minE_eq := ?_, maxE_eq := ?_, sentinel := (insertEdges_scalars t h k).1 }
  · funext m; rw [pEdges_insertEdges]; simp [hj]
  · intro a _; rw [minE_insertEdges]; simp [hj]
  · intro a _; rw [maxE_insertEdges]; simp [hj]

end AxisSweep3

namespace AxisSweep3

variable {T : IntType} {R : Type}

theorem owner_cons {L : List Nat} {h a : Nat} : Owner (h :: L) a ↔ a = h ∨ Owner L a := by
  unfold Owner
  simp only [List.mem_cons]
  tauto

/-- The two edges of a new handle, inserted at the extreme position before the max
sentinel of one axis. -/
theorem insertEdges_link {t : Broadphase T R} {L : List Nat} {N : Nat} {k : Fin 3} {h : Nat}
    (hl : AxisLink t L N k) (hs : SortedUpTo t k N) (hh0 : h ≠ 0) (hhL : h ∉ L)
    (h0L : 0 ∉ L) (hN : t.m_numHandles * 2 = N + 1) (hS : t.m_handleSentinel % 2 = 1) :
    AxisLink (insertEdges t h k) (h :: L) (N + 2) k ∧
    SortedExcept (insertEdges t h k) k (N + 2) N ∧
    minPos (insertEdges t h k) h k + 1 = t.m_handleSentinel ∧
    maxPos (insertEdges t h k) h k = t.m_handleSentinel ∧
    (∀ a, Owner L a → minPos (insertEdges t h k) a k = minPos t a k ∧
      maxPos (insertEdges t h k) a k = maxPos t a k) ∧
    (minE (insertEdges t h k) h k = N ∧ maxE (insertEdges t h k) h k = N + 1) := by
  have hsent := (insertEdges_scalars t h k).1
  have hqmin : quantize t (extremeCoord t) 0 k + 1 = t.m_handleSentinel := by
    rw [quantize_min, clampCoord_extreme]; omega
  have hqmax : quantize t (extremeCoord t) 1 k = t.m_handleSentinel := by
    rw [quantize_max, clampCoord_extreme]; omega
  have hhO : ¬ Owner L h := by
    rintro (h1 | h1)
    · exact hh0 h1
    · exact hhL h1
  have hN1 : 1 ≤ N := by
    have := hl.min_lt_max 0 (Or.inl rfl)
    have := hl.max_le 0 (Or.inl rfl)
    omega
  -- the accessors of the new state
  have hmin : ∀ a, minE (insertEdges t h k) a k = if a = h then N else minE t a k := by
    intro a; rw [minE_insertEdges, hN]; simp
  have hmax : ∀ a, maxE (insertEdges t h k) a k =
      if a = h then N + 1 else if a = 0 then N + 2 else maxE t a k := by
    intro a; rw [maxE_insertEdges, hN, hl.sent_max]; simp
  have hpos : ∀ m, edgePos (insertEdges t h k) k m =
      if m = N + 1 then t.m_handleSentinel
      else if m = N then t.m_handleSentinel - 1
      else if m = N + 2 then t.m_handleSentinel else edgePos t k m := by
    intro m
    unfold edgePos
    rw [pEdges_insertEdges, hN]
    simp only [true_and, Nat.add_sub_cancel]
    split_ifs
    · exact hqmax
    · show quantize t (extremeCoord t) 0 k = _; omega
    · exact hl.pos_top
    · rfl
  have hhan : ∀ m, edgeHandle (insertEdges t h k) k m =
      if m = N + 1 then h else if m = N then h
      else if m = N + 2 then 0 else edgeHandle t k m := by
    intro m
    unfold edgeHandle
    rw [pEdges_insertEdges, hN]
    simp only [true_and, Nat.add_sub_cancel]
    split_ifs
    · rfl
    · rfl
    · have := hl.max_handle 0 (Or.inl rfl)
      rw [hl.sent_max] at this; exact this
    · rfl
  -- the old owners keep their slots, which lie below the old sentinel
  have hminlt : ∀ a, Owner L a → minE t a k < N := by
    intro a ha
    have := hl.min_lt_max a ha
    have := hl.max_le a ha
    omega
  have hmaxlt : ∀ a, a ∈ L → maxE t a k < N := by
    intro a ha
    have h1 := hl.max_le a (Or.inr ha)
    have h2 : maxE t a k ≠ N := by
      intro hc
      have := hl.maxE_inj (Or.inr ha) (Or.inl rfl) (by rw [hc, hl.sent_max])
      exact h0L (this ▸ ha)
    omega
  have hne : ∀ a, Owner L a → a ≠ h := fun a ha hc => hhO (hc ▸ ha)
  have hminP : ∀ a, Owner L a → minPos (insertEdges t h k) a k = minPos t a k := by
    intro a ha
    have := hminlt a ha
    unfold minPos
    rw [hmin, if_neg (hne a ha), hpos, if_neg (by omega), if_neg (by omega), if_neg (by omega)]
  have hmaxP : ∀ a, Owner L a → maxPos (insertEdges t h k) a k = maxPos t a k := by
    intro a ha
    unfold maxPos
    rw [hmax, if_neg (hne a ha)]
    rcases ha with h1 | h1
    · subst h1
      rw [if_pos rfl, hpos, if_neg (by omega), if_neg (by omega), if_pos rfl, hl.sent_max,
        hl.pos_top]
    · have := hmaxlt a h1
      have ha0 : a ≠ 0 := fun hc => h0L (hc ▸ h1)
      rw [if_neg ha0, hpos, if_neg (by omega), if_neg (by omega), if_neg (by omega)]
  have hminPh : minPos (insertEdges t h k) h k = t.m_handleSentinel - 1 := by
    unfold minPos
    rw [hmin, if_pos rfl, hpos, if_neg (by omega), if_pos rfl]
  have hmaxPh : maxPos (insertEdges t h k) h k = t.m_handleSentinel := by
    unfold maxPos
    rw [hmax, if_pos rfl, hpos, if_pos rfl]
  refine ⟨?_, ?_, by rw [hminPh]; omega, hmaxPh, fun a ha => ⟨hminP a ha, hmaxP a ha⟩,
    by rw [hmin, if_pos rfl], by rw [hmax, if_pos rfl]⟩
  · refine
      { min_lt_max := ?_, max_le := ?_, min_handle := ?_, max_handle := ?_, min_even := ?_,
        max_odd := ?_, pos_lt := ?_, owner := ?_, sent_min := ?_, sent_max := ?_,
        pos_zero := ?_, pos_top := ?_, pos_le := ?_ }
    · intro a ha
      rw [hmin, hmax]
      rcases owner_cons.1 ha with h1 | h1
      · rw [if_pos h1, if_pos h1]; omega
      · rw [if_neg (hne a h1), if_neg (hne a h1)]
        have := hminlt a h1
        have := hl.min_lt_max a h1
        split_ifs <;> omega
    · intro a ha
      rw [hmax]
      rcases owner_cons.1 ha with h1 | h1
      · rw [if_pos h1]; omega
      · rw [if_neg (hne a h1)]
        have := hl.max_le a h1
        split_ifs <;> omega
    · intro a ha
      rw [hmin, hhan]
      rcases owner_cons.1 ha with h1 | h1
      · rw [if_pos h1, if_neg (by omega), if_pos rfl]; exact h1.symm
      · have := hminlt a h1
        rw [if_neg (hne a h1), if_neg (by omega), if_neg (by omega), if_neg (by omega)]
        exact hl.min_handle a h1
    · intro a ha
      rw [hmax, hhan]
      rcases owner_cons.1 ha with h1 | h1
      · rw [if_pos h1, if_pos rfl]; exact h1.symm
      · rw [if_neg (hne a h1)]
        rcases h1 with h2 | h2
        · subst h2
          rw [if_pos rfl, if_neg (by omega), if_neg (by omega), if_pos rfl]
        · have := hmaxlt a h2
          have ha0 : a ≠ 0 := fun hc => h0L (hc ▸ h2)
          rw [if_neg ha0, if_neg (by omega), if_neg (by omega), if_neg (by omega)]
          exact hl.max_handle a (Or.inr h2)
    · intro a ha
      rcases owner_cons.1 ha with h1 | h1
      · rw [h1, hminPh]; omega
      · rw [hminP a h1]; exact hl.min_even a h1
    · intro a ha
      rcases owner_cons.1 ha with h1 | h1
      · rw [h1, hmaxPh]; exact hS
      · rw [hmaxP a h1]; exact hl.max_odd a h1
    · intro a ha
      rcases owner_cons.1 ha with h1 | h1
      · rw [h1, hminPh, hmaxPh]; omega
      · rw [hminP a h1, hmaxP a h1]; exact hl.pos_lt a h1
    · intro i hi
      rw [hhan, hpos]
      by_cases c1 : i = N + 1
      · simp only [c1, if_true]
        refine ⟨owner_cons.2 (Or.inl rfl), fun _ => ?_, fun hc => ?_⟩
        · rw [hmax, if_pos rfl]
        · omega
      · by_cases c2 : i = N
        · simp only [c1, c2, if_false, if_true]
          have : ¬ N = N + 1 := by omega
          simp only [this, if_false]
          refine ⟨owner_cons.2 (Or.inl rfl), fun hc => ?_, fun _ => ?_⟩
          · omega
          · rw [hmin, if_pos rfl]
        · by_cases c3 : i = N + 2
          · simp only [c1, c2, c3, if_false, if_true]
            have e1 : ¬ N + 2 = N + 1 := by omega
            have e2 : ¬ N + 2 = N := by omega
            simp only [e1, e2, if_false]
            refine ⟨owner_cons.2 (Or.inr (Or.inl rfl)), fun _ => ?_, fun hc => ?_⟩
            · rw [hmax, if_neg (Ne.symm hh0), if_pos rfl]
            · omega
          · simp only [c1, c2, c3, if_false]
            have hi' : i < N := by omega
            have ho := hl.owner i (by omega)
            refine ⟨owner_cons.2 (Or.inr ho.1), fun hc => ?_, fun hc => ?_⟩
            · have h1 := ho.2.1 hc
              rw [hmax, if_neg (hne _ ho.1)]
              have : edgeHandle t k i ≠ 0 := by
                intro h0
                rw [h0, hl.sent_max] at h1; omega
              rw [if_neg this]; exact h1
            · have h1 := ho.2.2 hc
              rw [hmin, if_neg (hne _ ho.1)]; exact h1
    · rw [hmin, if_neg (Ne.symm hh0)]; exact hl.sent_min
    · rw [hmax, if_neg (Ne.symm hh0), if_pos rfl]
    · rw [hpos, if_neg (by omega), if_neg (by omega), if_neg (by omega)]; exact hl.pos_zero
    · rw [hpos, if_neg (by omega), if_neg (by omega), if_pos rfl, hsent]
    · intro i hi
      rw [hpos, hsent]
      split_ifs
      · exact Nat.le_refl _
      · omega
      · exact Nat.le_refl _
      · exact hl.pos_le i (by omega)
  · intro i m him hmN hiN hmN'
    rw [hpos, hpos]
    have hle : ∀ x, x ≤ N → edgePos t k x ≤ t.m_handleSentinel := fun x hx => hl.pos_le x hx
    by_cases c1 : m = N + 1
    · simp only [c1, if_true]
      split_ifs <;> first | exact Nat.le_refl _ | omega | exact hle i (by omega)
    · by_cases c3 : m = N + 2
      · simp only [c3]
        have e1 : ¬ N + 2 = N + 1 := by omega
        have e2 : ¬ N + 2 = N := by omega
        simp only [e1, e2, if_false, if_true]
        split_ifs <;> first | exact Nat.le_refl _ | omega | exact hle i (by omega)
      · simp only [c1, hmN', c3, if_false]
        rw [if_neg (by omega), if_neg (by omega), if_neg (by omega)]
        exact hs i m him (by omega)

end AxisSweep3

namespace AxisSweep3

variable {T : IntType} {R : Type}

theorem owner_cons_of {L : List Nat} {h a : Nat} (ha : Owner L a) : Owner (h :: L) a :=
  owner_cons.2 (Or.inr ha)

/-- The six edges of a new handle, inserted on the three axes. -/
theorem insertAll_spec {t : Broadphase T R} {L : List Nat} {N : Nat} {h : Nat}
    (hl : ∀ j, AxisLink t L N j) (hs : ∀ j, SortedUpTo t j N) (hh0 : h ≠ 0) (hhL : h ∉ L)
    (h0L : 0 ∉ L) (hN : t.m_numHandles * 2 = N + 1) (hS : t.m_handleSentinel % 2 = 1) :
    (∀ j, AxisLink (insertEdges (insertEdges (insertEdges t h 0) h 1) h 2) (h :: L) (N + 2) j) ∧
    (∀ j, SortedExcept (insertEdges (insertEdges (insertEdges t h 0) h 1) h 2) j (N + 2) N) ∧
    (∀ j, minPos (insertEdges (insertEdges (insertEdges t h 0) h 1) h 2) h j + 1
        = t.m_handleSentinel ∧
      maxPos (insertEdges (insertEdges (insertEdges t h 0) h 1) h 2) h j
        = t.m_handleSentinel) ∧
    (∀ a, Owner L a → ∀ j,
      minPos (insertEdges (insertEdges (insertEdges t h 0) h 1) h 2) a j = minPos t a j ∧
      maxPos (insertEdges (insertEdges (insertEdges t h 0) h 1) h 2) a j = maxPos t a j) ∧
    (∀ j, minE (insertEdges (insertEdges (insertEdges t h 0) h 1) h 2) h j = N ∧
      maxE (insertEdges (insertEdges (insertEdges t h 0) h 1) h 2) h j = N + 1) := by
  -- axis 0
  obtain ⟨a0, b0, c0, d0, e0, g0⟩ := insertEdges_link (hl 0) (hs 0) hh0 hhL h0L hN hS
  have o01 := insertEdges_other t h 0 (h :: L) (j := 1) (by decide)
  have o02 := insertEdges_other t h 0 (h :: L) (j := 2) (by decide)
  have sc0 := insertEdges_scalars t h 0
  generalize insertEdges t h 0 = t1 at *
  have hl1 : AxisLink t1 L N 1 := (o01.mono (fun a ha => owner_cons_of ha)).link (hl 1)
  -- axis 1
  obtain ⟨a1, b1, c1, d1, e1, g1⟩ := insertEdges_link hl1 (o01.sorted (hs 1)) hh0 hhL h0L
    (by rw [sc0.2.1]; exact hN) (by rw [sc0.1]; exact hS)
  have o10 := insertEdges_other t1 h 1 (h :: L) (j := 0) (by decide)
  have o12 := insertEdges_other t1 h 1 (h :: L) (j := 2) (by decide)
  have sc1 := insertEdges_scalars t1 h 1
  generalize insertEdges t1 h 1 = t2 at *
  have o2 : AxisEq t t2 (h :: L) 2 := o02.trans_eq o12
  have hl2 : AxisLink t2 L N 2 := (o2.mono (fun a ha => owner_cons_of ha)).link (hl 2)
  -- axis 2
  obtain ⟨a2, b2, c2, d2, e2, g2⟩ := insertEdges_link hl2 (o2.sorted (hs 2)) hh0 hhL h0L
    (by rw [sc1.2.1, sc0.2.1]; exact hN) (by rw [sc1.1, sc0.1]; exact hS)
  have o20 := insertEdges_other t2 h 2 (h :: L) (j := 0) (by decide)
  have o21 := insertEdges_other t2 h 2 (h :: L) (j := 1) (by decide)
  generalize insertEdges t2 h 2 = t3 at *
  have hho : Owner (h :: L) h := owner_cons.2 (Or.inl rfl)
  refine ⟨?_, ?_, ?_, ?_, ?_⟩
  · intro j
    fin_cases j
    · exact o20.link (o10.link a0)
    · exact o21.link a1
    · exact a2
  · intro j
    fin_cases j
    · exact o20.sortedExcept (o10.sortedExcept b0)
    · exact o21.sortedExcept b1
    · exact b2
  · intro j
    fin_cases j
    · show minPos t3 h 0 + 1 = _ ∧ maxPos t3 h 0 = _
      rw [o20.minPos_eq hho, o10.minPos_eq hho, o20.maxPos_eq hho, o10.maxPos_eq hho]
      exact ⟨c0, d0⟩
    · show minPos t3 h 1 + 1 = _ ∧ maxPos t3 h 1 = _
      rw [o21.minPos_eq hho, o21.maxPos_eq hho, c1, d1, sc0.1]
      exact ⟨rfl, rfl⟩
    · show minPos t3 h 2 + 1 = _ ∧ maxPos t3 h 2 = _
      rw [c2, d2, sc1.1, sc0.1]
      exact ⟨rfl, rfl⟩
  · intro a ha j
    have hao := owner_cons_of (h := h) ha
    fin_cases j
    · show minPos t3 a 0 = _ ∧ maxPos t3 a 0 = _
      rw [o20.minPos_eq hao, o10.minPos_eq hao, o20.maxPos_eq hao, o10.maxPos_eq hao]
      exact e0 a ha
    · show minPos t3 a 1 = _ ∧ maxPos t3 a 1 = _
      rw [o21.minPos_eq hao, o21.maxPos_eq hao, (e1 a ha).1, (e1 a ha).2,
        o01.minPos_eq hao, o01.maxPos_eq hao]
      exact ⟨rfl, rfl⟩
    · show minPos t3 a 2 = _ ∧ maxPos t3 a 2 = _
      rw [(e2 a ha).1, (e2 a ha).2, o2.minPos_eq hao, o2.maxPos_eq hao]
      exact ⟨rfl, rfl⟩
  · intro j
    fin_cases j
    · show minE t3 h 0 = _ ∧ maxE t3 h 0 = _
      rw [o20.minE_eq h hho, o10.minE_eq h hho, o20.maxE_eq h hho, o10.maxE_eq h hho]
      exact g0
    · show minE t3 h 1 = _ ∧ maxE t3 h 1 = _
      rw [o21.minE_eq h hho, o21.maxE_eq h hho]
      exact g1
    · exact g2

end AxisSweep3

namespace AxisSweep3

variable {T : IntType} {R : Type}

theorem candidateAdd_eq (s : Broadphase T R) (k : Fin 3) (f : Bool) (a b : Nat) :
    candidateAdd s k f a b = withCache s (candidateAdd s k f a b).m_pairCache := by
  unfold candidateAdd
  split_ifs <;> rfl

theorem candidateRemove_eq (s : Broadphase T R) (k : Fin 3) (f : Bool) (a b : Nat) :
    candidateRemove s k f a b = withCache s (candidateRemove s k f a b).m_pairCache := by
  unfold candidateRemove
  split_ifs <;> rfl

/-- A step of `sortMinDown` without overlap bookkeeping is the step with it, up to the
pair cache, which it leaves alone. -/
theorem sortMinDownStep_false (s : Broadphase T R) (k : Fin 3) (e : Nat) :
    sortMinDownStep s k e false
      = withCache (sortMinDownStep s k e true) s.m_pairCache := by
  unfold sortMinDownStep
  dsimp only
  split_ifs with h
  · rw [candidateAdd_eq s k true, candidateAdd_eq s k false]
    rfl
  · rfl

theorem sortMaxDownStep_false (s : Broadphase T R) (k : Fin 3) (e : Nat) :
    sortMaxDownStep s k e false
      = withCache (sortMaxDownStep s k e true) s.m_pairCache := by
  unfold sortMaxDownStep
  dsimp only
  split_ifs with h
  · rfl
  · rw [candidateRemove_eq s k true, candidateRemove_eq s k false]
    rfl

theorem sortMinUpStep_false (s : Broadphase T R) (k : Fin 3) (e : Nat) :
    sortMinUpStep s k e false
      = withCache (sortMinUpStep s k e true) s.m_pairCache := by
  unfold sortMinUpStep
  dsimp only
  split_ifs with h
  · rw [candidateRemove_eq s k true, candidateRemove_eq s k false]
    rfl
  · rfl

theorem sortMaxUpStep_false (s : Broadphase T R) (k : Fin 3) (e : Nat) :
    sortMaxUpStep s k e false
      = withCache (sortMaxUpStep s k e true) s.m_pairCache := by
  unfold sortMaxUpStep
  dsimp only
  split_ifs with h
  · rfl
  · rw [candidateAdd_eq s k true, candidateAdd_eq s k false]
    rfl

end AxisSweep3

namespace AxisSweep3

variable {T : IntType} {R : Type}

theorem Walk.refl_walk (s : Broadphase T R) (L : List Nat) (k : Fin 3) : Walk s s L k :=
  { frame := Frame.refl s L
    others := fun _ _ => { edges := rfl, minE_eq := fun _ _ => rfl, maxE_eq := fun _ _ => rfl,
                           sentinel := rfl }
    cache := rfl }

theorem Walk.trans_walk {s s' s'' : Broadphase T R} {L : List Nat} {k : Fin 3}
    (h1 : Walk s s' L k) (h2 : Walk s' s'' L k) : Walk s s'' L k :=
  { frame := h1.frame.trans h2.frame
    others := fun j hj => (h1.others j hj).trans_eq (h2.others j hj)
    cache := h2.cache.trans h1.cache }

/-- The exchange that a sort primitive makes without overlap bookkeeping. -/
theorem StepRel.walk {s sT : Broadphase T R} {L : List Nat} {k : Fin 3} {i : Nat}
    (hr : StepRel s sT L k i) : Walk s (withCache sT s.m_pairCache) L k :=
  { frame := ⟨hr.toFrame.minPos_eq, hr.toFrame.maxPos_eq, hr.toFrame.handles,
      hr.toFrame.sentinel, hr.toFrame.numHandles, hr.toFrame.maxHandles, hr.toFrame.firstFree⟩
    others := fun j hj =>
      { edges := hr.edges_o j hj
        minE_eq := fun a _ => hr.min_o a j hj
        maxE_eq := fun a _ => hr.max_o a j hj
        sentinel := hr.sentinel }
    cache := rfl }

theorem AxisLink.with_cache {s : Broadphase T R} {L : List Nat} {N : Nat} {j : Fin 3}
    (hl : AxisLink s L N j) (c : List (Nat × Nat)) :
    AxisLink (AxisSweep3.withCache s c) L N j :=
  ⟨hl.min_lt_max, hl.max_le, hl.min_handle, hl.max_handle, hl.min_even, hl.max_odd, hl.pos_lt,
    hl.owner, hl.sent_min, hl.sent_max, hl.pos_zero, hl.pos_top, hl.pos_le⟩

/-- A sort loop without overlap bookkeeping drives the edge at `e` down until the axis is
sorted, and touches nothing but that axis. -/
theorem down_walk (k : Fin 3) (L : List Nat) (N par : Nat)
    (step stepT : Broadphase T R → Nat → Broadphase T R)
    (loop : Nat → Broadphase T R → Broadphase T R)
    (h0 : ∀ s, loop 0 s = s)
    (hS : ∀ e s, loop (e + 1) s =
      if edgePos s k (e + 1) < edgePos s k e then loop e (step s (e + 1)) else s)
    (hstep : ∀ s i, AxisLink s L N k → i + 1 ≤ N → edgePos s k (i + 1) % 2 = par →
      StepRel s (stepT s (i + 1)) L k i)
    (hfalse : ∀ s e, step s e = withCache (stepT s e) s.m_pairCache) :
    ∀ e s, AxisLink s L N k → e ≤ N → edgePos s k e % 2 = par → SortedExcept s k N e →
      (∀ m, e < m → m ≤ N → edgePos s k e ≤ edgePos s k m) →
      AxisLink (loop e s) L N k ∧ SortedUpTo (loop e s) k N ∧ Walk s (loop e s) L k := by
  intro e
  induction e with
  | zero =>
    intro s hl _ _ hse hab
    rw [h0]
    refine ⟨hl, ?_, Walk.refl_walk s L k⟩
    intro i m him hmN
    by_cases hi : i = 0
    · subst hi
      by_cases hm : m = 0
      · subst hm; exact Nat.le_refl _
      · exact hab m (by omega) hmN
    · exact hse i m him hmN hi (by omega)
  | succ e ih =>
    intro s hl heN hpar hse hab
    rw [hS]
    by_cases hpos : edgePos s k (e + 1) < edgePos s k e
    · rw [if_pos hpos, hfalse]
      have hr := hstep s e hl heN hpar
      have hl' : AxisLink (withCache (stepT s (e + 1)) s.m_pairCache) L N k :=
        (hr.link_same hl heN hpos).with_cache _
      have hsd := hr.sorted_down hpos hse hab
      have hpar' : edgePos (withCache (stepT s (e + 1)) s.m_pairCache) k e % 2 = par := by
        have : edgePos (stepT s (e + 1)) k e % 2 = par := by
          rw [hr.edgePos_k, tau_left]; exact hpar
        exact this
      obtain ⟨r1, r2, r3⟩ := ih (withCache (stepT s (e + 1)) s.m_pairCache) hl' (by omega)
        hpar' hsd.1 hsd.2
      exact ⟨r1, r2, hr.walk.trans_walk r3⟩
    · rw [if_neg hpos]
      refine ⟨hl, ?_, Walk.refl_walk s L k⟩
      intro i m him hmN
      by_cases hi : i = e + 1
      · subst hi
        by_cases hm : m = e + 1
        · subst hm; exact Nat.le_refl _
        · exact hab m (by omega) hmN
      · by_cases hm : m = e + 1
        · subst hm
          have h1 : edgePos s k i ≤ edgePos s k e := by
            by_cases hie : i = e
            · subst hie; exact Nat.le_refl _
            · exact hse i e (by omega) (by omega) hi (by omega)
          omega
        · exact hse i m him hmN hi hm

theorem sortMinDown_walk (k : Fin 3) (L : List Nat) (N : Nat) (e : Nat) (s : Broadphase T R)
    (hl : AxisLink s L N k) (heN : e ≤ N) (hpar : edgePos s k e % 2 = 0)
    (hse : SortedExcept s k N e)
    (hab : ∀ m, e < m → m ≤ N → edgePos s k e ≤ edgePos s k m) :
    AxisLink (sortMinDown k false e s) L N k ∧ SortedUpTo (sortMinDown k false e s) k N ∧
      Walk s (sortMinDown k false e s) L k :=
  down_walk k L N 0 (fun s e => sortMinDownStep s k e false)
    (fun s e => sortMinDownStep s k e true) (sortMinDown k false)
    (fun _ => rfl) (fun _ _ => rfl) (fun s i hl hi hp => sortMinDownStep_rel s L N k i hl hi hp)
    (fun s e => sortMinDownStep_false s k e) e s hl heN hpar hse hab

theorem sortMaxDown_walk (k : Fin 3) (L : List Nat) (N : Nat) (e : Nat) (s : Broadphase T R)
    (hl : AxisLink s L N k) (heN : e ≤ N) (hpar : edgePos s k e % 2 = 1)
    (hse : SortedExcept s k N e)
    (hab : ∀ m, e < m → m ≤ N → edgePos s k e ≤ edgePos s k m) :
    AxisLink (sortMaxDown k false e s) L N k ∧ SortedUpTo (sortMaxDown k false e s) k N ∧
      Walk s (sortMaxDown k false e s) L k :=
  down_walk k L N 1 (fun s e => sortMaxDownStep s k e false)
    (fun s e => sortMaxDownStep s k e true) (sortMaxDown k false)
    (fun _ => rfl) (fun _ _ => rfl) (fun s i hl hi hp => sortMaxDownStep_rel s L N k i hl hi hp)
    (fun s e => sortMaxDownStep_false s k e) e s hl heN hpar hse hab

end AxisSweep3

namespace AxisSweep3

variable {T : IntType} {R : Type}

theorem setEdgePos_axisEq (u : Broadphase T R) (L : List Nat) (k : Fin 3) (e p : Nat)
    {j : Fin 3} (hj : j ≠ k) : AxisEq u (setEdgePos u k e p) L j :=
  { edges := by
      funext m
      have h1 := edgePos_setEdgePos_other u k e p hj m
      have h2 := edgeHandle_setEdgePos u k e p j m
      unfold edgePos at h1
      unfold edgeHandle at h2
      cases hx : (setEdgePos u k e p).m_pEdges j m with
      | mk a b =>
        cases hy : u.m_pEdges j m with
        | mk c d =>
          rw [hx, hy] at h1 h2
          simp only at h1 h2
          rw [h1, h2]
    minE_eq := fun _ _ => rfl
    maxE_eq := fun _ _ => rfl
    sentinel := rfl }

theorem minPos_setEdgePos (u : Broadphase T R) (k : Fin 3) (e p a : Nat) (j : Fin 3) :
    minPos (setEdgePos u k e p) a j = if j = k ∧ minE u a j = e then p else minPos u a j := by
  unfold minPos
  rw [edgePos_setEdgePos]; rfl

theorem maxPos_setEdgePos (u : Broadphase T R) (k : Fin 3) (e p a : Nat) (j : Fin 3) :
    maxPos (setEdgePos u k e p) a j = if j = k ∧ maxE u a j = e then p else maxPos u a j := by
  unfold maxPos
  rw [edgePos_setEdgePos]; rfl

theorem AxisLink.minE_range {u : Broadphase T R} {L : List Nat} {N : Nat} {k : Fin 3}
    (hl : AxisLink u L N k) {h : Nat} (hh : h ∈ L) (h0 : 0 ∉ L) :
    minE u h k ≤ N ∧ minE u h k ≠ 0 ∧ minE u h k ≠ N := by
  have hne : h ≠ 0 := fun hc => h0 (hc ▸ hh)
  refine ⟨hl.min_le (Or.inr hh), ?_, ?_⟩
  · intro hc
    apply hne
    apply hl.minE_inj (Or.inr hh) (Or.inl rfl)
    rw [hc, hl.sent_min]
  · intro hc
    apply hl.minE_ne_maxE (Or.inr hh) (Or.inl rfl)
    rw [hc, hl.sent_max]

theorem AxisLink.maxE_range {u : Broadphase T R} {L : List Nat} {N : Nat} {k : Fin 3}
    (hl : AxisLink u L N k) {h : Nat} (hh : h ∈ L) (h0 : 0 ∉ L) :
    maxE u h k ≤ N ∧ maxE u h k ≠ 0 ∧ maxE u h k ≠ N := by
  have hne : h ≠ 0 := fun hc => h0 (hc ▸ hh)
  refine ⟨hl.max_le _ (Or.inr hh), ?_, ?_⟩
  · intro hc
    have := hl.min_lt_max h (Or.inr hh)
    omega
  · intro hc
    apply hne
    apply hl.maxE_inj (Or.inr hh) (Or.inl rfl)
    rw [hc, hl.sent_max]

/-- The frame of a move of the min edge of `h` on axis `k`, from the frame of the walk
that followed the write of its position. -/
theorem moveFrame_min {u u' : Broadphase T R} {L : List Nat} {N : Nat} {k : Fin 3} {h : Nat}
    (hl : AxisLink u L N k) (hh : h ∈ L) (p : Nat)
    (hf : Frame (setEdgePos u k (minE u h k) p) u' L) :
    MoveFrame u u' L h k ∧ minPos u' h k = p ∧ maxPos u' h k = maxPos u h k := by
  have hmax : ∀ a, Owner L a → ∀ j, maxPos u' a j = maxPos u a j := by
    intro a ha j
    rw [hf.maxPos_eq a ha j, maxPos_setEdgePos, if_neg]
    rintro ⟨hj, hc⟩
    subst hj
    exact hl.minE_ne_maxE (Or.inr hh) ha hc.symm
  refine ⟨?_, ?_, hmax h (Or.inr hh) k⟩
  · refine { minPos_eq := ?_, maxPos_eq := ?_, handles := ?_, sentinel := ?_, numHandles := ?_,
             maxHandles := ?_, firstFree := ?_ }
    · intro a ha j hne
      rw [hf.minPos_eq a ha j, minPos_setEdgePos, if_neg]
      rintro ⟨hj, hc⟩
      subst hj
      have := hl.minE_inj ha (Or.inr hh) hc
      rcases hne with h1 | h1
      · exact h1 this
      · exact h1 rfl
    · intro a ha j _
      exact hmax a ha j
    · intro f hf'; rw [hf.handles f hf']; rfl
    · rw [hf.sentinel]; rfl
    · rw [hf.numHandles]; rfl
    · rw [hf.maxHandles]; rfl
    · rw [hf.firstFree]; rfl
  · rw [hf.minPos_eq h (Or.inr hh) k, minPos_setEdgePos, if_pos ⟨rfl, rfl⟩]

/-- The frame of a move of the max edge of `h` on axis `k`. -/
theorem moveFrame_max {u u' : Broadphase T R} {L : List Nat} {N : Nat} {k : Fin 3} {h : Nat}
    (hl : AxisLink u L N k) (hh : h ∈ L) (p : Nat)
    (hf : Frame (setEdgePos u k (maxE u h k) p) u' L) :
    MoveFrame u u' L h k ∧ minPos u' h k = minPos u h k ∧ maxPos u' h k = p := by
  have hmin : ∀ a, Owner L a → ∀ j, minPos u' a j = minPos u a j := by
    intro a ha j
    rw [hf.minPos_eq a ha j, minPos_setEdgePos, if_neg]
    rintro ⟨hj, hc⟩
    subst hj
    exact hl.minE_ne_maxE ha (Or.inr hh) hc
  refine ⟨?_, hmin h (Or.inr hh) k, ?_⟩
  · refine { minPos_eq := ?_, maxPos_eq := ?_, handles := ?_, sentinel := ?_, numHandles := ?_,
             maxHandles := ?_, firstFree := ?_ }
    · intro a ha j _
      exact hmin a ha j
    · intro a ha j hne
      rw [hf.maxPos_eq a ha j, maxPos_setEdgePos, if_neg]
      rintro ⟨hj, hc⟩
      subst hj
      have := hl.maxE_inj ha (Or.inr hh) hc
      rcases hne with h1 | h1
      · exact h1 this
      · exact h1 rfl
    · intro f hf'; rw [hf.handles f hf']; rfl
    · rw [hf.sentinel]; rfl
    · rw [hf.numHandles]; rfl
    · rw [hf.maxHandles]; rfl
    · rw [hf.firstFree]; rfl
  · rw [hf.maxPos_eq h (Or.inr hh) k, maxPos_setEdgePos, if_pos ⟨rfl, rfl⟩]

/-- The min edge of `h` receives the position `p` and is walked down without overlap
bookkeeping. -/
theorem walkMinDown_spec {u : Broadphase T R} {L : List Nat} {N : Nat} (k : Fin 3) {h : Nat}
    (hl : AxisLink u L N k) (hh : h ∈ L) (h0 : 0 ∉ L) (p : Nat) (hp : p % 2 = 0)
    (hlt : p < maxPos u h k) (hse : SortedExcept u k N (minE u h k))
    (hab : ∀ m, minE u h k < m → m ≤ N → p ≤ edgePos u k m) :
    AxisLink (sortMinDown k false (minE u h k) (setEdgePos u k (minE u h k) p)) L N k ∧
    SortedUpTo (sortMinDown k false (minE u h k) (setEdgePos u k (minE u h k) p)) k N ∧
    MoveFrame u (sortMinDown k false (minE u h k) (setEdgePos u k (minE u h k) p)) L h k ∧
    minPos (sortMinDown k false (minE u h k) (setEdgePos u k (minE u h k) p)) h k = p ∧
    maxPos (sortMinDown k false (minE u h k) (setEdgePos u k (minE u h k) p)) h k
      = maxPos u h k ∧
    (∀ j, j ≠ k →
      AxisEq u (sortMinDown k false (minE u h k) (setEdgePos u k (minE u h k) p)) L j) ∧
    (sortMinDown k false (minE u h k) (setEdgePos u k (minE u h k) p)).m_pairCache
      = u.m_pairCache := by
  obtain ⟨b1, b2, b3⟩ := hl.minE_range hh h0
  have hS : p ≤ u.m_handleSentinel := by
    have := hl.pos_le _ (hl.max_le h (Or.inr hh))
    unfold maxPos at hlt
    omega
  have hw : AxisLink (setEdgePos u k (minE u h k) p) L N k := by
    apply hl.write _ _ b1 b2 b3
    · have := hl.min_even h (Or.inr hh)
      unfold minPos at this
      omega
    · exact hS
    · intro a ha
      constructor
      · intro hc
        have := hl.minE_inj ha (Or.inr hh) hc
        subst this; exact hlt
      · intro hc
        exact absurd hc.symm (hl.minE_ne_maxE (Or.inr hh) ha)
  have hsew : SortedExcept (setEdgePos u k (minE u h k) p) k N (minE u h k) := by
    intro i m him hmN hie hme
    rw [edgePos_setEdgePos_ne u k _ p hie, edgePos_setEdgePos_ne u k _ p hme]
    exact hse i m him hmN hie hme
  have habw : ∀ m, minE u h k < m → m ≤ N →
      edgePos (setEdgePos u k (minE u h k) p) k (minE u h k)
        ≤ edgePos (setEdgePos u k (minE u h k) p) k m := by
    intro m h1 h2
    rw [edgePos_setEdgePos_self, edgePos_setEdgePos_ne u k _ p (by omega)]
    exact hab m h1 h2
  obtain ⟨r1, r2, r3⟩ := sortMinDown_walk k L N (minE u h k) _ hw b1
    (by rw [edgePos_setEdgePos_self]; exact hp) hsew habw
  obtain ⟨m1, m2, m3⟩ := moveFrame_min hl hh p r3.frame
  refine ⟨r1, r2, m1, m2, m3, ?_, ?_⟩
  · intro j hj
    exact (setEdgePos_axisEq u L k _ p hj).trans_eq (r3.others j hj)
  · rw [r3.cache]; rfl

/-- The max edge of `h` receives the position `p` and is walked down without overlap
bookkeeping. -/
theorem walkMaxDown_spec {u : Broadphase T R} {L : List Nat} {N : Nat} (k : Fin 3) {h : Nat}
    (hl : AxisLink u L N k) (hh : h ∈ L) (h0 : 0 ∉ L) (p : Nat) (hp : p % 2 = 1)
    (hgt : minPos u h k < p) (hple : p ≤ maxPos u h k) (hs : SortedUpTo u k N) :
    AxisLink (sortMaxDown k false (maxE u h k) (setEdgePos u k (maxE u h k) p)) L N k ∧
    SortedUpTo (sortMaxDown k false (maxE u h k) (setEdgePos u k (maxE u h k) p)) k N ∧
    MoveFrame u (sortMaxDown k false (maxE u h k) (setEdgePos u k (maxE u h k) p)) L h k ∧
    minPos (sortMaxDown k false (maxE u h k) (setEdgePos u k (maxE u h k) p)) h k
      = minPos u h k ∧
    maxPos (sortMaxDown k false (maxE u h k) (setEdgePos u k (maxE u h k) p)) h k = p ∧
    (∀ j, j ≠ k →
      AxisEq u (sortMaxDown k false (maxE u h k) (setEdgePos u k (maxE u h k) p)) L j) ∧
    (sortMaxDown k false (maxE u h k) (setEdgePos u k (maxE u h k) p)).m_pairCache
      = u.m_pairCache := by
  obtain ⟨b1, b2, b3⟩ := hl.maxE_range hh h0
  have hS : p ≤ u.m_handleSentinel := by
    have := hl.pos_le _ (hl.max_le h (Or.inr hh))
    unfold maxPos at hple
    omega
  have hw : AxisLink (setEdgePos u k (maxE u h k) p) L N k := by
    apply hl.write _ _ b1 b2 b3
    · have := hl.max_odd h (Or.inr hh)
      unfold maxPos at this
      omega
    · exact hS
    · intro a ha
      constructor
      · intro hc
        exact absurd hc (hl.minE_ne_maxE ha (Or.inr hh))
      · intro hc
        have := hl.maxE_inj ha (Or.inr hh) hc
        subst this; exact hgt
  have hsew : SortedExcept (setEdgePos u k (maxE u h k) p) k N (maxE u h k) := by
    intro i m him hmN hie hme
    rw [edgePos_setEdgePos_ne u k _ p hie, edgePos_setEdgePos_ne u k _ p hme]
    exact hs i m him hmN
  have habw : ∀ m, maxE u h k < m → m ≤ N →
      edgePos (setEdgePos u k (maxE u h k) p) k (maxE u h k)
        ≤ edgePos (setEdgePos u k (maxE u h k) p) k m := by
    intro m h1 h2
    rw [edgePos_setEdgePos_self, edgePos_setEdgePos_ne u k _ p (by omega)]
    have := hs (maxE u h k) m (by omega) h2
    unfold maxPos at hple
    omega
  obtain ⟨r1, r2, r3⟩ := sortMaxDown_walk k L N (maxE u h k) _ hw b1
    (by rw [edgePos_setEdgePos_self]; exact hp) hsew habw
  obtain ⟨m1, m2, m3⟩ := moveFrame_max hl hh p r3.frame
  refine ⟨r1, r2, m1, m2, m3, ?_, ?_⟩
  · intro j hj
    exact (setEdgePos_axisEq u L k _ p hj).trans_eq (r3.others j hj)
  · rw [r3.cache]; rfl

end AxisSweep3

namespace AxisSweep3

variable {T : IntType} {R : Type}

theorem placeEdges_eq (u : Broadphase T R) (h : Nat) (k : Fin 3) (mn mx : Nat) (f : Bool) :
    placeEdges u h k mn mx f =
      sortMaxDown k f (maxE (sortMinDown k f (minE u h k) (setEdgePos u k (minE u h k) mn)) h k)
        (setEdgePos (sortMinDown k f (minE u h k) (setEdgePos u k (minE u h k) mn)) k
          (maxE (sortMinDown k f (minE u h k) (setEdgePos u k (minE u h k) mn)) h k) mx) :=
  rfl

/-- The two new edges of `h` on axis `k`, placed without overlap bookkeeping: the axis
ends sorted with the box of `h` at `mn`, `mx`, and nothing else changes. -/
theorem placeEdges_walk {u : Broadphase T R} {L : List Nat} {N : Nat} (k : Fin 3) {h : Nat}
    (hl : AxisLink u L N k) (hh : h ∈ L) (h0 : 0 ∉ L) (mn mx : Nat) (hmn : mn % 2 = 0)
    (hmx : mx % 2 = 1) (hlt : mn < mx) (hle : mx ≤ maxPos u h k)
    (hse : SortedExcept u k N (minE u h k))
    (hab : ∀ m, minE u h k < m → m ≤ N → mn ≤ edgePos u k m) :
    AxisLink (placeEdges u h k mn mx false) L N k ∧
    SortedUpTo (placeEdges u h k mn mx false) k N ∧
    MoveFrame u (placeEdges u h k mn mx false) L h k ∧
    minPos (placeEdges u h k mn mx false) h k = mn ∧
    maxPos (placeEdges u h k mn mx false) h k = mx ∧
    (∀ j, j ≠ k → AxisEq u (placeEdges u h k mn mx false) L j) ∧
    (placeEdges u h k mn mx false).m_pairCache = u.m_pairCache := by
  rw [placeEdges_eq]
  obtain ⟨a1, a2, a3, a4, a5, a6, a7⟩ := walkMinDown_spec k hl hh h0 mn hmn
    (by omega) hse hab
  generalize sortMinDown k false (minE u h k) (setEdgePos u k (minE u h k) mn) = u1 at *
  obtain ⟨b1, b2, b3, b4, b5, b6, b7⟩ := walkMaxDown_spec k a1 hh h0 mx hmx
    (by rw [a4]; exact hlt) (by rw [a5]; exact hle) a2
  refine ⟨b1, b2, a3.trans_move b3, by rw [b4, a4], b5, ?_, by rw [b7, a7]⟩
  intro j hj
  exact (a6 j hj).trans_eq (b6 j hj)

/-- The two new edges of `h` on axis `k`, placed with overlap bookkeeping, from a state
whose pair cache holds the pairs that overlap by index on `k` and by position on the
other two axes, which are sorted. -/
theorem placeEdges_book {u : Broadphase T R} {L : List Nat} {N : Nat} (k : Fin 3) {h : Nat}
    (hl : ∀ j, AxisLink u L N j) (hh : h ∈ L) (h0 : 0 ∉ L)
    (hso : ∀ j, j ≠ k → SortedUpTo u j N) (hc : CacheInv u L k)
    (mn mx : Nat) (hmn : mn % 2 = 0)
    (hmx : mx % 2 = 1) (hlt : mn < mx) (hle : mx ≤ maxPos u h k)
    (hse : SortedExcept u k N (minE u h k))
    (hab : ∀ m, minE u h k < m → m ≤ N → mn ≤ edgePos u k m) :
    BInv (placeEdges u h k mn mx true) L N ∧
    MoveFrame u (placeEdges u h k mn mx true) L h k ∧
    minPos (placeEdges u h k mn mx true) h k = mn ∧
    maxPos (placeEdges u h k mn mx true) h k = mx := by
  rw [placeEdges_eq]
  obtain ⟨b1, b2, b3⟩ := (hl k).minE_range hh h0
  have hS : mx ≤ u.m_handleSentinel := by
    have := (hl k).pos_le _ ((hl k).max_le h (Or.inr hh))
    unfold maxPos at hle
    omega
  have hinv : LoopInv (setEdgePos u k (minE u h k) mn) L N k := by
    refine { link := ?_, cache := ?_, sorted_o := ?_ }
    · intro j
      by_cases hj : j = k
      · subst hj
        apply (hl j).write _ _ b1 b2 b3
        · have := (hl j).min_even h (Or.inr hh)
          unfold minPos at this
          omega
        · omega
        · intro a ha
          constructor
          · intro hc'
            have := (hl j).minE_inj ha (Or.inr hh) hc'
            subst this; omega
          · intro hc'
            exact absurd hc'.symm ((hl j).minE_ne_maxE (Or.inr hh) ha)
      · exact (hl j).write_other _ _ hj
    · refine ⟨hc.ordered, ?_⟩
      intro a b hab'
      have := hc.mem_iff a b hab'
      rw [intervalsOverlap_write_other u k _ mn a b (fin3_succ_ne k).1,
        intervalsOverlap_write_other u k _ mn a b (fin3_succ_ne k).2]
      exact this
    · intro j hj i m h1 h2
      rw [edgePos_setEdgePos_other u k _ mn hj, edgePos_setEdgePos_other u k _ mn hj]
      exact hso j hj i m h1 h2
  have hsew : SortedExcept (setEdgePos u k (minE u h k) mn) k N (minE u h k) := by
    intro i m him hmN hie hme
    rw [edgePos_setEdgePos_ne u k _ mn hie, edgePos_setEdgePos_ne u k _ mn hme]
    exact hse i m him hmN hie hme
  have habw : ∀ m, minE u h k < m → m ≤ N →
      edgePos (setEdgePos u k (minE u h k) mn) k (minE u h k)
        ≤ edgePos (setEdgePos u k (minE u h k) mn) k m := by
    intro m h1 h2
    rw [edgePos_setEdgePos_self, edgePos_setEdgePos_ne u k _ mn (by omega)]
    exact hab m h1 h2
  have hloop := sortMinDown_spec k L N (minE u h k) _ hinv b1
    (by rw [edgePos_setEdgePos_self]; exact hmn) hsew habw
  obtain ⟨m1, m2, m3⟩ := moveFrame_min (hl k) hh mn hloop.2.2
  have hb1 := (move_core (minE u h k) mn h0 hloop).1
  generalize sortMinDown k true (minE u h k) (setEdgePos u k (minE u h k) mn) = u1 at *
  obtain ⟨c1, c2, c3⟩ := hb1.maxE_bounds hh k
  obtain ⟨w1, w2⟩ := hb1.write_max hh mx hmx (by rw [m2]; exact hlt)
    (by rw [m1.sentinel]; exact hS)
  have habw2 : ∀ m, maxE u1 h k < m → m ≤ N →
      edgePos (setEdgePos u1 k (maxE u1 h k) mx) k (maxE u1 h k)
        ≤ edgePos (setEdgePos u1 k (maxE u1 h k) mx) k m := by
    intro m h1 h2
    rw [edgePos_setEdgePos_self, edgePos_setEdgePos_ne u1 k _ mx (by omega)]
    have := hb1.sorted k (maxE u1 h k) m (by omega) h2
    have h3 : maxPos u1 h k = edgePos u1 k (maxE u1 h k) := rfl
    omega
  have hloop2 := sortMaxDown_spec k L N (maxE u1 h k) _ w1 c1
    (by rw [edgePos_setEdgePos_self]; exact hmx) w2 habw2
  obtain ⟨r1, r2, r3, r4⟩ := move_max_result hb1 hh mx hloop2
  exact ⟨r1, m1.trans_move r2, by rw [r3, m2], r4⟩

/-- On an axis that is sorted when one slot is left out, two owners whose edges are in
other slots overlap by index exactly when they overlap by position. -/
theorem idxOverlap_iff_except {s : Broadphase T R} {L : List Nat} {k : Fin 3} {N e : Nat}
    (hl : AxisLink s L N k) (hs : SortedExcept s k N e) {a b : Nat} (ha : Owner L a)
    (hb : Owner L b) (h1 : minE s a k ≠ e) (h2 : maxE s a k ≠ e) (h3 : minE s b k ≠ e)
    (h4 : maxE s b k ≠ e) : idxOverlap s a b k ↔ intervalsOverlap s a b k := by
  have key : ∀ a b, Owner L a → Owner L b → minE s a k ≠ e → maxE s b k ≠ e →
      (minE s a k < maxE s b k ↔ minPos s a k ≤ maxPos s b k) := by
    intro a b ha hb hae hbe
    constructor
    · intro h
      exact hs _ _ (by omega) (hl.max_le b hb) hae hbe
    · intro h
      by_contra hc
      have h1 := hs (maxE s b k) (minE s a k) (by omega) (hl.min_le ha) hbe hae
      have h2 := hl.min_even a ha
      have h3 := hl.max_odd b hb
      unfold minPos maxPos at *
      omega
  unfold idxOverlap intervalsOverlap
  rw [key a b ha hb h1 h4, key b a hb ha h3 h2]

end AxisSweep3

namespace AxisSweep3

variable {T : IntType} {R : Type}

theorem createProxy_of_empty (s : Broadphase T R) (lo hi : Fin 3 → Int)
    (hf : s.m_firstFreeHandle = 0) :
    createProxy s lo hi = (s, .error .CapacityExceeded) := by
  unfold createProxy addHandle allocHandle
  simp [hf]

theorem createProxy_of_free (s : Broadphase T R) (lo hi : Fin 3 → Int)
    (hf : s.m_firstFreeHandle ≠ 0) :
    createProxy s lo hi =
      (placeEdges (placeEdges (placeEdges
        (insertEdges (insertEdges (insertEdges (allocState s)
          s.m_firstFreeHandle 0) s.m_firstFreeHandle 1) s.m_firstFreeHandle 2)
        s.m_firstFreeHandle 0 (quantize s lo 0 0) (quantize s hi 1 0) false)
        s.m_firstFreeHandle 1 (quantize s lo 0 1) (quantize s hi 1 1) false)
        s.m_firstFreeHandle 2 (quantize s lo 0 2) (quantize s hi 1 2) true,
        .ok s.m_firstFreeHandle) := by
  unfold createProxy addHandle allocHandle allocState
  simp [hf]

theorem FreeChain.first_eq_zero_iff {handles : Nat → Handle} {first : Nat} {free : List Nat}
    (hc : FreeChain handles first free) : first = 0 ↔ free = [] := by
  cases free with
  | nil => exact ⟨fun _ => rfl, fun _ => hc⟩
  | cons f rest =>
    obtain ⟨h1, h2, _⟩ := hc
    constructor
    · intro h; exact absurd (h1.symm.trans h) h2
    · intro h; exact absurd h (List.cons_ne_nil _ _)

/-- In a state that satisfies the invariant the free list is empty exactly when the
pool is full. -/
theorem Inv.full_iff {s : Broadphase T R} {L : List Nat} (hI : Inv s L) :
    s.m_firstFreeHandle = 0 ↔ s.m_numHandles = s.m_maxHandles := by
  obtain ⟨F, c1, _, _, c4, _⟩ := hI.pool
  rw [c1.first_eq_zero_iff, hI.numHandles]
  constructor
  · intro h; rw [h] at c4; simpa using c4
  · intro h
    have : F.length = 0 := by omega
    exact List.length_eq_zero.1 this

theorem allocState_axisEq (s : Broadphase T R) (L : List Nat) (j : Fin 3) :
    AxisEq s (allocState s) L j :=
  { edges := rfl, minE_eq := fun _ _ => rfl, maxE_eq := fun _ _ => rfl, sentinel := rfl }

/-- The quantized box of an axis-aligned box: an even min position below an odd max
position, which is at most the position of the max sentinel. -/
theorem quantize_box (s : Broadphase T R) {lo hi : Fin 3 → Int} (hv : ValidBox lo hi)
    (hS : s.m_handleSentinel % 2 = 1) (k : Fin 3) :
    quantize s lo 0 k % 2 = 0 ∧ quantize s hi 1 k % 2 = 1 ∧
      quantize s lo 0 k < quantize s hi 1 k ∧ quantize s hi 1 k ≤ s.m_handleSentinel := by
  rw [quantize_min, quantize_max]
  have h1 := clampCoord_mono s k (hv k)
  have h2 := clampCoord_le s hi k
  refine ⟨by omega, by omega, by omega, by omega⟩

/-- The pair cache at the start of the walk on the last axis: the new handle, whose edges
are the last two before the max sentinel, overlaps nothing by index. -/
theorem cacheInv_new {s u : Broadphase T R} {L : List Nat} {N : Nat} {h : Nat}
    (hc : CachePos s L) (hcache : u.m_pairCache = s.m_pairCache)
    (hl : AxisLink u (h :: L) (N + 2) 2) (hse : SortedExcept u 2 (N + 2) N)
    (hmin : minE u h 2 = N) (hmax : maxE u h 2 = N + 1) (hhL : h ∉ L) (hh0 : h ≠ 0)
    (h0L : 0 ∉ L)
    (hpos : ∀ a, a ∈ L → ∀ j, minPos u a j = minPos s a j ∧ maxPos u a j = maxPos s a j) :
    CacheInv u (h :: L) 2 := by
  have hho : Owner (h :: L) h := owner_cons.2 (Or.inl rfl)
  have hov : ∀ a b, a ∈ L → b ∈ L → ∀ j, intervalsOverlap u a b j ↔ intervalsOverlap s a b j := by
    intro a b ha hb j
    unfold intervalsOverlap
    rw [(hpos a ha j).1, (hpos a ha j).2, (hpos b hb j).1, (hpos b hb j).2]
  have hslot : ∀ x, x ∈ L → maxE u x 2 < N ∧ minE u x 2 ≠ N := by
    intro x hx
    have hxo : Owner (h :: L) x := owner_cons_of (Or.inr hx)
    have hxh : x ≠ h := fun hc' => hhL (hc' ▸ hx)
    have hx0 : x ≠ 0 := fun hc' => h0L (hc' ▸ hx)
    have e1 := hl.max_le x hxo
    have e2 : maxE u x 2 ≠ N := fun hc' =>
      hl.minE_ne_maxE hho hxo (by rw [hmin, hc'])
    have e3 : maxE u x 2 ≠ N + 1 := fun hc' =>
      hxh (hl.maxE_inj hxo hho (by rw [hmax, hc']))
    have e4 : maxE u x 2 ≠ N + 2 := fun hc' =>
      hx0 (hl.maxE_inj hxo (owner_cons_of (Or.inl rfl)) (by rw [hl.sent_max, hc']))
    have e5 := hl.min_lt_max x hxo
    exact ⟨by omega, by omega⟩
  have hidx : ∀ a b, a ∈ L → b ∈ L → (idxOverlap u a b 2 ↔ intervalsOverlap u a b 2) := by
    intro a b ha hb
    have sa := hslot a ha
    have sb := hslot b hb
    exact idxOverlap_iff_except hl hse (owner_cons_of (Or.inr ha)) (owner_cons_of (Or.inr hb))
      sa.2 (by omega) sb.2 (by omega)
  have hnew : ∀ x, x ∈ L → ¬ idxOverlap u h x 2 ∧ ¬ idxOverlap u x h 2 := by
    intro x hx
    have sx := hslot x hx
    unfold idxOverlap
    rw [hmin]
    constructor
    · rintro ⟨h1, _⟩; omega
    · rintro ⟨_, h1⟩; omega
  refine ⟨fun p hp => hc.ordered p (hcache ▸ hp), ?_⟩
  intro a b hab
  rw [hcache, hc.mem_iff a b hab]
  have e1 : (2 : Fin 3) + 1 = 0 := rfl
  have e2 : (2 : Fin 3) + 2 = 1 := rfl
  rw [e1, e2]
  constructor
  · rintro ⟨ha, hb, hovs⟩
    refine ⟨List.mem_cons_of_mem _ ha, List.mem_cons_of_mem _ hb, ?_, ?_, ?_⟩
    · exact (hidx a b ha hb).2 ((hov a b ha hb 2).2 (hovs 2))
    · exact (hov a b ha hb 0).2 (hovs 0)
    · exact (hov a b ha hb 1).2 (hovs 1)
  · rintro ⟨ha, hb, hi, ho0, ho1⟩
    rcases List.mem_cons.1 ha with ha1 | ha1
    · rcases List.mem_cons.1 hb with hb1 | hb1
      · omega
      · subst ha1
        exact absurd hi (hnew b hb1).1
    · rcases List.mem_cons.1 hb with hb1 | hb1
      · subst hb1
        exact absurd hi (hnew a ha1).2
      · refine ⟨ha1, hb1, ?_⟩
        intro j
        fin_cases j
        · exact (hov a b ha1 hb1 0).1 ho0
        · exact (hov a b ha1 hb1 1).1 ho1
        · exact (hov a b ha1 hb1 2).1 ((hidx a b ha1 hb1).1 hi)

end AxisSweep3

namespace AxisSweep3

variable {T : IntType} {R : Type}

/-- The invariant survives a successful `createProxy`, with the returned handle live. -/
theorem createProxy_inv {s s' : Broadphase T R} {L : List Nat} (hI : Inv s L)
    {lo hi : Fin 3 → Int} (hv : ValidBox lo hi) {h : Nat}
    (hc : createProxy s lo hi = (s', .ok h)) : Inv s' (h :: L) := by
  by_cases hf : s.m_firstFreeHandle = 0
  · rw [createProxy_of_empty s lo hi hf] at hc
    simp at hc
  rw [createProxy_of_free s lo hi hf] at hc
  simp only [Prod.mk.injEq, Except.ok.injEq] at hc
  obtain ⟨hs', hh⟩ := hc
  subst hh
  obtain ⟨F, c1, c2, c3, c4, c5⟩ := hI.pool
  -- the handle comes from the free list
  cases F with
  | nil => exact absurd c1 hf
  | cons f rest =>
  obtain ⟨d1, d2, d3⟩ := c1
  have hhL : s.m_firstFreeHandle ∉ L := by rw [d1]; exact c2 f (List.mem_cons_self _ _)
  have hb := hI.binv
  have hN : (allocState s).m_numHandles * 2 = (2 * L.length + 1) + 1 := by
    show (s.m_numHandles + 1) * 2 = _
    rw [hI.numHandles]; omega
  obtain ⟨i1, i2, i3, i4, i5⟩ := insertAll_spec (t := allocState s) (h := s.m_firstFreeHandle)
    (fun j => (allocState_axisEq s L j).link (hb.link j))
    (fun j => (allocState_axisEq s L j).sorted (hb.sorted j))
    hf hhL hb.zero_not_live hN hI.sentinel_odd
  have sc2 := insertEdges_scalars (insertEdges (insertEdges (allocState s)
    s.m_firstFreeHandle 0) s.m_firstFreeHandle 1) s.m_firstFreeHandle 2
  have sc1 := insertEdges_scalars (insertEdges (allocState s)
    s.m_firstFreeHandle 0) s.m_firstFreeHandle 1
  have sc0 := insertEdges_scalars (allocState s) s.m_firstFreeHandle 0
  have hp2 := insertEdges_pHandles (insertEdges (insertEdges (allocState s)
    s.m_firstFreeHandle 0) s.m_firstFreeHandle 1) s.m_firstFreeHandle 2
  have hp1 := insertEdges_pHandles (insertEdges (allocState s)
    s.m_firstFreeHandle 0) s.m_firstFreeHandle 1
  have hp0 := insertEdges_pHandles (allocState s) s.m_firstFreeHandle 0
  have q := fun k => quantize_box s hv hI.sentinel_odd k
  generalize quantize s lo 0 = qmin at *
  generalize quantize s hi 1 = qmax at *
  generalize hh : s.m_firstFreeHandle = h at *
  generalize ht1 : insertEdges (allocState s) h 0 = t1 at *
  generalize ht2 : insertEdges t1 h 1 = t2 at *
  generalize ht3 : insertEdges t2 h 2 = t3 at *
  have hsent : t3.m_handleSentinel = s.m_handleSentinel := by
    rw [sc2.1, sc1.1, sc0.1]; rfl
  have hcache : t3.m_pairCache = s.m_pairCache := by
    rw [sc2.2.2.2.2, sc1.2.2.2.2, sc0.2.2.2.2]; rfl
  have halloc : (allocState s).m_handleSentinel = s.m_handleSentinel := rfl
  have hho : Owner (h :: L) h := owner_cons.2 (Or.inl rfl)
  have hhm : h ∈ h :: L := List.mem_cons_self h L
  have h0L' : 0 ∉ h :: L := by
    intro hc
    rcases List.mem_cons.1 hc with h1 | h1
    · exact hf h1.symm
    · exact hb.zero_not_live h1
  have top : ∀ j m, 2 * L.length + 1 < m → m ≤ 2 * L.length + 1 + 2 →
      edgePos t3 j m = s.m_handleSentinel := by
    intro j m h1 h2
    by_cases hm : m = 2 * L.length + 1 + 1
    · have := (i3 j).2
      unfold maxPos at this
      rw [(i5 j).2] at this
      rw [hm, this]; rfl
    · have : m = 2 * L.length + 1 + 2 := by omega
      rw [this, (i1 j).pos_top, hsent]
  -- axis 0
  obtain ⟨a1, a2, a3, a4, a5, a6, a7⟩ := placeEdges_walk 0 (i1 0) hhm h0L' (qmin 0) (qmax 0)
    (q 0).1 (q 0).2.1 (q 0).2.2.1 (by rw [(i3 0).2, halloc]; exact (q 0).2.2.2)
    (by rw [(i5 0).1]; exact i2 0)
    (by
      intro m h1 h2
      rw [(i5 0).1] at h1
      rw [top 0 m h1 h2]
      have := (q 0).2.2.1
      have := (q 0).2.2.2
      omega)
  generalize placeEdges t3 h 0 (qmin 0) (qmax 0) false = u1 at *
  -- axis 1
  have e11 := a6 1 (by decide)
  obtain ⟨b1, b2, b3, b4, b5, b6, b7⟩ := placeEdges_walk 1 (e11.link (i1 1)) hhm h0L'
    (qmin 1) (qmax 1) (q 1).1 (q 1).2.1 (q 1).2.2.1
    (by rw [e11.maxPos_eq hho, (i3 1).2, halloc]; exact (q 1).2.2.2)
    (by rw [e11.minE_eq h hho, (i5 1).1]; exact e11.sortedExcept (i2 1))
    (by
      intro m h1 h2
      rw [e11.minE_eq h hho, (i5 1).1] at h1
      rw [e11.edgePos_eq, top 1 m h1 h2]
      have := (q 1).2.2.1
      have := (q 1).2.2.2
      omega)
  generalize placeEdges u1 h 1 (qmin 1) (qmax 1) false = u2 at *
  -- axis 2
  have e22 : AxisEq t3 u2 (h :: L) 2 := (a6 2 (by decide)).trans_eq (b6 2 (by decide))
  have e20 := b6 0 (by decide)
  have hl2 : ∀ j, AxisLink u2 (h :: L) (2 * L.length + 1 + 2) j := by
    intro j
    fin_cases j
    · exact e20.link a1
    · exact b1
    · exact e22.link (i1 2)
  have hso2 : ∀ j, j ≠ 2 → SortedUpTo u2 j (2 * L.length + 1 + 2) := by
    intro j hj
    fin_cases j
    · exact e20.sorted a2
    · exact b2
    · exact absurd rfl hj
  have hpos2 : ∀ a, a ∈ L → ∀ j, minPos u2 a j = minPos s a j ∧ maxPos u2 a j = maxPos s a j := by
    intro a ha j
    have hne : a ≠ h := fun hc => hhL (hc ▸ ha)
    have hao : Owner (h :: L) a := owner_cons_of (Or.inr ha)
    rw [b3.minPos_eq a hao j (Or.inl hne), a3.minPos_eq a hao j (Or.inl hne),
      b3.maxPos_eq a hao j (Or.inl hne), a3.maxPos_eq a hao j (Or.inl hne),
      (i4 a (Or.inr ha) j).1, (i4 a (Or.inr ha) j).2]
    exact ⟨rfl, rfl⟩
  have hci : CacheInv u2 (h :: L) 2 :=
    cacheInv_new hb.cache (by rw [b7, a7, hcache]) (hl2 2) (e22.sortedExcept (i2 2))
      (by rw [e22.minE_eq h hho, (i5 2).1]) (by rw [e22.maxE_eq h hho, (i5 2).2])
      hhL hf hb.zero_not_live hpos2
  obtain ⟨r1, r2, _, _⟩ := placeEdges_book 2 hl2 hhm h0L' hso2 hci (qmin 2) (qmax 2)
    (q 2).1 (q 2).2.1 (q 2).2.2.1
    (by rw [e22.maxPos_eq hho, (i3 2).2, halloc]; exact (q 2).2.2.2)
    (by rw [e22.minE_eq h hho, (i5 2).1]; exact e22.sortedExcept (i2 2))
    (by
      intro m h1 h2
      rw [e22.minE_eq h hho, (i5 2).1] at h1
      rw [e22.edgePos_eq, top 2 m h1 h2]
      have := (q 2).2.2.1
      have := (q 2).2.2.2
      omega)
  generalize placeEdges u2 h 2 (qmin 2) (qmax 2) true = u3 at *
  rw [← hs']
  have hsentF : u3.m_handleSentinel = s.m_handleSentinel := by
    rw [r2.sentinel, b3.sentinel, a3.sentinel, hsent]
  have hmaxF : u3.m_maxHandles = s.m_maxHandles := by
    rw [r2.maxHandles, b3.maxHandles, a3.maxHandles, sc2.2.2.1, sc1.2.2.1, sc0.2.2.1]; rfl
  have hff : f = h := d1.symm
  refine { binv := ?_, sentinel_odd := ?_, sentinel_eq := ?_, capacity := ?_, numHandles := ?_,
           nodup := ?_, live_le := ?_, pool := ?_ }
  · have : 2 * (h :: L).length + 1 = 2 * L.length + 1 + 2 := by
      simp only [List.length_cons]; omega
    rw [this]; exact r1
  · rw [hsentF]; exact hI.sentinel_odd
  · rw [hsentF]; exact hI.sentinel_eq
  · rw [hmaxF]; exact hI.capacity
  · rw [r2.numHandles, b3.numHandles, a3.numHandles, sc2.2.1, sc1.2.1, sc0.2.1]
    show s.m_numHandles + 1 = _
    rw [hI.numHandles]; rfl
  · exact List.nodup_cons.2 ⟨hhL, hI.nodup⟩
  · intro a ha
    rw [hmaxF]
    rcases List.mem_cons.1 ha with ha1 | ha1
    · rw [ha1, ← hff]; exact c5 f (List.mem_cons_self _ _)
    · exact hI.live_le a ha1
  · subst hff
    have c3' := List.nodup_cons.1 c3
    refine ⟨rest, ?_, ?_, c3'.2, ?_, ?_⟩
    · rw [r2.firstFree, b3.firstFree, a3.firstFree, sc2.2.2.2.1, sc1.2.2.2.1, sc0.2.2.2.1]
      show FreeChain _ ((s.m_pHandles s.m_firstFreeHandle).GetNextFree) rest
      rw [hh]
      apply d3.congr
      intro g hg
      have hg0 : g ≠ 0 := d3.ne_zero g hg
      have hgf : g ≠ f := fun hc => c3'.1 (hc ▸ hg)
      have hgL : g ∉ L := c2 g (List.mem_cons_of_mem _ hg)
      have hgo : ¬ Owner (f :: L) g := by
        intro hc
        rcases owner_cons.1 hc with h1 | h1 | h1
        · exact hgf h1
        · exact hg0 h1
        · exact hgL h1
      rw [r2.handles g hgo, b3.handles g hgo, a3.handles g hgo]
      rw [hp2 g hg0 hgf, hp1 g hg0 hgf, hp0 g hg0 hgf]
      rfl
    · intro g hg hc
      rcases List.mem_cons.1 hc with h1 | h1
      · exact c3'.1 (h1 ▸ hg)
      · exact c2 g (List.mem_cons_of_mem _ hg) h1
    · rw [hmaxF]
      simp only [List.length_cons] at c4 ⊢
      omega
    · intro g hg
      rw [hmaxF]
      exact c5 g (List.mem_cons_of_mem _ hg)

end AxisSweep3

namespace AxisSweep3

variable {T : IntType} {R : Type}

theorem minE_dropEdges (t : Broadphase T R) (k : Fin 3) (a : Nat) (j : Fin 3) :
    minE (dropEdges t k) a j = minE t a j := by
  unfold dropEdges
  simp only [minE_setMaxEdge, minE_setEdge]

theorem maxE_dropEdges (t : Broadphase T R) (k : Fin 3) (a : Nat) (j : Fin 3) :
    maxE (dropEdges t k) a j = if a = 0 ∧ j = k then maxE t 0 k - 2 else maxE t a j := by
  unfold dropEdges
  simp only [maxE_setMaxEdge, maxE_setEdge]

theorem pEdges_dropEdges (t : Broadphase T R) (k : Fin 3) (j : Fin 3) (m : Nat) :
    (dropEdges t k).m_pEdges j m =
      if j = k ∧ m = t.m_numHandles * 2 - 1 then { m_pos := t.m_handleSentinel, m_handle := 0 }
      else t.m_pEdges j m := by
  unfold dropEdges
  simp only [pEdges_setMaxEdge, pEdges_setEdge]

theorem dropEdges_scalars (t : Broadphase T R) (k : Fin 3) :
    (dropEdges t k).m_handleSentinel = t.m_handleSentinel ∧
    (dropEdges t k).m_numHandles = t.m_numHandles ∧
    (dropEdges t k).m_maxHandles = t.m_maxHandles ∧
    (dropEdges t k).m_firstFreeHandle = t.m_firstFreeHandle ∧
    (dropEdges t k).m_pairCache = t.m_pairCache := by
  unfold dropEdges
  dsimp only
  simp only [sentinel_setMaxEdge, sentinel_setEdge, numHandles_setMaxEdge, numHandles_setEdge,
    maxHandles_setMaxEdge, maxHandles_setEdge, firstFree_setMaxEdge, firstFree_setEdge,
    pairCache_setMaxEdge, pairCache_setEdge, and_self]

theorem dropEdges_pHandles (t : Broadphase T R) (k : Fin 3) (f : Nat) (hf0 : f ≠ 0) :
    (dropEdges t k).m_pHandles f = t.m_pHandles f := by
  unfold dropEdges
  dsimp only
  simp only [pHandles_setEdge]
  rw [pHandles_setMaxEdge_ne _ _ _ _ _ hf0]

theorem dropEdges_other (t : Broadphase T R) (k : Fin 3) (L : List Nat)
    {j : Fin 3} (hj : j ≠ k) : AxisEq t (dropEdges t k) L j := by
  refine { edges := ?_, minE_eq := ?_, maxE_eq := ?_, sentinel := (dropEdges_scalars t k).1 }
  · funext m; rw [pEdges_dropEdges]; simp [hj]
  · intro a _; rw [minE_dropEdges]
  · intro a _; rw [maxE_dropEdges]; simp [hj]

theorem owner_erase {L : List Nat} (hnd : L.Nodup) {h a : Nat} (hh0 : h ≠ 0) :
    Owner (L.erase h) a ↔ Owner L a ∧ a ≠ h := by
  unfold Owner
  rw [hnd.mem_erase_iff]
  constructor
  · rintro (h1 | ⟨h1, h2⟩)
    · exact ⟨Or.inl h1, fun hc => hh0 (hc ▸ h1)⟩
    · exact ⟨Or.inr h2, h1⟩
  · rintro ⟨h1 | h1, h2⟩
    · exact Or.inl h1
    · exact Or.inr ⟨h2, h1⟩

end AxisSweep3

namespace AxisSweep3

variable {T : IntType} {R : Type}

/-- The two topmost edges of one axis, which belong to the handle `h`, are dropped. -/
theorem dropEdges_link {t : Broadphase T R} {L : List Nat} {N : Nat} {k : Fin 3} {h : Nat}
    (hl : AxisLink t L N k) (hs : SortedExcept t k N (N - 2)) (hhL : h ∈ L) (h0L : 0 ∉ L)
    (hnd : L.Nodup) (hN : t.m_numHandles * 2 + 1 = N)
    (x1 : maxE t h k + 1 = N) (x2 : minE t h k + 2 = N) :
    AxisLink (dropEdges t k) (L.erase h) (N - 2) k ∧
    SortedUpTo (dropEdges t k) k (N - 2) ∧
    (∀ a, Owner (L.erase h) a → minPos (dropEdges t k) a k = minPos t a k ∧
      maxPos (dropEdges t k) a k = maxPos t a k) := by
  have hho : Owner L h := Or.inr hhL
  have hh0 : h ≠ 0 := fun hc => h0L (hc ▸ hhL)
  have hS : t.m_handleSentinel % 2 = 1 := by
    have := hl.max_odd 0 (Or.inl rfl)
    unfold maxPos at this
    rw [hl.sent_max, hl.pos_top] at this
    exact this
  have hsent := (dropEdges_scalars t k).1
  have hmE : ∀ a, minE (dropEdges t k) a k = minE t a k := fun a => minE_dropEdges t k a k
  have hxE : ∀ a, maxE (dropEdges t k) a k = if a = 0 then N - 2 else maxE t a k := by
    intro a; rw [maxE_dropEdges, hl.sent_max]; simp
  have hpos : ∀ m, edgePos (dropEdges t k) k m =
      if m = N - 2 then t.m_handleSentinel else edgePos t k m := by
    intro m
    unfold edgePos
    rw [pEdges_dropEdges]
    have : t.m_numHandles * 2 - 1 = N - 2 := by omega
    rw [this]
    simp only [true_and]
    split_ifs <;> rfl
  have hhan : ∀ m, edgeHandle (dropEdges t k) k m =
      if m = N - 2 then 0 else edgeHandle t k m := by
    intro m
    unfold edgeHandle
    rw [pEdges_dropEdges]
    have : t.m_numHandles * 2 - 1 = N - 2 := by omega
    rw [this]
    simp only [true_and]
    split_ifs <;> rfl
  -- the slots of the remaining handles lie below the new sentinel
  have hminlt : ∀ a, Owner L a → a ≠ h → minE t a k < N - 2 := by
    intro a ha hne
    have h1 := hl.min_lt_max a ha
    have h2 := hl.max_le a ha
    have h3 : minE t a k ≠ minE t h k := fun hc => hne (hl.minE_inj ha hho hc)
    have h4 : minE t a k ≠ maxE t h k := hl.minE_ne_maxE ha hho
    omega
  have hmaxlt : ∀ a, a ∈ L → a ≠ h → maxE t a k < N - 2 := by
    intro a ha hne
    have h2 := hl.max_le a (Or.inr ha)
    have h3 : maxE t a k ≠ maxE t h k := fun hc => hne (hl.maxE_inj (Or.inr ha) hho hc)
    have h4 : minE t h k ≠ maxE t a k := hl.minE_ne_maxE hho (Or.inr ha)
    have h5 : maxE t a k ≠ N := by
      intro hc
      have := hl.maxE_inj (Or.inr ha) (Or.inl rfl) (by rw [hc, hl.sent_max])
      exact h0L (this ▸ ha)
    omega
  have hminP : ∀ a, Owner L a → a ≠ h → minPos (dropEdges t k) a k = minPos t a k := by
    intro a ha hne
    have := hminlt a ha hne
    unfold minPos
    rw [hmE, hpos, if_neg (by omega)]
  have hmaxP : ∀ a, Owner L a → a ≠ h → maxPos (dropEdges t k) a k = maxPos t a k := by
    intro a ha hne
    unfold maxPos
    rw [hxE]
    rcases ha with h1 | h1
    · subst h1
      rw [if_pos rfl, hpos, if_pos rfl, hl.sent_max, hl.pos_top]
    · have := hmaxlt a h1 hne
      have ha0 : a ≠ 0 := fun hc => h0L (hc ▸ h1)
      rw [if_neg ha0, hpos, if_neg (by omega)]
  have hm0 := hl.sent_min
  have hm4 : minE t h k ≠ 0 := by
    intro hc
    exact hh0 (hl.minE_inj hho (Or.inl rfl) (by rw [hc, hl.sent_min]))
  refine ⟨?_, ?_, fun a ha => ?_⟩
  · refine
      { min_lt_max := ?_, max_le := ?_, min_handle := ?_, max_handle := ?_, min_even := ?_,
        max_odd := ?_, pos_lt := ?_, owner := ?_, sent_min := ?_, sent_max := ?_,
        pos_zero := ?_, pos_top := ?_, pos_le := ?_ }
    · intro a ha
      obtain ⟨ha1, ha2⟩ := (owner_erase hnd hh0).1 ha
      rw [hmE, hxE]
      have h1 := hminlt a ha1 ha2
      have h2 := hl.min_lt_max a ha1
      split_ifs
      · exact h1
      · exact h2
    · intro a ha
      obtain ⟨ha1, ha2⟩ := (owner_erase hnd hh0).1 ha
      rw [hxE]
      split_ifs with c
      · exact Nat.le_refl _
      · rcases ha1 with h1 | h1
        · exact absurd h1 c
        · have := hmaxlt a h1 ha2; omega
    · intro a ha
      obtain ⟨ha1, ha2⟩ := (owner_erase hnd hh0).1 ha
      have := hminlt a ha1 ha2
      rw [hmE, hhan, if_neg (by omega)]
      exact hl.min_handle a ha1
    · intro a ha
      obtain ⟨ha1, ha2⟩ := (owner_erase hnd hh0).1 ha
      rw [hxE, hhan]
      rcases ha1 with h1 | h1
      · subst h1; rw [if_pos rfl, if_pos rfl]
      · have := hmaxlt a h1 ha2
        have ha0 : a ≠ 0 := fun hc => h0L (hc ▸ h1)
        rw [if_neg ha0, if_neg (by omega)]
        exact hl.max_handle a (Or.inr h1)
    · intro a ha
      obtain ⟨ha1, ha2⟩ := (owner_erase hnd hh0).1 ha
      rw [hminP a ha1 ha2]; exact hl.min_even a ha1
    · intro a ha
      obtain ⟨ha1, ha2⟩ := (owner_erase hnd hh0).1 ha
      rw [hmaxP a ha1 ha2]; exact hl.max_odd a ha1
    · intro a ha
      obtain ⟨ha1, ha2⟩ := (owner_erase hnd hh0).1 ha
      rw [hminP a ha1 ha2, hmaxP a ha1 ha2]; exact hl.pos_lt a ha1
    · intro i hi
      rw [hhan, hpos]
      by_cases c : i = N - 2
      · simp only [c, if_true]
        refine ⟨Or.inl rfl, fun _ => ?_, fun hc => ?_⟩
        · rw [hxE, if_pos rfl]
        · omega
      · simp only [c, if_false]
        have ho := hl.owner i (by omega)
        have hne : edgeHandle t k i ≠ h := by
          intro hc2
          rw [hc2] at ho
          by_cases hp : edgePos t k i % 2 = 1
          · have := ho.2.1 hp; omega
          · have := ho.2.2 (by omega); omega
        refine ⟨(owner_erase hnd hh0).2 ⟨ho.1, hne⟩, fun hc => ?_, fun hc => ?_⟩
        · have h1 := ho.2.1 hc
          rw [hxE]
          have : edgeHandle t k i ≠ 0 := by
            intro h0
            rw [h0, hl.sent_max] at h1; omega
          rw [if_neg this]; exact h1
        · rw [hmE]; exact ho.2.2 hc
    · rw [hmE]; exact hl.sent_min
    · rw [hxE, if_pos rfl]
    · rw [hpos, if_neg (by omega)]; exact hl.pos_zero
    · rw [hpos, if_pos rfl, hsent]
    · intro i hi
      rw [hpos, hsent]
      split_ifs
      · exact Nat.le_refl _
      · exact hl.pos_le i (by omega)
  · intro i m him hmN
    rw [hpos, hpos]
    by_cases c : m = N - 2
    · simp only [c, if_true]
      split_ifs
      · exact Nat.le_refl _
      · exact hl.pos_le i (by omega)
    · rw [if_neg c, if_neg (by omega)]
      exact hs i m him (by omega) (by omega) c
  · obtain ⟨ha1, ha2⟩ := (owner_erase hnd hh0).1 ha
    exact ⟨hminP a ha1 ha2, hmaxP a ha1 ha2⟩

end AxisSweep3

namespace AxisSweep3

variable {T : IntType} {R : Type}

/-- The link of axis `k` after the edges at `i` and `i + 1`, which are not the two edges
of one handle and not a sentinel, changed places. -/
theorem StepRel.link_swap {s s' : Broadphase T R} {L : List Nat} {k : Fin 3} {i N : Nat}
    (hr : StepRel s s' L k i) (hl : AxisLink s L N k) (hi : i + 1 ≤ N)
    (hi0 : i ≠ 0) (hiN : i + 1 ≠ N)
    (hown : ∀ a, Owner L a → ¬ (minE s a k = i ∧ maxE s a k = i + 1)) :
    AxisLink s' L N k := by
  refine
    { min_lt_max := ?_, max_le := ?_, min_handle := ?_, max_handle := ?_, min_even := ?_,
      max_odd := ?_, pos_lt := ?_, owner := ?_, sent_min := ?_, sent_max := ?_, pos_zero := ?_,
      pos_top := ?_, pos_le := ?_ }
  · intro a ha
    rw [hr.min_k a ha, hr.max_k a ha]
    have h1 := hl.min_lt_max a ha
    have h2 := hown a ha
    unfold tau; split_ifs <;> omega
  · intro a ha; rw [hr.max_k a ha]; exact tau_le hi (hl.max_le a ha)
  · intro a ha; rw [hr.min_k a ha, hr.edgeHandle_k, tau_tau]; exact hl.min_handle a ha
  · intro a ha; rw [hr.max_k a ha, hr.edgeHandle_k, tau_tau]; exact hl.max_handle a ha
  · intro a ha; rw [hr.minPos_step ha]; exact hl.min_even a ha
  · intro a ha; rw [hr.maxPos_step ha]; exact hl.max_odd a ha
  · intro a ha; rw [hr.minPos_step ha, hr.maxPos_step ha]; exact hl.pos_lt a ha
  · intro m hm
    rw [hr.edgeHandle_k, hr.edgePos_k]
    have ho := hl.owner (tau i m) (tau_le hi hm)
    refine ⟨ho.1, ?_, ?_⟩
    · intro hp
      rw [hr.max_k _ ho.1, ho.2.1 hp, tau_tau]
    · intro hp
      rw [hr.min_k _ ho.1, ho.2.2 hp, tau_tau]
  · rw [hr.min_k 0 (Or.inl rfl), hl.sent_min]; exact tau_of_ne (by omega) (by omega)
  · rw [hr.max_k 0 (Or.inl rfl), hl.sent_max]; exact tau_of_ne (by omega) (by omega)
  · rw [hr.edgePos_k]
    have : tau i 0 = 0 := tau_of_ne (by omega) (by omega)
    rw [this]; exact hl.pos_zero
  · rw [hr.edgePos_k, hr.sentinel]
    have : tau i N = N := tau_of_ne (by omega) (by omega)
    rw [this]; exact hl.pos_top
  · intro m hm
    rw [hr.edgePos_k, hr.sentinel]
    exact hl.pos_le _ (tau_le hi hm)

/-- The edge at `e` went one slot up: the array without its new slot is sorted as the
array without its old slot was. -/
theorem StepRel.sortedExcept_up {s s' : Broadphase T R} {L : List Nat} {k : Fin 3} {e N : Nat}
    (hr : StepRel s s' L k e) (heN : e + 1 ≤ N) (hse : SortedExcept s k N e) :
    SortedExcept s' k N (e + 1) := by
  intro i m him hmN hie hme
  rw [hr.edgePos_k, hr.edgePos_k]
  by_cases hi1 : i = e
  · subst hi1
    rw [tau_left]
    by_cases hm1 : m = i
    · subst hm1; rw [tau_left]
    · rw [tau_of_ne hm1 hme]
      exact hse (i + 1) m (by omega) hmN (by omega) hm1
  · rw [tau_of_ne hi1 hie]
    by_cases hm1 : m = e
    · subst hm1; rw [tau_left]
      exact hse i (m + 1) (by omega) heN hi1 (by omega)
    · rw [tau_of_ne hm1 hme]
      exact hse i m him hmN hi1 hm1

theorem tau_eq_succ {i x : Nat} (h : tau i x = i + 1) : x = i := by
  unfold tau at h
  split_ifs at h <;> omega

/-- An edge is carried `c` slots up without overlap bookkeeping: the links hold, the
other edges keep their order, and nothing but the axis changes. -/
theorem carry_spec (k : Fin 3) (L : List Nat) (N par : Nat)
    (step stepT : Broadphase T R → Nat → Broadphase T R)
    (loop : Nat → Nat → Broadphase T R → Broadphase T R)
    (h0 : ∀ e s, loop 0 e s = s)
    (hS : ∀ c e s, loop (c + 1) e s = loop c (e + 1) (step s e))
    (hstep : ∀ s i, AxisLink s L N k → i + 1 ≤ N → edgePos s k i % 2 = par →
      StepRel s (stepT s i) L k i)
    (hfalse : ∀ s e, step s e = withCache (stepT s e) s.m_pairCache) :
    ∀ c e s, AxisLink s L N k → e ≠ 0 → e + c < N → edgePos s k e % 2 = par →
      (∀ a, Owner L a → minE s a k = e → e + c < maxE s a k) →
      SortedExcept s k N e →
      AxisLink (loop c e s) L N k ∧ SortedExcept (loop c e s) k N (e + c) ∧
      Walk s (loop c e s) L k ∧ (loop c e s).m_pEdges k (e + c) = s.m_pEdges k e := by
  intro c
  induction c with
  | zero =>
    intro e s hl _ _ _ _ hse
    rw [h0]
    exact ⟨hl, hse, Walk.refl_walk s L k, rfl⟩
  | succ c ih =>
    intro e s hl he0 hec hpar hown hse
    rw [hS, hfalse]
    have hr := hstep s e hl (by omega) hpar
    have hl' : AxisLink (withCache (stepT s e) s.m_pairCache) L N k :=
      (hr.link_swap hl (by omega) he0 (by omega)
        (fun a ha hc => by have := hown a ha hc.1; omega)).with_cache _
    have hpar' : edgePos (withCache (stepT s e) s.m_pairCache) k (e + 1) % 2 = par := by
      have : edgePos (stepT s e) k (e + 1) % 2 = par := by
        rw [hr.edgePos_k, tau_right]; exact hpar
      exact this
    have hown' : ∀ a, Owner L a → minE (withCache (stepT s e) s.m_pairCache) a k = e + 1 →
        e + 1 + c < maxE (withCache (stepT s e) s.m_pairCache) a k := by
      intro a ha hm
      have hm' : minE (stepT s e) a k = e + 1 := hm
      rw [hr.min_k a ha] at hm'
      have h1 := hown a ha (tau_eq_succ hm')
      show e + 1 + c < maxE (stepT s e) a k
      rw [hr.max_k a ha, tau_of_ne (by omega) (by omega)]
      omega
    have hse' : SortedExcept (withCache (stepT s e) s.m_pairCache) k N (e + 1) :=
      hr.sortedExcept_up (by omega) hse
    obtain ⟨r1, r2, r3, r4⟩ := ih (e + 1) (withCache (stepT s e) s.m_pairCache) hl'
      (by omega) (by omega) hpar' hown' hse'
    have harith : e + (c + 1) = e + 1 + c := by omega
    rw [harith]
    refine ⟨r1, r2, hr.walk.trans_walk r3, ?_⟩
    rw [r4]
    show (stepT s e).m_pEdges k (e + 1) = _
    rw [hr.edges_k, tau_right]

theorem carryMaxUp_spec (k : Fin 3) (L : List Nat) (N : Nat) (c e : Nat) (s : Broadphase T R)
    (hl : AxisLink s L N k) (he0 : e ≠ 0) (hec : e + c < N) (hpar : edgePos s k e % 2 = 1)
    (hse : SortedExcept s k N e) :
    AxisLink (carryMaxUp k c e s) L N k ∧ SortedExcept (carryMaxUp k c e s) k N (e + c) ∧
      Walk s (carryMaxUp k c e s) L k ∧ (carryMaxUp k c e s).m_pEdges k (e + c) = s.m_pEdges k e :=
  carry_spec k L N 1 (fun s e => sortMaxUpStep s k e false)
    (fun s e => sortMaxUpStep s k e true) (carryMaxUp k)
    (fun _ _ => rfl) (fun _ _ _ => rfl) (fun s i hl hi hp => sortMaxUpStep_rel s L N k i hl hi hp)
    (fun s e => sortMaxUpStep_false s k e) c e s hl he0 hec hpar
    (fun a ha hc => by
      have := hl.min_even a ha
      unfold minPos at this
      rw [hc] at this
      omega)
    hse

theorem carryMinUp_spec (k : Fin 3) (L : List Nat) (N : Nat) (c e : Nat) (s : Broadphase T R)
    (hl : AxisLink s L N k) (he0 : e ≠ 0) (hec : e + c < N) (hpar : edgePos s k e % 2 = 0)
    (hown : ∀ a, Owner L a → minE s a k = e → e + c < maxE s a k)
    (hse : SortedExcept s k N e) :
    AxisLink (carryMinUp k c e s) L N k ∧ SortedExcept (carryMinUp k c e s) k N (e + c) ∧
      Walk s (carryMinUp k c e s) L k ∧ (carryMinUp k c e s).m_pEdges k (e + c) = s.m_pEdges k e :=
  carry_spec k L N 0 (fun s e => sortMinUpStep s k e false)
    (fun s e => sortMinUpStep s k e true) (carryMinUp k)
    (fun _ _ => rfl) (fun _ _ _ => rfl) (fun s i hl hi hp => sortMinUpStep_rel s L N k i hl hi hp)
    (fun s e => sortMinUpStep_false s k e) c e s hl he0 hec hpar hown hse

end AxisSweep3

namespace AxisSweep3

variable {T : IntType} {R : Type}

theorem removeEdges_eq (t : Broadphase T R) (h : Nat) (k : Fin 3) :
    removeEdges t h k =
      dropEdges (carryMinUp k
        (t.m_numHandles * 2 - 1
          - minE (carryMaxUp k (t.m_numHandles * 2 - maxE t h k) (maxE t h k) t) h k)
        (minE (carryMaxUp k (t.m_numHandles * 2 - maxE t h k) (maxE t h k) t) h k)
        (carryMaxUp k (t.m_numHandles * 2 - maxE t h k) (maxE t h k) t)) k :=
  rfl

/-- An axis that is sorted but for a slot that holds the position of the max sentinel is
sorted. -/
theorem SortedExcept.of_top {s : Broadphase T R} {L : List Nat} {k : Fin 3} {N e : Nat}
    (hl : AxisLink s L N k) (hse : SortedExcept s k N e) (heN : e + 1 = N)
    (hpos : edgePos s k e = s.m_handleSentinel) : SortedUpTo s k N := by
  intro i m him hmN
  by_cases hm : m = e
  · rw [hm, hpos]; exact hl.pos_le i (by omega)
  · by_cases hi : i = e
    · have : m = N := by omega
      rw [hi, this, hpos, hl.pos_top]
    · exact hse i m him hmN hi hm

/-- The two edges of a handle whose max edge is at the position of the max sentinel are
removed from one axis: the links and the order of the remaining owners hold, and nothing
but the axis changes. -/
theorem removeEdges_link {t : Broadphase T R} {L : List Nat} {N : Nat} {k : Fin 3} {h : Nat}
    (hl : AxisLink t L N k) (hs : SortedUpTo t k N) (hhL : h ∈ L) (h0L : 0 ∉ L)
    (hnd : L.Nodup) (hN : t.m_numHandles * 2 + 1 = N)
    (hmax : maxPos t h k = t.m_handleSentinel) :
    AxisLink (removeEdges t h k) (L.erase h) (N - 2) k ∧
    SortedUpTo (removeEdges t h k) k (N - 2) ∧
    (∀ a, Owner (L.erase h) a → minPos (removeEdges t h k) a k = minPos t a k ∧
      maxPos (removeEdges t h k) a k = maxPos t a k) ∧
    (∀ j, j ≠ k → AxisEq t (removeEdges t h k) L j) ∧
    ((removeEdges t h k).m_handleSentinel = t.m_handleSentinel ∧
      (removeEdges t h k).m_numHandles = t.m_numHandles ∧
      (removeEdges t h k).m_maxHandles = t.m_maxHandles ∧
      (removeEdges t h k).m_firstFreeHandle = t.m_firstFreeHandle ∧
      (removeEdges t h k).m_pairCache = t.m_pairCache) ∧
    (∀ f, ¬ Owner L f → (removeEdges t h k).m_pHandles f = t.m_pHandles f) := by
  rw [removeEdges_eq]
  have hho : Owner L h := Or.inr hhL
  have hh0 : h ≠ 0 := fun hc => h0L (hc ▸ hhL)
  have hsub : ∀ a, Owner (L.erase h) a → Owner L a := fun a ha => ((owner_erase hnd hh0).1 ha).1
  have hS : t.m_handleSentinel % 2 = 1 := by
    have := hl.max_odd 0 (Or.inl rfl)
    unfold maxPos at this
    rw [hl.sent_max, hl.pos_top] at this
    exact this
  -- the max edge is carried to the slot below the max sentinel
  obtain ⟨x1, x2, x3⟩ := hl.maxE_range hhL h0L
  have hlim : t.m_numHandles * 2 = N - 1 := by omega
  have hc1 : maxE t h k + (t.m_numHandles * 2 - maxE t h k) = N - 1 := by omega
  obtain ⟨a1, a2, a3, a4⟩ := carryMaxUp_spec k L N (t.m_numHandles * 2 - maxE t h k)
    (maxE t h k) t hl x2 (by omega)
    (by have := hl.max_odd h hho; unfold maxPos at this; exact this)
    (fun i m h1 h2 _ _ => hs i m h1 h2)
  rw [hc1] at a2 a4
  generalize carryMaxUp k (t.m_numHandles * 2 - maxE t h k) (maxE t h k) t = t1 at *
  have hpos1 : edgePos t1 k (N - 1) = t.m_handleSentinel := by
    unfold edgePos; rw [a4]; exact hmax
  have hhan1 : edgeHandle t1 k (N - 1) = h := by
    unfold edgeHandle; rw [a4]; exact hl.max_handle h hho
  have hmaxE1 : maxE t1 h k = N - 1 := by
    have := (a1.owner (N - 1) (by omega)).2.1 (by rw [hpos1]; exact hS)
    rw [hhan1] at this; exact this
  have hs1 : SortedUpTo t1 k N :=
    SortedExcept.of_top a1 a2 (by omega) (by rw [hpos1, a3.frame.sentinel])
  -- the min edge is carried to the slot below it
  obtain ⟨y1, y2, y3⟩ := a1.minE_range hhL h0L
  have hminlt := a1.min_lt_max h hho
  have hc2 : minE t1 h k + (t.m_numHandles * 2 - 1 - minE t1 h k) = N - 2 := by omega
  obtain ⟨b1, b2, b3, b4⟩ := carryMinUp_spec k L N (t.m_numHandles * 2 - 1 - minE t1 h k)
    (minE t1 h k) t1 a1 y2 (by omega)
    (by have := a1.min_even h hho; unfold minPos at this; exact this)
    (fun a ha hc => by
      have := a1.minE_inj ha hho hc
      subst this
      omega)
    (fun i m h1 h2 _ _ => hs1 i m h1 h2)
  rw [hc2] at b2 b4
  generalize carryMinUp k (t.m_numHandles * 2 - 1 - minE t1 h k) (minE t1 h k) t1 = t2 at *
  have hminE2 : minE t2 h k = N - 2 := by
    have hp : edgePos t2 k (N - 2) % 2 = 0 := by
      unfold edgePos; rw [b4]
      have := a1.min_even h hho
      unfold minPos edgePos at this
      exact this
    have hh2 : edgeHandle t2 k (N - 2) = h := by
      unfold edgeHandle; rw [b4]; exact a1.min_handle h hho
    have := (b1.owner (N - 2) (by omega)).2.2 hp
    rw [hh2] at this; exact this
  have hmaxE2 : maxE t2 h k + 1 = N := by
    obtain ⟨z1, _, z3⟩ := b1.maxE_range hhL h0L
    have := b1.min_lt_max h hho
    omega
  have hnum2 : t2.m_numHandles = t.m_numHandles := by
    rw [b3.frame.numHandles, a3.frame.numHandles]
  obtain ⟨d1, d2, d3⟩ := dropEdges_link b1 b2 hhL h0L hnd (by rw [hnum2]; exact hN)
    hmaxE2 (by omega)
  have sc := dropEdges_scalars t2 k
  refine ⟨d1, d2, ?_, ?_, ?_, ?_⟩
  · intro a ha
    have hao := hsub a ha
    rw [(d3 a ha).1, (d3 a ha).2, b3.frame.minPos_eq a hao k, b3.frame.maxPos_eq a hao k,
      a3.frame.minPos_eq a hao k, a3.frame.maxPos_eq a hao k]
    exact ⟨rfl, rfl⟩
  · intro j hj
    exact ((a3.others j hj).trans_eq (b3.others j hj)).trans_eq (dropEdges_other t2 k L hj)
  · refine ⟨?_, ?_, ?_, ?_, ?_⟩
    · rw [sc.1, b3.frame.sentinel, a3.frame.sentinel]
    · rw [sc.2.1, b3.frame.numHandles, a3.frame.numHandles]
    · rw [sc.2.2.1, b3.frame.maxHandles, a3.frame.maxHandles]
    · rw [sc.2.2.2.1, b3.frame.firstFree, a3.frame.firstFree]
    · rw [sc.2.2.2.2, b3.cache, a3.cache]
  · intro f hf
    have hf0 : f ≠ 0 := fun hc => hf (Or.inl hc)
    rw [dropEdges_pHandles t2 k f hf0, b3.frame.handles f hf, a3.frame.handles f hf]

end AxisSweep3

namespace AxisSweep3

variable {T : IntType} {R : Type}

/-- The six edges of a handle whose max edges are at the position of the max sentinel
are removed from the three axes. -/
theorem removeAll_spec {t : Broadphase T R} {L : List Nat} {N : Nat} {h : Nat}
    (hl : ∀ j, AxisLink t L N j) (hs : ∀ j, SortedUpTo t j N) (hhL : h ∈ L) (h0L : 0 ∉ L)
    (hnd : L.Nodup) (hN : t.m_numHandles * 2 + 1 = N)
    (hmax : ∀ j, maxPos t h j = t.m_handleSentinel) :
    (∀ j, AxisLink (removeEdges (removeEdges (removeEdges t h 0) h 1) h 2) (L.erase h)
      (N - 2) j) ∧
    (∀ j, SortedUpTo (removeEdges (removeEdges (removeEdges t h 0) h 1) h 2) j (N - 2)) ∧
    (∀ a, Owner (L.erase h) a → ∀ j,
      minPos (removeEdges (removeEdges (removeEdges t h 0) h 1) h 2) a j = minPos t a j ∧
      maxPos (removeEdges (removeEdges (removeEdges t h 0) h 1) h 2) a j = maxPos t a j) ∧
    ((removeEdges (removeEdges (removeEdges t h 0) h 1) h 2).m_handleSentinel
        = t.m_handleSentinel ∧
      (removeEdges (removeEdges (removeEdges t h 0) h 1) h 2).m_numHandles = t.m_numHandles ∧
      (removeEdges (removeEdges (removeEdges t h 0) h 1) h 2).m_maxHandles = t.m_maxHandles ∧
      (removeEdges (removeEdges (removeEdges t h 0) h 1) h 2).m_firstFreeHandle
        = t.m_firstFreeHandle ∧
      (removeEdges (removeEdges (removeEdges t h 0) h 1) h 2).m_pairCache = t.m_pairCache) ∧
    (∀ f, ¬ Owner L f →
      (removeEdges (removeEdges (removeEdges t h 0) h 1) h 2).m_pHandles f = t.m_pHandles f) := by
  have hho : Owner L h := Or.inr hhL
  have hh0 : h ≠ 0 := fun hc => h0L (hc ▸ hhL)
  have hsub : ∀ a, Owner (L.erase h) a → Owner L a := fun a ha => ((owner_erase hnd hh0).1 ha).1
  -- axis 0
  obtain ⟨a0, b0, e0, o0, sc0, p0⟩ := removeEdges_link (hl 0) (hs 0) hhL h0L hnd hN (hmax 0)
  have o01 := o0 1 (by decide)
  have o02 := o0 2 (by decide)
  generalize removeEdges t h 0 = u1 at *
  -- axis 1
  obtain ⟨a1, b1, e1, o1, sc1, p1⟩ := removeEdges_link (o01.link (hl 1)) (o01.sorted (hs 1))
    hhL h0L hnd (by rw [sc0.2.1]; exact hN)
    (by rw [o01.maxPos_eq hho, sc0.1]; exact hmax 1)
  have o10 := o1 0 (by decide)
  have o12 := o1 2 (by decide)
  generalize removeEdges u1 h 1 = u2 at *
  have o2 : AxisEq t u2 L 2 := o02.trans_eq o12
  -- axis 2
  obtain ⟨a2, b2, e2, o2', sc2, p2⟩ := removeEdges_link (o2.link (hl 2)) (o2.sorted (hs 2))
    hhL h0L hnd (by rw [sc1.2.1, sc0.2.1]; exact hN)
    (by rw [o2.maxPos_eq hho, sc1.1, sc0.1]; exact hmax 2)
  have o20 := o2' 0 (by decide)
  have o21 := o2' 1 (by decide)
  generalize removeEdges u2 h 2 = u3 at *
  refine ⟨?_, ?_, ?_, ?_, ?_⟩
  · intro j
    fin_cases j
    · exact (o20.mono hsub).link ((o10.mono hsub).link a0)
    · exact (o21.mono hsub).link a1
    · exact a2
  · intro j
    fin_cases j
    · exact o20.sorted (o10.sorted b0)
    · exact o21.sorted b1
    · exact b2
  · intro a ha j
    have hao := hsub a ha
    fin_cases j
    · show minPos u3 a 0 = _ ∧ maxPos u3 a 0 = _
      rw [o20.minPos_eq hao, o10.minPos_eq hao, o20.maxPos_eq hao, o10.maxPos_eq hao]
      exact e0 a ha
    · show minPos u3 a 1 = _ ∧ maxPos u3 a 1 = _
      rw [o21.minPos_eq hao, o21.maxPos_eq hao, (e1 a ha).1, (e1 a ha).2,
        o01.minPos_eq hao, o01.maxPos_eq hao]
      exact ⟨rfl, rfl⟩
    · show minPos u3 a 2 = _ ∧ maxPos u3 a 2 = _
      rw [(e2 a ha).1, (e2 a ha).2, o2.minPos_eq hao, o2.maxPos_eq hao]
      exact ⟨rfl, rfl⟩
  · refine ⟨?_, ?_, ?_, ?_, ?_⟩
    · rw [sc2.1, sc1.1, sc0.1]
    · rw [sc2.2.1, sc1.2.1, sc0.2.1]
    · rw [sc2.2.2.1, sc1.2.2.1, sc0.2.2.1]
    · rw [sc2.2.2.2.1, sc1.2.2.2.1, sc0.2.2.2.1]
    · rw [sc2.2.2.2.2, sc1.2.2.2.2, sc0.2.2.2.2]
  · intro f hf
    rw [p2 f hf, p1 f hf, p0 f hf]

theorem mem_cleanProxy (c : List (Nat × Nat)) (h : Nat) (p : Nat × Nat) :
    p ∈ cleanProxy c h ↔ p ∈ c ∧ p.1 ≠ h ∧ p.2 ≠ h := by
  unfold cleanProxy
  simp [List.mem_filter]

theorem GetNextFree_SetNextFree (x : Handle) (n : Nat) : (x.SetNextFree n).GetNextFree = n := by
  simp [Handle.SetNextFree, Handle.GetNextFree]

/-- The invariant survives `destroyProxy` on a live handle, which is no longer live. -/
theorem destroyProxy_inv {s : Broadphase T R} {L : List Nat} (hI : Inv s L) {h : Nat}
    (hh : h ∈ L) : Inv (destroyProxy s h) (L.erase h) := by
  have hS := hI.sentinel_odd
  have hh0 : h ≠ 0 := fun hc => hI.binv.zero_not_live (hc ▸ hh)
  have hho : Owner L h := Or.inr hh
  -- the walk to the extreme position
  obtain ⟨r1, r2, _, r4⟩ := updateHandle_spec hI.binv hh (extremeCoord s) (extremeCoord s)
    (fun k => Int.le_refl _) hS
  have hsub : ∀ a, Owner (L.erase h) a → Owner L a :=
    fun a ha => ((owner_erase hI.nodup hh0).1 ha).1
  have hlen : 1 ≤ L.length := List.length_pos_of_mem hh
  have hlen' : (L.erase h).length = L.length - 1 := List.length_erase_of_mem hh
  obtain ⟨q1, q2, q3, sc, hp⟩ :=
    removeAll_spec (t := updateHandle s h (extremeCoord s) (extremeCoord s))
    r1.link r1.sorted hh r1.zero_not_live hI.nodup
    (by rw [r2.numHandles, hI.numHandles]; omega)
    (fun j => by rw [r4 j, r2.sentinel, clampCoord_extreme]; omega)
  unfold destroyProxy removeHandle
  dsimp only
  generalize updateHandle s h (extremeCoord s) (extremeCoord s) = s1 at *
  generalize removeEdges (removeEdges (removeEdges s1 h 0) h 1) h 2 = u3 at *
  -- the last two steps leave the arrays of the remaining owners alone
  have hfin : ∀ j, AxisEq u3
      (freeHandle (withCache u3 (cleanProxy u3.m_pairCache h)) h) (L.erase h) j := by
    intro j
    refine { edges := rfl, minE_eq := ?_, maxE_eq := ?_, sentinel := rfl }
    · intro a ha
      have hne : a ≠ h := ((owner_erase hI.nodup hh0).1 ha).2
      unfold minE freeHandle
      simp [hne, withCache]
    · intro a ha
      have hne : a ≠ h := ((owner_erase hI.nodup hh0).1 ha).2
      unfold maxE freeHandle
      simp [hne, withCache]
  have hN' : 2 * (L.erase h).length + 1 = 2 * L.length + 1 - 2 := by omega
  show Inv (freeHandle (withCache u3 (cleanProxy u3.m_pairCache h)) h) (L.erase h)
  have hmaxF : (freeHandle (withCache u3 (cleanProxy u3.m_pairCache h)) h).m_maxHandles
      = s.m_maxHandles := by
    show u3.m_maxHandles = _
    rw [sc.2.2.1, r2.maxHandles]
  have hsentF : (freeHandle (withCache u3 (cleanProxy u3.m_pairCache h)) h).m_handleSentinel
      = s.m_handleSentinel := by
    show u3.m_handleSentinel = _
    rw [sc.1, r2.sentinel]
  refine { binv := ?_, sentinel_odd := ?_, sentinel_eq := ?_, capacity := ?_, numHandles := ?_,
           nodup := ?_, live_le := ?_, pool := ?_ }
  · rw [hN']
    refine { link := fun j => (hfin j).link (q1 j), sorted := fun j => (hfin j).sorted (q2 j),
             cache := ?_, zero_not_live := ?_ }
    · have hcache : (freeHandle (withCache u3 (cleanProxy u3.m_pairCache h)) h).m_pairCache
          = cleanProxy s1.m_pairCache h := by
        show cleanProxy u3.m_pairCache h = _
        rw [sc.2.2.2.2]
      have hov : ∀ a b, Owner (L.erase h) a → Owner (L.erase h) b → ∀ j,
          (intervalsOverlap (freeHandle (withCache u3 (cleanProxy u3.m_pairCache h)) h)
            a b j ↔ intervalsOverlap s1 a b j) := by
        intro a b ha hb j
        rw [(hfin j).overlap ha hb]
        unfold intervalsOverlap
        rw [(q3 a ha j).1, (q3 a ha j).2, (q3 b hb j).1, (q3 b hb j).2]
      refine ⟨?_, ?_⟩
      · intro p hp'
        rw [hcache, mem_cleanProxy] at hp'
        exact r1.cache.ordered p hp'.1
      · intro a b hab
        rw [hcache, mem_cleanProxy, r1.cache.mem_iff a b hab, hI.nodup.mem_erase_iff,
          hI.nodup.mem_erase_iff]
        constructor
        · rintro ⟨⟨ha, hb, ho⟩, hah, hbh⟩
          have hao : Owner (L.erase h) a := (owner_erase hI.nodup hh0).2 ⟨Or.inr ha, hah⟩
          have hbo : Owner (L.erase h) b := (owner_erase hI.nodup hh0).2 ⟨Or.inr hb, hbh⟩
          exact ⟨⟨hah, ha⟩, ⟨hbh, hb⟩, fun j => (hov a b hao hbo j).2 (ho j)⟩
        · rintro ⟨⟨hah, ha⟩, ⟨hbh, hb⟩, ho⟩
          have hao : Owner (L.erase h) a := (owner_erase hI.nodup hh0).2 ⟨Or.inr ha, hah⟩
          have hbo : Owner (L.erase h) b := (owner_erase hI.nodup hh0).2 ⟨Or.inr hb, hbh⟩
          exact ⟨⟨ha, hb, fun j => (hov a b hao hbo j).1 (ho j)⟩, hah, hbh⟩
    · intro hc
      exact hI.binv.zero_not_live (List.mem_of_mem_erase hc)
  · rw [hsentF]; exact hS
  · rw [hsentF]; exact hI.sentinel_eq
  · rw [hmaxF]; exact hI.capacity
  · show u3.m_numHandles - 1 = _
    rw [sc.2.1, r2.numHandles, hI.numHandles, hlen']
  · exact hI.nodup.erase h
  · intro a ha
    rw [hmaxF]
    exact hI.live_le a (List.mem_of_mem_erase ha)
  · obtain ⟨F, c1, c2, c3, c4, c5⟩ := hI.pool
    refine ⟨h :: F, ?_, ?_, ?_, ?_, ?_⟩
    · refine ⟨rfl, hh0, ?_⟩
      have hnext : ((freeHandle (withCache u3 (cleanProxy u3.m_pairCache h)) h).m_pHandles
          h).GetNextFree = s.m_firstFreeHandle := by
        unfold freeHandle
        simp only [Function.update_same]
        rw [GetNextFree_SetNextFree]
        show u3.m_firstFreeHandle = _
        rw [sc.2.2.2.1, r2.firstFree]
      rw [hnext]
      apply c1.congr
      intro g hg
      have hg0 : g ≠ 0 := c1.ne_zero g hg
      have hgL : g ∉ L := c2 g hg
      have hgh : g ≠ h := fun hc => hgL (hc ▸ hh)
      have hgo : ¬ Owner L g := by
        rintro (h1 | h1)
        · exact hg0 h1
        · exact hgL h1
      have e1 : (freeHandle (withCache u3 (cleanProxy u3.m_pairCache h)) h).m_pHandles g
          = u3.m_pHandles g := by
        unfold freeHandle
        simp [hgh, withCache]
      rw [e1, hp g hgo]
      exact r2.handles g hgo
    · intro g hg hc
      rcases List.mem_cons.1 hg with h1 | h1
      · subst h1
        exact ((hI.nodup.mem_erase_iff).1 hc).1 rfl
      · exact c2 g h1 (List.mem_of_mem_erase hc)
    · exact List.nodup_cons.2 ⟨fun hc => c2 h hc hh, c3⟩
    · rw [hmaxF, hlen']
      simp only [List.length_cons]
      omega
    · intro g hg
      rw [hmaxF]
      rcases List.mem_cons.1 hg with h1 | h1
      · rw [h1]; exact hI.live_le h hh
      · exact c5 g h1

end AxisSweep3

namespace AxisSweep3

variable {T : IntType} {R : Type}

theorem sentinel_odd (T : IntType) : (2 ^ T.bits - 1) % 2 = 1 := by
  cases T <;> decide

theorem construct_chain (T : IntType) (wmin wmax : R) (maxHandles : Nat) :
    ∀ n i, 1 ≤ i → i + n = maxHandles + 1 →
      FreeChain (construct T wmin wmax maxHandles).m_pHandles (if n = 0 then 0 else i)
        (List.range' i n) := by
  intro n
  induction n with
  | zero => intro i _ _; exact rfl
  | succ n ih =>
    intro i hi hin
    rw [if_neg (by omega), List.range'_succ]
    refine ⟨rfl, by omega, ?_⟩
    have hnext : ((construct T wmin wmax maxHandles).m_pHandles i).GetNextFree
        = if n = 0 then 0 else i + 1 := by
      unfold construct
      simp only
      rw [if_neg (by omega), GetNextFree_SetNextFree]
      by_cases hn : n = 0
      · rw [if_pos hn, if_neg (by omega)]
      · rw [if_neg hn, if_pos (by omega)]
    rw [hnext]
    exact ih (i + 1) (by omega) (by omega)

/-- The freshly constructed broadphase satisfies the invariant, with no live handle. -/
theorem construct_inv (T : IntType) (wmin wmax : R) (maxHandles : Nat)
    (hcap : edgeArraySize maxHandles ≤ 2 ^ T.bits) :
    Inv (construct T wmin wmax maxHandles) [] := by
  have hS := sentinel_odd T
  have hpow : 1 ≤ 2 ^ T.bits := Nat.one_le_two_pow
  have hown : ∀ a, Owner [] a → a = 0 := by
    intro a ha
    rcases ha with h | h
    · exact h
    · simp at h
  have hlen : 2 * ([] : List Nat).length + 1 = 1 := rfl
  refine { binv := ?_, sentinel_odd := hS, sentinel_eq := ?_, capacity := hcap,
           numHandles := rfl, nodup := List.nodup_nil, live_le := ?_, pool := ?_ }
  · rw [hlen]
    refine { link := ?_, sorted := ?_, cache := ?_, zero_not_live := by simp }
    · intro j
      refine
        { min_lt_max := ?_, max_le := ?_, min_handle := ?_, max_handle := ?_, min_even := ?_,
          max_odd := ?_, pos_lt := ?_, owner := ?_, sent_min := rfl, sent_max := rfl,
          pos_zero := rfl, pos_top := rfl, pos_le := ?_ }
      · intro a ha; rw [hown a ha]; show 0 < 1; omega
      · intro a ha; rw [hown a ha]; exact Nat.le_refl _
      · intro a ha; rw [hown a ha]; rfl
      · intro a ha; rw [hown a ha]; rfl
      · intro a ha; rw [hown a ha]; rfl
      · intro a ha; rw [hown a ha]; exact hS
      · intro a ha; rw [hown a ha]; show 0 < 2 ^ T.bits - 1; omega
      · intro i hi
        have : i = 0 ∨ i = 1 := by omega
        rcases this with h | h
        · subst h
          exact ⟨Or.inl rfl, fun hc => by simp [edgePos, construct] at hc, fun _ => rfl⟩
        · subst h
          refine ⟨Or.inl rfl, fun _ => rfl, fun hc => ?_⟩
          have : edgePos (construct T wmin wmax maxHandles) j 1 = 2 ^ T.bits - 1 := rfl
          omega
      · intro i hi
        have : i = 0 ∨ i = 1 := by omega
        rcases this with h | h
        · subst h; exact Nat.zero_le _
        · subst h; exact Nat.le_refl _
    · intro j i m him hm
      have h1 : i = 0 ∨ i = 1 := by omega
      have h2 : m = 0 ∨ m = 1 := by omega
      rcases h1 with h1 | h1 <;> rcases h2 with h2 | h2 <;> subst h1 <;> subst h2
      · exact Nat.le_refl _
      · exact Nat.zero_le _
      · omega
      · exact Nat.le_refl _
    · refine ⟨fun p hp => by simp [construct] at hp, ?_⟩
      intro a b _
      constructor
      · intro h; simp [construct] at h
      · rintro ⟨h, _⟩; simp at h
  · show 2 ^ T.bits - 1 + 1 = 2 ^ T.bits
    omega
  · intro a ha; simp at ha
  · refine ⟨List.range' 1 maxHandles, ?_, by simp, List.nodup_range' _ _, ?_, ?_⟩
    · have := construct_chain T wmin wmax maxHandles maxHandles 1 (Nat.le_refl _) (by omega)
      exact this
    · simp only [List.length_nil, List.length_range', Nat.zero_add]; rfl
    · intro f hf
      have := (List.mem_range'_1.1 hf).2
      show f ≤ maxHandles
      omega

theorem createProxy_error {s s' : Broadphase T R} {lo hi : Fin 3 → Int} {e : Error}
    (hc : createProxy s lo hi = (s', .error e)) :
    s' = s ∧ e = .CapacityExceeded ∧ s.m_firstFreeHandle = 0 := by
  by_cases hf : s.m_firstFreeHandle = 0
  · rw [createProxy_of_empty s lo hi hf] at hc
    simp only [Prod.mk.injEq, Except.error.injEq] at hc
    exact ⟨hc.1.symm, hc.2.symm, hf⟩
  · rw [createProxy_of_free s lo hi hf] at hc
    simp at hc

/-- Every reachable state satisfies the invariant. -/
theorem reachable_inv {s : Broadphase T R} {L : List Nat} (hr : Reachable s L) : Inv s L := by
  induction hr with
  | init wmin wmax maxHandles hcap => exact construct_inv T wmin wmax maxHandles hcap
  | create _ hv hc ih => exact createProxy_inv ih hv hc
  | createFailed _ hc ih => rw [(createProxy_error hc).1]; exact ih
  | update _ hh hv ih => exact setAabb_inv ih hh hv
  | destroy _ hh ih => exact destroyProxy_inv ih hh

end AxisSweep3

namespace AxisSweep3

variable {T : IntType} {R : Type}

theorem createProxy_eq (s : Broadphase T R) (lo hi : Fin 3 → Int)
    (hf : s.m_firstFreeHandle ≠ 0) :
    createProxy s lo hi = ((createProxy s lo hi).1, .ok s.m_firstFreeHandle) := by
  rw [createProxy_of_free s lo hi hf]

theorem oneBox_reachable : Reachable oneBox [1] :=
  Reachable.create (Reachable.init () () 2 (by decide))
    (by decide : ValidBox ![0, 0, 0] ![2, 2, 2])
    (createProxy_eq _ _ _ (by decide))

theorem twoBoxes_reachable : Reachable twoBoxes [2, 1] :=
  Reachable.create oneBox_reachable (by decide : ValidBox ![1, 1, 1] ![3, 3, 3])
    ((createProxy_eq oneBox _ _ (by decide)).trans
      (congrArg (fun h => ((createProxy oneBox ![1, 1, 1] ![3, 3, 3]).1, Except.ok h))
        (by decide : oneBox.m_firstFreeHandle = 2)))

theorem clampedBox_reachable : Reachable clampedBox [1] :=
  Reachable.create (Reachable.init () () 4 (by decide))
    (by decide : ValidBox ![100, 100, 100] ![40000, 32767, 32767])
    (createProxy_eq _ _ _ (by decide))

theorem clampedBoxes_reachable : Reachable clampedBoxes [2, 1] :=
  Reachable.create clampedBox_reachable
    (by decide : ValidBox ![32767, 32767, 32767] ![50000, 50000, 50000])
    ((createProxy_eq clampedBox _ _ (by decide)).trans
      (congrArg (fun h => ((createProxy clampedBox ![32767, 32767, 32767]
          ![50000, 50000, 50000]).1, Except.ok h))
        (by decide : clampedBox.m_firstFreeHandle = 2)))

/-- C2: in every state reached by the public operations, called with any boxes, on each
axis the used part of the edge array, from the min sentinel at slot 0 to the max sentinel
at slot `2 * m_numHandles + 1`, is sorted nondecreasing by position. -/
theorem edges_sorted {s : Broadphase T R} {live : List Nat} (hr : Reachable s live)
    (axis : Fin 3) :
    (edgeHandle s axis 0 = 0 ∧ edgePos s axis 0 = 0 ∧
      maxE s 0 axis = 2 * s.m_numHandles + 1 ∧
      edgeHandle s axis (2 * s.m_numHandles + 1) = 0 ∧
      edgePos s axis (2 * s.m_numHandles + 1) = s.m_handleSentinel) ∧
    ∀ i j, i ≤ j → j ≤ 2 * s.m_numHandles + 1 → edgePos s axis i ≤ edgePos s axis j := by
  have hI := reachable_inv hr
  have hl := hI.binv.link axis
  rw [hI.numHandles]
  refine ⟨⟨?_, hl.pos_zero, hl.sent_max, ?_, hl.pos_top⟩, hI.binv.sorted axis⟩
  · have := hl.min_handle 0 (Or.inl rfl)
    rw [hl.sent_min] at this; exact this
  · have := hl.max_handle 0 (Or.inl rfl)
    rw [hl.sent_max] at this; exact this

theorem edges_sorted_witness :
    (Reachable clampedBoxes [2, 1] ∧ 1 ≤ 4 ∧ 4 ≤ 2 * clampedBoxes.m_numHandles + 1) ∧
    edgePos clampedBoxes 0 1 ≤ edgePos clampedBoxes 0 4 :=
  ⟨⟨clampedBoxes_reachable, by decide, by decide!⟩,
    (edges_sorted clampedBoxes_reachable 0).2 1 4 (by decide) (by decide!)⟩

/-- C3: `createProxy` on a full pool fails with `CapacityExceeded` and returns the
broadphase as it was, with its handle count, edge arrays and pair cache; and in every
reachable state the handle count is the number of live handles and does not exceed
`m_maxHandles`. -/
theorem createProxy_capacity {s : Broadphase T R} {live : List Nat} (hr : Reachable s live)
    (lo hi : Fin 3 → Int) :
    (s.m_numHandles = s.m_maxHandles →
      createProxy s lo hi = (s, .error .CapacityExceeded)) ∧
    getNumHandles s = live.length ∧ getNumHandles s ≤ s.m_maxHandles := by
  have hI := reachable_inv hr
  refine ⟨fun hfull => createProxy_of_empty s lo hi (hI.full_iff.2 hfull), hI.numHandles, ?_⟩
  obtain ⟨F, _, _, _, c4, _⟩ := hI.pool
  unfold getNumHandles
  rw [hI.numHandles]; omega

theorem createProxy_capacity_witness :
    (Reachable twoBoxes [2, 1] ∧ twoBoxes.m_maxHandles = 2 ∧
      twoBoxes.m_numHandles = twoBoxes.m_maxHandles) ∧
    createProxy twoBoxes ![5, 5, 5] ![6, 6, 6] = (twoBoxes, .error .CapacityExceeded) :=
  ⟨⟨twoBoxes_reachable, by decide!, by decide!⟩,
    (createProxy_capacity twoBoxes_reachable ![5, 5, 5] ![6, 6, 6]).1 (by decide!)⟩

/-- In every reachable state the used slots lie inside the edge arrays, which have
`m_maxHandles * 2 + 2` entries. -/
theorem used_slots_in_array {s : Broadphase T R} {live : List Nat} (hr : Reachable s live) :
    2 * s.m_numHandles + 1 < edgeArraySize s.m_maxHandles := by
  have hI := reachable_inv hr
  obtain ⟨F, _, _, _, c4, _⟩ := hI.pool
  unfold edgeArraySize
  rw [hI.numHandles]; omega

/-- In every reachable state the members that the header declares with the integer type
of the variant hold values of that type: the counts, the head of the free list, the
sentinel position, the live handles, the edge indexes of every owner, and the position
and the handle of every used edge. The natural numbers of the model never leave the range
in which they are the machine integers. -/
theorem reachable_representable {s : Broadphase T R} {live : List Nat}
    (hr : Reachable s live) :
    s.m_numHandles < 2 ^ T.bits ∧ s.m_maxHandles < 2 ^ T.bits ∧
    s.m_firstFreeHandle < 2 ^ T.bits ∧ s.m_handleSentinel < 2 ^ T.bits ∧
    (∀ a, a ∈ live → a < 2 ^ T.bits) ∧
    (∀ axis a, Owner live a → minE s a axis < 2 ^ T.bits ∧ maxE s a axis < 2 ^ T.bits) ∧
    (∀ axis i, i ≤ 2 * s.m_numHandles + 1 →
      edgePos s axis i < 2 ^ T.bits ∧ edgeHandle s axis i < 2 ^ T.bits) := by
  have hI := reachable_inv hr
  obtain ⟨F, c1, _, _, c4, c5⟩ := hI.pool
  have hcap := hI.capacity
  unfold edgeArraySize at hcap
  have hnum := hI.numHandles
  have hlive : ∀ a, a ∈ live → a < 2 ^ T.bits := by
    intro a ha
    have := hI.live_le a ha
    omega
  have hfirst : s.m_firstFreeHandle ≤ s.m_maxHandles := by
    cases F with
    | nil => have : s.m_firstFreeHandle = 0 := c1
             omega
    | cons f rest =>
      obtain ⟨d1, _, _⟩ := c1
      rw [d1]; exact c5 f (List.mem_cons_self _ _)
  have hown : ∀ a, Owner live a → a < 2 ^ T.bits := by
    rintro a (h0 | h1)
    · omega
    · exact hlive a h1
  refine ⟨by omega, by omega, by omega, by have := hI.sentinel_eq; omega, hlive, ?_, ?_⟩
  · intro axis a ha
    have hl := hI.binv.link axis
    have h1 := hl.max_le a ha
    have h2 := hl.min_lt_max a ha
    constructor <;> omega
  · intro axis i hi
    have hl := hI.binv.link axis
    rw [hnum] at hi
    have h1 := hl.pos_le i hi
    have h2 := (hl.owner i hi).1
    have h3 := hI.sentinel_eq
    exact ⟨by omega, hown _ h2⟩

/-! ### The scenarios of the specification on the model -/

/-- Two disjoint boxes: the pair cache stays empty. -/
theorem scenario_two_disjoint :
    (createProxy oneBox ![10, 10, 10] ![11, 11, 11]).1.m_pairCache = [] := by
  decide!

/-- Two overlapping boxes: the pair cache holds exactly their pair. -/
theorem scenario_two_overlapping : twoBoxes.m_pairCache = [(1, 2)] := by
  decide!

/-- Separation by motion: after the second box moved away the pair cache is empty. -/
theorem scenario_separation :
    (setAabb twoBoxes 2 ![10, 10, 10] ![11, 11, 11]).m_pairCache = [] := by
  decide!

/-- Three-axis exclusion: boxes that overlap on X and Y only are no pair; once the second
box is moved to overlap on Z as well, they are. -/
theorem scenario_three_axis :
    (createProxy (createProxy (construct .u16 () () 2) ![0, 0, 0] ![10, 10, 1]).1
      ![0, 0, 2] ![10, 10, 3]).1.m_pairCache = [] ∧
    (setAabb (createProxy (createProxy (construct .u16 () () 2) ![0, 0, 0] ![10, 10, 1]).1
      ![0, 0, 2] ![10, 10, 3]).1 2 ![0, 0, 1] ![10, 10, 2]).m_pairCache = [(1, 2)] := by
  constructor <;> decide!

/-- After `destroyProxy` no entry of the pair cache references the handle, and the slot is
the first of the free list again. -/
theorem scenario_destroy :
    (destroyProxy twoBoxes 1).m_pairCache = [] ∧
    (destroyProxy twoBoxes 1).m_firstFreeHandle = 1 ∧
    (destroyProxy twoBoxes 1).m_numHandles = 1 := by
  refine ⟨?_, ?_, ?_⟩ <;> decide!

/-- Boxes at the world maximum: a box that reaches beyond it is clamped, its max edges rest
at the position of the max sentinel, and a box at the world maximum is its pair; the axis
stays sorted, with the edges of equal position in the order in which they came. -/
theorem scenario_world_max :
    clampedBoxes.m_pairCache = [(1, 2)] ∧
    (List.range 6).map (fun i => (edgePos clampedBoxes 0 i, edgeHandle clampedBoxes 0 i))
      = [(0, 0), (200, 1), (65534, 2), (65535, 1), (65535, 2), (65535, 0)] := by
  constructor <;> decide!

/-- A handle destroyed beside a box at the world maximum: the slot returns to the free
list, the remaining box keeps its edges, and a box created in the slot inside the
remaining one is its pair. -/
theorem scenario_world_max_destroy :
    (destroyProxy clampedBoxes 2).m_pairCache = [] ∧
    (destroyProxy clampedBoxes 2).m_firstFreeHandle = 2 ∧
    (List.range 4).map (fun i => (edgePos (destroyProxy clampedBoxes 2) 0 i,
        edgeHandle (destroyProxy clampedBoxes 2) 0 i))
      = [(0, 0), (200, 1), (65535, 1), (65535, 0)] ∧
    clampedAgain.m_pairCache = [(1, 2)] := by
  refine ⟨?_, ?_, ?_, ?_⟩ <;> decide!

/-- The pool that was emptied and refilled beside a box at the world maximum is full with
four handles, and the next `createProxy` fails and changes nothing. -/
theorem scenario_refilled :
    refilled.m_numHandles = 4 ∧ refilled.m_maxHandles = 4 ∧
    createProxy refilled ![1, 1, 1] ![2, 2, 2] = (refilled, .error .CapacityExceeded) :=
  ⟨by decide!, by decide!, createProxy_of_empty refilled _ _ (by decide!)⟩

end AxisSweep3

namespace AxisSweep3

variable {T : IntType} {R : Type}

theorem IsMax_low_bit_witness :
    ((Edge.mk 7 3).m_pos = 2 * 3 + 1 ∧ (Edge.mk 6 3).m_pos = 2 * 3) ∧
    ((Edge.mk 7 3).IsMax .u16 = 1 ∧ (Edge.mk 6 3).IsMax .u32 = 0) :=
  ⟨⟨rfl, rfl⟩, (IsMax_low_bit .u16 (Edge.mk 7 3)).2.1 3 rfl,
    (IsMax_low_bit .u32 (Edge.mk 6 3)).2.2.1 3 rfl⟩

theorem pos_order_witness :
    ((Edge.mk 6 1).m_pos >>> 1 = (Edge.mk 7 2).m_pos >>> 1 ∧ (Edge.mk 6 1).IsMax .u16 = 0 ∧
      (Edge.mk 7 2).IsMax .u16 = 1 ∧ (Edge.mk 7 2).m_pos >>> 1 < (Edge.mk 8 1).m_pos >>> 1) ∧
    ((Edge.mk 6 1).m_pos < (Edge.mk 7 2).m_pos ∧ (Edge.mk 7 2).m_pos < (Edge.mk 8 1).m_pos) :=
  ⟨⟨by decide, by decide, by decide, by decide⟩,
    (pos_order .u16 (Edge.mk 6 1) (Edge.mk 7 2)).1 (by decide) (by decide) (by decide),
    (pos_order .u16 (Edge.mk 7 2) (Edge.mk 8 1)).2 (by decide)⟩

/-- C7: `getBroadphaseAabb` writes the world bounds `m_worldAabbMin` and
`m_worldAabbMax` and leaves the broadphase as it was; two states with the same world
bounds give the same result, whatever proxies they hold. -/
theorem getBroadphaseAabb_world (s : Broadphase T R) (aabbMin aabbMax : R) :
    (getBroadphaseAabb s aabbMin aabbMax).1 = s ∧
    (getBroadphaseAabb s aabbMin aabbMax).2.1 = s.m_worldAabbMin ∧
    (getBroadphaseAabb s aabbMin aabbMax).2.2 = s.m_worldAabbMax ∧
    (∀ (s' : Broadphase T R) (aabbMin' aabbMax' : R),
      s'.m_worldAabbMin = s.m_worldAabbMin → s'.m_worldAabbMax = s.m_worldAabbMax →
      (getBroadphaseAabb s' aabbMin' aabbMax').2 = (getBroadphaseAabb s aabbMin aabbMax).2) := by
  refine ⟨rfl, rfl, rfl, ?_⟩
  intro s' _ _ h1 h2
  unfold getBroadphaseAabb
  simp only [h1, h2]

/-- C8: without a `maxHandles` argument the 16-bit variant is constructed for 16384
handles and the 32-bit variant for 1500000, and for both the largest edge-array index
`2 * maxHandles + 1` fits the unsigned integer type of the variant. -/
theorem default_maxHandles (worldAabbMin worldAabbMax : R) :
    (btAxisSweep3 worldAabbMin worldAabbMax none).m_maxHandles = 16384 ∧
    (bt32BitAxisSweep3 worldAabbMin worldAabbMax none).m_maxHandles = 1500000 ∧
    edgeArraySize (btAxisSweep3 worldAabbMin worldAabbMax none).m_maxHandles - 1
      = 2 * 16384 + 1 ∧
    edgeArraySize (bt32BitAxisSweep3 worldAabbMin worldAabbMax none).m_maxHandles - 1
      = 2 * 1500000 + 1 ∧
    2 * (btAxisSweep3 worldAabbMin worldAabbMax none).m_maxHandles + 1 < 2 ^ IntType.u16.bits ∧
    2 * (bt32BitAxisSweep3 worldAabbMin worldAabbMax none).m_maxHandles + 1
      < 2 ^ IntType.u32.bits := by
  have h16 : (btAxisSweep3 worldAabbMin worldAabbMax none).m_maxHandles = 16384 := rfl
  have h32 : (bt32BitAxisSweep3 worldAabbMin worldAabbMax none).m_maxHandles = 1500000 := rfl
  rw [h16, h32]
  unfold edgeArraySize IntType.bits
  norm_num

theorem getBroadphaseAabb_world_witness :
    ((construct .u16 (-5 : Int) 7 100).m_worldAabbMin = (construct .u16 (-5 : Int) 7 2).m_worldAabbMin ∧
      (construct .u16 (-5 : Int) 7 100).m_worldAabbMax
        = (construct .u16 (-5 : Int) 7 2).m_worldAabbMax) ∧
    (getBroadphaseAabb (construct .u16 (-5 : Int) 7 100) 0 0).2
      = (getBroadphaseAabb (construct .u16 (-5 : Int) 7 2) 1 1).2 :=
  ⟨⟨rfl, rfl⟩,
    (getBroadphaseAabb_world (construct .u16 (-5 : Int) 7 2) 1 1).2.2.2
      (construct .u16 (-5 : Int) 7 100) 0 0 rfl rfl⟩

end AxisSweep3

namespace Scene

mutual
theorem FindNode_nonconst_eq (n : aiNode) (name : List Nat) :
    n.FindNode_nonconst name = (n, n.FindNode name) := by
  cases n with
  | mk a nm cs =>
    rw [aiNode.FindNode_nonconst, aiNode.FindNode]
    by_cases h : strcmp nm name = 0
    · rw [if_pos h, if_pos h]
    · rw [if_neg h, if_neg h, nonconst_children_eq cs name]
theorem nonconst_children_eq (cs : List aiNode) (name : List Nat) :
    FindNode_nonconst.children cs name = (cs, FindNode.children cs name) := by
  cases cs with
  | nil => rw [FindNode_nonconst.children, FindNode.children]
  | cons c cs =>
    rw [FindNode_nonconst.children, FindNode.children, FindNode_nonconst_eq c name,
      nonconst_children_eq cs name]
    cases c.FindNode name <;> rfl
end

theorem const_children_eq (cs : List aiNode) (name : List Nat) :
    FindNode_const.children cs name = (cs, FindNode.children cs name) := by
  induction cs with
  | nil => rw [FindNode_const.children, FindNode.children]
  | cons c cs ih =>
    rw [FindNode_const.children, FindNode.children, FindNode_nonconst_eq c name, ih]
    cases c.FindNode name <;> rfl

theorem FindNode_const_eq (n : aiNode) (name : List Nat) :
    n.FindNode_const name = (n, n.FindNode name) := by
  cases n with
  | mk a nm cs =>
    rw [aiNode.FindNode_const, aiNode.FindNode]
    by_cases h : strcmp nm name = 0
    · rw [if_pos h, if_pos h]
    · rw [if_neg h, if_neg h, const_children_eq cs name]

/-- C11: the four `FindNode` overloads agree. On every node tree and every name the const
and the non-const `FindNode(const char*)` return the same pointer, which is the node that
the search for the first match in pre-order finds, or both return NULL; each
`FindNode(const aiString&)` returns what the `FindNode(const char*)` of the same constness
returns on `name.data`, hence all four return the same; and after each of the four calls
the tree is the tree before the call. -/
theorem FindNode_overloads_agree (n : aiNode) (name : List Nat) (s : aiString) :
    ((n.FindNode_const name).2 = (n.FindNode_nonconst name).2 ∧
      (n.FindNode_const name).2 = n.FindNode name) ∧
    ((n.FindNode_aiString_const s).2 = (n.FindNode_const s.data).2 ∧
      (n.FindNode_aiString_nonconst s).2 = (n.FindNode_nonconst s.data).2 ∧
      (n.FindNode_aiString_const s).2 = (n.FindNode_aiString_nonconst s).2) ∧
    ((n.FindNode_const name).1 = n ∧ (n.FindNode_nonconst name).1 = n ∧
      (n.FindNode_aiString_const s).1 = n ∧ (n.FindNode_aiString_nonconst s).1 = n) := by
  unfold aiNode.FindNode_aiString_const aiNode.FindNode_aiString_nonconst
  rw [FindNode_const_eq, FindNode_nonconst_eq, FindNode_const_eq, FindNode_nonconst_eq]
  exact ⟨⟨rfl, rfl⟩, ⟨rfl, rfl, rfl⟩, ⟨rfl, rfl, rfl, rfl⟩⟩

/-- The four overloads on a tree in which two nodes carry the searched name: each returns
the node at address 3, the first of the two in pre-order, and leaves the tree as it was. -/
theorem overloads_example :
    (aiNode.mk 1 [97] [aiNode.mk 2 [99] [], aiNode.mk 3 [98, 0, 7] [aiNode.mk 4 [98] []],
        aiNode.mk 5 [98] []]).FindNode_const [98, 0]
      = (aiNode.mk 1 [97] [aiNode.mk 2 [99] [], aiNode.mk 3 [98, 0, 7] [aiNode.mk 4 [98] []],
          aiNode.mk 5 [98] []],
        some (aiNode.mk 3 [98, 0, 7] [aiNode.mk 4 [98] []])) ∧
    (aiNode.mk 1 [97] [aiNode.mk 2 [99] [], aiNode.mk 3 [98, 0, 7] [aiNode.mk 4 [98] []],
        aiNode.mk 5 [98] []]).FindNode_nonconst [98, 0]
      = (aiNode.mk 1 [97] [aiNode.mk 2 [99] [], aiNode.mk 3 [98, 0, 7] [aiNode.mk 4 [98] []],
          aiNode.mk 5 [98] []],
        some (aiNode.mk 3 [98, 0, 7] [aiNode.mk 4 [98] []])) ∧
    (aiNode.mk 1 [97] [aiNode.mk 2 [99] [], aiNode.mk 3 [98, 0, 7] [aiNode.mk 4 [98] []],
        aiNode.mk 5 [98] []]).FindNode_aiString_const ⟨[98, 0, 0, 0]⟩
      = (aiNode.mk 1 [97] [aiNode.mk 2 [99] [], aiNode.mk 3 [98, 0, 7] [aiNode.mk 4 [98] []],
          aiNode.mk 5 [98] []],
        some (aiNode.mk 3 [98, 0, 7] [aiNode.mk 4 [98] []])) ∧
    (aiNode.mk 1 [97] [aiNode.mk 2 [99] [], aiNode.mk 3 [98, 0, 7] [aiNode.mk 4 [98] []],
        aiNode.mk 5 [98] []]).FindNode_aiString_nonconst ⟨[98, 0, 0, 0]⟩
      = (aiNode.mk 1 [97] [aiNode.mk 2 [99] [], aiNode.mk 3 [98, 0, 7] [aiNode.mk 4 [98] []],
          aiNode.mk 5 [98] []],
        some (aiNode.mk 3 [98, 0, 7] [aiNode.mk 4 [98] []])) ∧
    (aiNode.mk 1 [97] [aiNode.mk 2 [99] []]).FindNode_const [98]
      = (aiNode.mk 1 [97] [aiNode.mk 2 [99] []], none) ∧
    (aiNode.mk 1 [97] [aiNode.mk 2 [99] []]).FindNode_nonconst [98]
      = (aiNode.mk 1 [97] [aiNode.mk 2 [99] []], none) :=
  ⟨rfl, rfl, rfl, rfl, rfl, rfl⟩

end Scene
